import Mathlib

/-!
# Postal-code validation by country

A verification development for the Go package `postcode`
(`postcode_by_country.go`): a validator holds a table from country code to a
regular expression, and `ValidatePostalCode` upper-cases both arguments, looks
the country up, compiles its pattern and matches the postal code against it.

The package calls three library functions, `strings.ToUpper`,
`regexp.Compile` and `(*Regexp).MatchString`.  They are embedded here as
executable definitions that follow the Go standard library:

* a string is the sequence of its runes (`String`); a byte that is not valid
  UTF-8 is read as the rune U+FFFD, which is what `strings.ToUpper` turns it
  into, and both arguments are only ever used after `strings.ToUpper`;
* the Unicode case tables are not part of the repository: the upper-case
  mapping of the runes above ASCII is the parameter `CaseRanges`;
* `regexp.Compile` is the parser of `regexp/syntax` under the `Perl` flags,
  written as the same operator-stack machine; `MatchString` is the unanchored
  search of the compiled expression.
-/

namespace Postcode

/-! ## Upper-casing -/

/-- The upper-case mapping of `unicode.CaseRanges` on the runes above ASCII.
The table itself belongs to the Go release, so it is a parameter; the two
fields are the facts about it that the development relies on: a rune above
ASCII is sent above ASCII or to an ASCII capital letter (in Unicode only
U+0131 and U+017F are sent into ASCII, to `I` and `S`), and upper-casing an
upper-cased rune changes nothing. -/
structure CaseRanges where
  upper : Char → Char
  upper_high : ∀ c : Char, 128 ≤ c.toNat →
    128 ≤ (upper c).toNat ∨ (65 ≤ (upper c).toNat ∧ (upper c).toNat ≤ 90)
  upper_idem : ∀ c : Char, 128 ≤ c.toNat → 128 ≤ (upper c).toNat →
    upper (upper c) = upper c

namespace unicode

/-- Go `unicode.ToUpper`: ASCII runes are handled inline (`a`..`z` move down
by 32, every other ASCII rune is unchanged), the others go through the case
table. -/
def ToUpper (T : CaseRanges) (r : Char) : Char :=
  if r.toNat ≤ 127 then
    if 97 ≤ r.toNat ∧ r.toNat ≤ 122 then Char.ofNat (r.toNat - 32) else r
  else T.upper r

end unicode

namespace strings

/-- Go `strings.ToUpper`: every rune of `s` mapped by `unicode.ToUpper`. -/
def ToUpper (T : CaseRanges) (s : String) : String :=
  String.mk (s.data.map (unicode.ToUpper T))

end strings

/-! ## Regular expressions: the parsed form -/

namespace regexp

/-- The error codes of `regexp/syntax`.  `NotModelled` is not a Go code: it
marks the constructs this development leaves out (see `Compile`). -/
inductive ErrorCode
  | ErrInternalError
  | ErrInvalidCharRange
  | ErrInvalidEscape
  | ErrInvalidPerlOp
  | ErrInvalidRepeatOp
  | ErrInvalidRepeatSize
  | ErrMissingBracket
  | ErrMissingParen
  | ErrMissingRepeatArgument
  | ErrTrailingBackslash
  | ErrUnexpectedParen
  | NotModelled
  deriving DecidableEq, Repr

/-- Go `ErrorCode.String`. -/
def ErrorCode.String : ErrorCode → String
  | .ErrInternalError => "regexp/syntax: internal error"
  | .ErrInvalidCharRange => "invalid character class range"
  | .ErrInvalidEscape => "invalid escape sequence"
  | .ErrInvalidPerlOp => "invalid or unsupported Perl syntax"
  | .ErrInvalidRepeatOp => "invalid nested repetition operator"
  | .ErrInvalidRepeatSize => "invalid repeat count"
  | .ErrMissingBracket => "missing closing ]"
  | .ErrMissingParen => "missing closing )"
  | .ErrMissingRepeatArgument => "missing argument to repetition operator"
  | .ErrTrailingBackslash => "trailing backslash at end of expression"
  | .ErrUnexpectedParen => "unexpected )"
  | .NotModelled => "construct outside the modelled pattern language"

/-- Go `syntax.Error`: the code and the offending piece of the pattern. -/
structure Error where
  Code : ErrorCode
  Expr : List Char
  deriving DecidableEq, Repr

set_option linter.dupNamespace false in
/-- Go `(*Error).Error`: the message text; U+0060 is the back quote around
the offending expression. -/
def Error.Error (e : Error) : String :=
  "error parsing regexp: " ++ e.Code.String ++ ": \x60" ++ String.mk e.Expr ++ "\x60"

/-- The parse flags that pattern text can change: `i`, `m` (clears
`OneLine`), `s` and `U`.  `ClassNL`, `PerlX` and `UnicodeGroups` are always
set under `regexp.Compile` and no pattern can clear them. -/
structure Flags where
  FoldCase : Bool
  OneLine : Bool
  DotNL : Bool
  NonGreedy : Bool
  deriving DecidableEq, Repr

/-- Go `syntax.Perl`, the flags `regexp.Compile` parses with. -/
def Perl : Flags := { FoldCase := false, OneLine := true, DotNL := false, NonGreedy := false }

/-- Go `syntax.Regexp`.  A literal and the two any-character operators are
character classes here; a class is a list of closed rune ranges, read as its
complement when `neg` is set.  `rep` is `OpRepeat`, with `none` for a missing
upper bound (Go's `Max = -1`). -/
inductive Regexp
  | OpNoMatch
  | OpEmptyMatch
  | OpCharClass (neg : Bool) (ranges : List (Nat × Nat))
  | OpBeginLine
  | OpEndLine
  | OpBeginText
  | OpEndText
  | OpWordBoundary
  | OpNoWordBoundary
  | OpCapture (sub : Regexp)
  | OpStar (sub : Regexp)
  | OpPlus (sub : Regexp)
  | OpQuest (sub : Regexp)
  | OpRepeat (min : Nat) (max : Option Nat) (sub : Regexp)
  | OpConcat (a b : Regexp)
  | OpAlternate (a b : Regexp)
  deriving DecidableEq, Repr

/-! ## Regular expressions: matching -/

/-- A position in the text being searched: the rune just before it (`none`
at the beginning of the text) and the text that remains. -/
abbrev Pos := Option Char × List Char

/-- Membership of a rune (by code point) in a list of closed ranges. -/
def inRanges (ranges : List (Nat × Nat)) (r : Nat) : Bool :=
  ranges.any (fun lh => decide (lh.1 ≤ r) && decide (r ≤ lh.2))

/-- Whether a class, given by its ranges and whether it is a complement,
holds a rune. -/
def classMatches (neg : Bool) (ranges : List (Nat × Nat)) (c : Char) : Bool :=
  inRanges ranges c.toNat != neg

/-- Go `syntax.IsWordChar`: an ASCII letter, digit or underscore. -/
def IsWordChar (r : Char) : Bool :=
  (decide (65 ≤ r.toNat) && decide (r.toNat ≤ 90)) ||
  (decide (97 ≤ r.toNat) && decide (r.toNat ≤ 122)) ||
  (decide (48 ≤ r.toNat) && decide (r.toNat ≤ 57)) || decide (r.toNat = 95)

/-- Whether the rune before or after a position is a word character (a
missing rune is not). -/
def wordSide : Option Char → Bool
  | none => false
  | some r => IsWordChar r

/-- Go `EmptyOpContext` for `\\b`: the two sides of the position differ in
being word characters. -/
def atWordBoundary (p : Pos) : Bool :=
  wordSide p.1 != wordSide p.2.head?

/-- Zero or more rounds of `f`, the way a compiled `x*` loops: from a
position, stop there or run `f` once more.  A round that consumes nothing
comes back to the same position, so only rounds that shorten the remaining
text are followed; `fuel` bounds the number of rounds and the length of the
remaining text is always enough. -/
def starRun (f : Pos → List Pos) : Nat → Pos → List Pos
  | 0, p => [p]
  | fuel + 1, p =>
    p :: ((f p).filter (fun q => decide (q.2.length < p.2.length))).flatMap (starRun f fuel)

/-- Exactly `n` rounds of `f` in a row. -/
def timesRun (f : Pos → List Pos) : Nat → Pos → List Pos
  | 0, p => [p]
  | n + 1, p => (f p).flatMap (timesRun f n)

/-- At most `n` rounds of `f` in a row. -/
def uptoRun (f : Pos → List Pos) : Nat → Pos → List Pos
  | 0, p => [p]
  | n + 1, p => p :: (f p).flatMap (uptoRun f n)

/-- The positions at which a match of `re` that starts at `p` can end.  This
is what the compiled program of Go's `regexp` computes, up to the order of
the results: `^`, `$` and `\\b` test the position, a class consumes one rune,
`x{n,m}` is `n` copies of `x` followed by up to `m - n` more (or by `x*`). -/
def Regexp.run : Regexp → Pos → List Pos
  | .OpNoMatch, _ => []
  | .OpEmptyMatch, p => [p]
  | .OpCharClass _ _, (_, []) => []
  | .OpCharClass neg ranges, (_, c :: t) =>
    if classMatches neg ranges c then [(some c, t)] else []
  | .OpBeginLine, p => if p.1 = none ∨ p.1 = some '\n' then [p] else []
  | .OpEndLine, p => if p.2 = [] ∨ p.2.head? = some '\n' then [p] else []
  | .OpBeginText, p => if p.1 = none then [p] else []
  | .OpEndText, p => if p.2 = [] then [p] else []
  | .OpWordBoundary, p => if atWordBoundary p then [p] else []
  | .OpNoWordBoundary, p => if atWordBoundary p then [] else [p]
  | .OpCapture sub, p => sub.run p
  | .OpStar sub, p => starRun sub.run p.2.length p
  | .OpPlus sub, p => (sub.run p).flatMap (fun q => starRun sub.run q.2.length q)
  | .OpQuest sub, p => p :: sub.run p
  | .OpRepeat min none sub, p =>
    (timesRun sub.run min p).flatMap (fun q => starRun sub.run q.2.length q)
  | .OpRepeat min (some max) sub, p =>
    (timesRun sub.run min p).flatMap (uptoRun sub.run (max - min))
  | .OpConcat a b, p => (a.run p).flatMap b.run
  | .OpAlternate a b, p => a.run p ++ b.run p

/-- Every position of a text, from the beginning to the end. -/
def positions : Option Char → List Char → List Pos
  | prev, [] => [(prev, [])]
  | prev, c :: t => (prev, c :: t) :: positions (some c) t

/-- Go `(*Regexp).MatchString`: whether `s` contains a match of `re`, starting
at any position. -/
def Regexp.MatchString (re : Regexp) (s : String) : Bool :=
  (positions none s.data).any (fun p => !(re.run p).isEmpty)

/-! ## Regular expressions: parsing -/

/-- An entry of the parser's stack: a parsed expression or one of the two
pseudo-operators, an open parenthesis (whether it captures, and the flags in
force before it) or a vertical bar. -/
inductive StackItem
  | re (r : Regexp)
  | opLeftParen (cap : Bool) (flags : Flags)
  | opVerticalBar
  deriving DecidableEq, Repr

/-- Go `syntax.parser`: the flags in force and the operator stack, top
first. -/
structure ParserState where
  flags : Flags
  stack : List StackItem
  deriving DecidableEq, Repr

/-- The largest rune, `unicode.MaxRune`. -/
def MaxRune : Nat := 0x10FFFF

/-- An ASCII digit. -/
def isDigitRune (c : Char) : Bool :=
  decide (48 ≤ c.toNat) && decide (c.toNat ≤ 57)

/-- Go `isalnum`: an ASCII letter or digit. -/
def isalnum (c : Char) : Bool :=
  isDigitRune c || (decide (65 ≤ c.toNat) && decide (c.toNat ≤ 90)) ||
  (decide (97 ≤ c.toNat) && decide (c.toNat ≤ 122))

/-- The piece `s[:len(s)-len(t)]` of `s` that was read to reach `t`. -/
def consumed (s t : List Char) : List Char :=
  s.take (s.length - t.length)

/-- An ASCII range `lo..hi` closed under simple case folding, as
`appendFoldedRange` builds it: the range, the capitals of its small letters,
the small letters of its capitals, and the two runes above ASCII that fold
into it, U+212A (Kelvin sign) with `K`, `k` and U+017F (long s) with `S`,
`s`. -/
def foldedRange (lo hi : Nat) : List (Nat × Nat) :=
  [(lo, hi)] ++
  (if max lo 97 ≤ min hi 122 then [(max lo 97 - 32, min hi 122 - 32)] else []) ++
  (if max lo 65 ≤ min hi 90 then [(max lo 65 + 32, min hi 90 + 32)] else []) ++
  (if inRanges [(lo, hi)] 75 || inRanges [(lo, hi)] 107 then [(0x212A, 0x212A)] else []) ++
  (if inRanges [(lo, hi)] 83 || inRanges [(lo, hi)] 115 then [(0x17F, 0x17F)] else [])

/-- The ranges a class gets for `lo-hi` (Go `appendRange`, or
`appendFoldedRange` under `(?i)`).  Folding a range that reaches above ASCII
needs the Unicode fold tables and is left out. -/
def classRange (fold : Bool) (whole : List Char) (lo hi : Nat) : Except Error (List (Nat × Nat)) :=
  if fold then
    if 128 ≤ hi then .error { Code := .NotModelled, Expr := whole }
    else .ok (foldedRange lo hi)
  else .ok [(lo, hi)]

/-- Go `perlGroup`: the classes of the escapes d, D, s, S, w, W.  Under
`(?i)` the word class also holds the two runes that fold to `k` and `s`. -/
def perlGroup (c : Char) (fold : Bool) : Option (List (Nat × Nat)) :=
  if c = 'd' then some [(48, 57)]
  else if c = 'D' then some [(0, 47), (58, MaxRune)]
  else if c = 's' then some [(9, 10), (12, 13), (32, 32)]
  else if c = 'S' then some [(0, 8), (11, 11), (14, 31), (33, MaxRune)]
  else if c = 'w' then
    some ([(48, 57), (65, 90), (95, 95), (97, 122)] ++
      (if fold then [(0x17F, 0x17F), (0x212A, 0x212A)] else []))
  else if c = 'W' then
    some ([(0, 47), (58, 64), (91, 94), (96, 96)] ++
      (if fold then [(123, 0x17E), (0x180, 0x2129), (0x212B, MaxRune)] else [(123, MaxRune)]))
  else none

/-- Go `(*parser).push`, without the merging of neighbouring literals (which
keeps the last one apart and so changes no meaning). -/
def ParserState.push (p : ParserState) (r : Regexp) : ParserState :=
  { p with stack := .re r :: p.stack }

/-- Go `(*parser).literal`: a one-rune class, closed under folding when
`(?i)` is in force. -/
def ParserState.literal (p : ParserState) (c : Char) : Except Error ParserState :=
  match classRange p.flags.FoldCase [c] c.toNat c.toNat with
  | .error e => .error e
  | .ok ranges => .ok (p.push (.OpCharClass false ranges))

/-- The loop of Go `parseInt` that computes the value of a run of digits,
giving up with `-1` once the value reaches `1e8`. -/
def digitsValue : List Char → Int → Int
  | [], n => n
  | d :: ds, n => if 100000000 ≤ n then -1 else digitsValue ds (n * 10 + ((d.toNat : Int) - 48))

/-- Go `(*parser).parseInt`: a decimal number without a leading zero. -/
def parseInt (s : List Char) : Option (Int × List Char) :=
  match s with
  | [] => none
  | c :: t =>
    if !isDigitRune c then none
    else if c = '0' ∧ (t.head?.map isDigitRune).getD false = true then none
    else some (digitsValue (s.takeWhile isDigitRune) 0, s.dropWhile isDigitRune)

/-- Go `(*parser).parseRepeat`, on a text that starts with an opening brace:
the brace forms with one number, a number and a comma, or two numbers;
a maximum of `-1` means none, a minimum of `-1` a number that was too big. -/
def parseRepeat (s : List Char) : Option (Int × Int × List Char) :=
  match s with
  | '\x7b' :: s1 =>
    match parseInt s1 with
    | none => none
    | some (min, s2) =>
      match s2 with
      | '\x7d' :: rest => some (min, min, rest)
      | ',' :: '\x7d' :: rest => some (min, -1, rest)
      | ',' :: s3 =>
        match parseInt s3 with
        | none => none
        | some (max, s4) =>
          match s4 with
          | '\x7d' :: rest => some (if max < 0 then -1 else min, max, rest)
          | _ => none
      | _ => none
  | _ => none

/-- Go `repeatIsValid`: no nesting of counted repetitions multiplies out to
more than `n` copies. -/
def repeatIsValid : Regexp → Nat → Bool
  | .OpRepeat min max sub, n =>
    if max = some 0 then true
    else
      let m := max.getD min
      if n < m then false else repeatIsValid sub (if 0 < m then n / m else n)
  | .OpCapture sub, n => repeatIsValid sub n
  | .OpStar sub, n => repeatIsValid sub n
  | .OpPlus sub, n => repeatIsValid sub n
  | .OpQuest sub, n => repeatIsValid sub n
  | .OpConcat a b, n => repeatIsValid a n && repeatIsValid b n
  | .OpAlternate a b, n => repeatIsValid a n && repeatIsValid b n
  | _, _ => true

/-- The four repetition operators. -/
inductive RepeatOp
  | OpStar
  | OpPlus
  | OpQuest
  | OpRepeat (min : Nat) (max : Option Nat)
  deriving DecidableEq, Repr

/-- The expression a repetition operator makes of its argument. -/
def RepeatOp.apply : RepeatOp → Regexp → Regexp
  | .OpStar, sub => .OpStar sub
  | .OpPlus, sub => .OpPlus sub
  | .OpQuest, sub => .OpQuest sub
  | .OpRepeat min max, sub => .OpRepeat min max sub

/-- Whether Go's `repeat` runs `repeatIsValid`: on a counted repetition with
a bound of two or more. -/
def RepeatOp.counted : RepeatOp → Bool
  | .OpRepeat min max => decide (2 ≤ min) || decide (2 ≤ max.getD 0)
  | _ => false

/-- Go `(*parser).repeat`: replace the top of the stack by its repetition.
`before` starts at the operator and `after` follows it; a `?` right after
the operator (the non-greedy mark) is taken along; `lastRepeat` is the text
from the previous operator when that was a repetition too. -/
def ParserState.repeatOp (p : ParserState) (op : RepeatOp)
    (before after lastRepeat : List Char) : Except Error (List Char × ParserState) :=
  let after := match after with
    | '?' :: a => a
    | a => a
  if lastRepeat ≠ [] then
    .error { Code := .ErrInvalidRepeatOp, Expr := consumed lastRepeat after }
  else
    match p.stack with
    | .re sub :: st =>
      if op.counted && !repeatIsValid (op.apply sub) 1000 then
        .error { Code := .ErrInvalidRepeatSize, Expr := consumed before after }
      else .ok (after, { p with stack := .re (op.apply sub) :: st })
    | _ => .error { Code := .ErrMissingRepeatArgument, Expr := consumed before after }

/-- Setting or clearing one flag in `parsePerlFlags`: after a minus sign
(`neg`) a flag letter has the opposite effect. -/
def applyFlag (flags : Flags) (c : Char) (neg : Bool) : Flags :=
  if c = 'i' then { flags with FoldCase := !neg }
  else if c = 'm' then { flags with OneLine := neg }
  else if c = 's' then { flags with DotNL := !neg }
  else { flags with NonGreedy := !neg }

/-- The flag loop of Go `parsePerlFlags`, after the two runes `(?` of `s`:
flag letters, at most one minus sign, then `:` (a group that does not
capture) or `)` (only a change of flags).  Anything else, such as the `!` of
a look-ahead, is `ErrInvalidPerlOp` with the text read so far. -/
def perlFlagsLoop (p : ParserState) (s : List Char) :
    List Char → Flags → Bool → Bool → Except Error (List Char × ParserState)
  | [], _, _, _ => .error { Code := .ErrInvalidPerlOp, Expr := s }
  | c :: t, flags, neg, sawFlag =>
    if c = 'i' ∨ c = 'm' ∨ c = 's' ∨ c = 'U' then
      perlFlagsLoop p s t (applyFlag flags c neg) neg true
    else if c = '-' then
      if neg then .error { Code := .ErrInvalidPerlOp, Expr := consumed s t }
      else perlFlagsLoop p s t flags true false
    else if c = ':' ∨ c = ')' then
      if neg && !sawFlag then .error { Code := .ErrInvalidPerlOp, Expr := consumed s t }
      else if c = ':' then
        .ok (t, { flags := flags, stack := .opLeftParen false p.flags :: p.stack })
      else .ok (t, { p with flags := flags })
    else .error { Code := .ErrInvalidPerlOp, Expr := consumed s t }

/-- Go `(*parser).parsePerlFlags`, on a text that starts with `(?`.  Named
groups, `(?P<name>` and `(?<name>`, are left out. -/
def parsePerlFlags (p : ParserState) (s : List Char) : Except Error (List Char × ParserState) :=
  match s with
  | _ :: _ :: 'P' :: '<' :: _ :: _ => .error { Code := .NotModelled, Expr := s }
  | _ :: _ :: '<' :: _ :: _ => .error { Code := .NotModelled, Expr := s }
  | _ :: _ :: t => perlFlagsLoop p s t p.flags false false
  | _ => .error { Code := .ErrInternalError, Expr := s }

/-- Go `(*parser).parseEscape`, on a text that starts with a backslash: an
escaped ASCII rune that is no letter or digit stands for itself, `a f n r t
v` are the C escapes, other letters and digits are errors.  Octal and
hexadecimal escapes are left out. -/
def parseEscape (s : List Char) : Except Error (Char × List Char) :=
  match s with
  | _ :: c :: t =>
    if c.toNat < 128 ∧ isalnum c = false then .ok (c, t)
    else if 49 ≤ c.toNat ∧ c.toNat ≤ 55 then
      if (t.head?.map (fun d => decide (48 ≤ d.toNat) && decide (d.toNat ≤ 55))).getD false
      then .error { Code := .NotModelled, Expr := consumed s t }
      else .error { Code := .ErrInvalidEscape, Expr := consumed s t }
    else if c = '0' ∨ c = 'x' then .error { Code := .NotModelled, Expr := consumed s t }
    else if c = 'a' then .ok (Char.ofNat 7, t)
    else if c = 'f' then .ok (Char.ofNat 12, t)
    else if c = 'n' then .ok (Char.ofNat 10, t)
    else if c = 'r' then .ok (Char.ofNat 13, t)
    else if c = 't' then .ok (Char.ofNat 9, t)
    else if c = 'v' then .ok (Char.ofNat 11, t)
    else .error { Code := .ErrInvalidEscape, Expr := consumed s t }
  | _ => .error { Code := .ErrTrailingBackslash, Expr := [] }

/-- Go `(*parser).parseClassChar`: one rune of a class, escaped or not;
`wholeClass` is the text from the opening bracket on. -/
def parseClassChar (t wholeClass : List Char) : Except Error (Char × List Char) :=
  match t with
  | [] => .error { Code := .ErrMissingBracket, Expr := wholeClass }
  | '\\' :: _ => parseEscape t
  | c :: rest => .ok (c, rest)

/-- Whether a text contains `:]`, the end of a POSIX class name. -/
def hasClassNameEnd : List Char → Bool
  | ':' :: ']' :: _ => true
  | _ :: t => hasClassNameEnd t
  | [] => false

/-- Go `(*parser).parseNamedClass` finds a POSIX class `[:name:]` here: the
text is longer than `[:` and `:]` follows later. -/
def startsNamedClass : List Char → Bool
  | '[' :: ':' :: u => !u.isEmpty && hasClassNameEnd u
  | _ => false

/-- Go `(*parser).parseUnicodeClass` applies here: a backslash and `p` or
`P`. -/
def startsUnicodeClass : List Char → Bool
  | '\\' :: c :: _ => decide (c = 'p') || decide (c = 'P')
  | _ => false

/-- Go `(*parser).parsePerlClassEscape`: one of the escapes d, D, s, S, w, W
with its class, or nothing. -/
def parsePerlClassEscape (t : List Char) (fold : Bool) : Option (List (Nat × Nat) × List Char) :=
  match t with
  | '\\' :: c :: rest => (perlGroup c fold).map (fun g => (g, rest))
  | _ => none

/-- The last step of a round of Go `parseClass`: a single rune or a range
`lo-hi`; in `a-]` the `-` is not a range sign.  `s` is the text from the
opening bracket on. -/
def parseClassRange (s : List Char) (fold : Bool) (t : List Char) :
    Except Error (List (Nat × Nat) × List Char) :=
  match parseClassChar t s with
  | .error e => .error e
  | .ok (lo, t1) =>
    match t1 with
    | '-' :: c2 :: t2 =>
      if c2 = ']' then
        match classRange fold t lo.toNat lo.toNat with
        | .error e => .error e
        | .ok r => .ok (r, t1)
      else
        match parseClassChar (c2 :: t2) s with
        | .error e => .error e
        | .ok (hi, t3) =>
          if hi.toNat < lo.toNat then
            .error { Code := .ErrInvalidCharRange, Expr := consumed t t3 }
          else
            match classRange fold t lo.toNat hi.toNat with
            | .error e => .error e
            | .ok r => .ok (r, t3)
    | _ =>
      match classRange fold t lo.toNat lo.toNat with
      | .error e => .error e
      | .ok r => .ok (r, t1)

/-- The item loop of Go `parseClass`, after the opening bracket (and `^`):
until a closing bracket that is not the first rune, read an escape class, a
single rune or a range.  Each round reads at least one rune, which `fuel`
counts.  POSIX classes `[:name:]` and Unicode classes are left out. -/
def parseClassLoop (s : List Char) (fold : Bool) :
    Nat → Bool → List Char → List (Nat × Nat) → Except Error (List Char × List (Nat × Nat))
  | 0, _, _, _ => .error { Code := .ErrInternalError, Expr := s }
  | fuel + 1, first, t, cls =>
    if first = false ∧ t.head? = some ']' then .ok (t.tail, cls)
    else if startsNamedClass t || startsUnicodeClass t then
      .error { Code := .NotModelled, Expr := t }
    else
      match parsePerlClassEscape t fold with
      | some (g, rest) => parseClassLoop s fold fuel false rest (cls ++ g)
      | none =>
        match parseClassRange s fold t with
        | .error e => .error e
        | .ok (r, rest) => parseClassLoop s fold fuel false rest (cls ++ r)

/-- Go `(*parser).parseClass`, on a text that starts with an opening
bracket: the class is pushed, as a complement when it starts with `^`. -/
def parseClass (p : ParserState) (s : List Char) : Except Error (List Char × ParserState) :=
  let neg := decide (s.tail.head? = some '^')
  let t := if neg then s.tail.tail else s.tail
  match parseClassLoop s p.flags.FoldCase (t.length + 1) true t [] with
  | .error e => .error e
  | .ok (rest, cls) => .ok (rest, p.push (.OpCharClass neg cls))

/-- The expressions above the top-most pseudo-operator of the stack, in the
order they were pushed, and the stack below them. -/
def popToPseudo : List StackItem → List Regexp → List Regexp × List StackItem
  | .re r :: st, acc => popToPseudo st (r :: acc)
  | st, acc => (acc, st)

/-- The concatenation of a list of expressions (Go `collapse` with
`OpConcat`); of no expression, the empty match. -/
def collapseConcat : List Regexp → Regexp
  | [] => .OpEmptyMatch
  | [r] => r
  | r :: rs => .OpConcat r (collapseConcat rs)

/-- The alternation of a list of expressions (Go `collapse` with
`OpAlternate`); of no expression, no match. -/
def collapseAlternate : List Regexp → Regexp
  | [] => .OpNoMatch
  | [r] => r
  | r :: rs => .OpAlternate r (collapseAlternate rs)

/-- Go `(*parser).concat`: replace what is above the top-most pseudo-operator
by its concatenation. -/
def ParserState.concat (p : ParserState) : ParserState :=
  let (subs, st) := popToPseudo p.stack []
  { p with stack := .re (collapseConcat subs) :: st }

/-- Go `(*parser).alternate`: replace what is above the top-most
pseudo-operator by its alternation. -/
def ParserState.alternate (p : ParserState) : ParserState :=
  let (subs, st) := popToPseudo p.stack []
  { p with stack := .re (collapseAlternate subs) :: st }

/-- Go `(*parser).parseVerticalBar`: concatenate what was read since the last
pseudo-operator; if a vertical bar lies right below, move it above the new
branch (`swapVerticalBar`), otherwise push one. -/
def ParserState.parseVerticalBar (p : ParserState) : ParserState :=
  let p1 := p.concat
  match p1.stack with
  | .re r :: .opVerticalBar :: st => { p1 with stack := .opVerticalBar :: .re r :: st }
  | st => { p1 with stack := .opVerticalBar :: st }

/-- The common part of Go `parseRightParen` and of the end of `parse`:
`concat`, drop the vertical bar that `swapVerticalBar` brings to the top,
`alternate`. -/
def ParserState.closeBranches (p : ParserState) : ParserState :=
  let p1 := p.concat
  match p1.stack with
  | .re r :: .opVerticalBar :: st => ({ p1 with stack := .re r :: st } : ParserState).alternate
  | _ => p1.alternate

/-- Go `(*parser).parseRightParen`: close the group opened by the matching
parenthesis and restore the flags saved there. -/
def ParserState.parseRightParen (p : ParserState) (wholeRegexp : List Char) :
    Except Error ParserState :=
  match p.closeBranches.stack with
  | .re re1 :: .opLeftParen cap flags :: st =>
    .ok { flags := flags, stack := .re (if cap then .OpCapture re1 else re1) :: st }
  | _ => .error { Code := .ErrUnexpectedParen, Expr := wholeRegexp }

/-- One round of the main loop of Go `syntax.parse` on the non-empty text
`t`: the text that remains, the new parser state, and the text from the
operator on when the round read a repetition (`lastRepeat` for the next
round, empty otherwise).  The escapes `\\C`, `\\Q`, `\\p` and `\\P` are left
out. -/
def parseStep (wholeRegexp t : List Char) (p : ParserState) (lastRepeat : List Char) :
    Except Error (List Char × ParserState × List Char) :=
  match t with
  | [] => .ok ([], p, [])
  | '(' :: '?' :: _ =>
    match parsePerlFlags p t with
    | .error e => .error e
    | .ok (rest, p1) => .ok (rest, p1, [])
  | '(' :: rest => .ok (rest, { p with stack := .opLeftParen true p.flags :: p.stack }, [])
  | '|' :: rest => .ok (rest, p.parseVerticalBar, [])
  | ')' :: rest =>
    match p.parseRightParen wholeRegexp with
    | .error e => .error e
    | .ok p1 => .ok (rest, p1, [])
  | '^' :: rest =>
    .ok (rest, p.push (if p.flags.OneLine then .OpBeginText else .OpBeginLine), [])
  | '$' :: rest =>
    .ok (rest, p.push (if p.flags.OneLine then .OpEndText else .OpEndLine), [])
  | '.' :: rest =>
    .ok (rest, p.push (.OpCharClass true (if p.flags.DotNL then [] else [(10, 10)])), [])
  | '[' :: _ =>
    match parseClass p t with
    | .error e => .error e
    | .ok (rest, p1) => .ok (rest, p1, [])
  | '*' :: after =>
    match p.repeatOp .OpStar t after lastRepeat with
    | .error e => .error e
    | .ok (rest, p1) => .ok (rest, p1, t)
  | '+' :: after =>
    match p.repeatOp .OpPlus t after lastRepeat with
    | .error e => .error e
    | .ok (rest, p1) => .ok (rest, p1, t)
  | '?' :: after =>
    match p.repeatOp .OpQuest t after lastRepeat with
    | .error e => .error e
    | .ok (rest, p1) => .ok (rest, p1, t)
  | '\x7b' :: rest =>
    match parseRepeat t with
    | none =>
      match p.literal '\x7b' with
      | .error e => .error e
      | .ok p1 => .ok (rest, p1, [])
    | some (min, max, after) =>
      if min < 0 ∨ 1000 < min ∨ 1000 < max ∨ (0 ≤ max ∧ max < min) then
        .error { Code := .ErrInvalidRepeatSize, Expr := consumed t after }
      else
        match p.repeatOp (.OpRepeat min.toNat (if max < 0 then none else some max.toNat))
            t after lastRepeat with
        | .error e => .error e
        | .ok (rest1, p1) => .ok (rest1, p1, t)
  | '\\' :: 'A' :: rest => .ok (rest, p.push .OpBeginText, [])
  | '\\' :: 'b' :: rest => .ok (rest, p.push .OpWordBoundary, [])
  | '\\' :: 'B' :: rest => .ok (rest, p.push .OpNoWordBoundary, [])
  | '\\' :: 'z' :: rest => .ok (rest, p.push .OpEndText, [])
  | '\\' :: 'C' :: _ => .error { Code := .ErrInvalidEscape, Expr := t.take 2 }
  | '\\' :: 'Q' :: _ => .error { Code := .NotModelled, Expr := t.take 2 }
  | '\\' :: _ =>
    if startsUnicodeClass t then .error { Code := .NotModelled, Expr := t.take 2 }
    else
      match parsePerlClassEscape t p.flags.FoldCase with
      | some (g, rest) => .ok (rest, p.push (.OpCharClass false g), [])
      | none =>
        match parseEscape t with
        | .error e => .error e
        | .ok (c, rest) =>
          match p.literal c with
          | .error e => .error e
          | .ok p1 => .ok (rest, p1, [])
  | c :: rest =>
    match p.literal c with
    | .error e => .error e
    | .ok p1 => .ok (rest, p1, [])

/-- The main loop of Go `syntax.parse`.  Each round reads at least one rune,
which `fuel` counts: the length of the text is always enough. -/
def parseLoop (wholeRegexp : List Char) :
    Nat → List Char → ParserState → List Char → Except Error ParserState
  | _, [], p, _ => .ok p
  | 0, _ :: _, _, _ => .error { Code := .ErrInternalError, Expr := wholeRegexp }
  | fuel + 1, t, p, lastRepeat =>
    match parseStep wholeRegexp t p lastRepeat with
    | .error e => .error e
    | .ok (rest, p1, rep) => parseLoop wholeRegexp fuel rest p1 rep

/-- Go `syntax.Parse` with the `Perl` flags: run the loop on an empty stack,
close the open branches, and require that no parenthesis is left open. -/
def parse (s : List Char) : Except Error Regexp :=
  match parseLoop s s.length s { flags := Perl, stack := [] } [] with
  | .error e => .error e
  | .ok p =>
    match p.closeBranches.stack with
    | [.re r] => .ok r
    | _ => .error { Code := .ErrMissingParen, Expr := s }

/-- Go `regexp.Compile`: parse the expression.  (Go then simplifies and
compiles the parsed form, which keeps its meaning; `Regexp.run` reads the
parsed form directly.)  The model covers literals, `.`, `^`, `$`, groups,
flag groups, `|`, the repetitions, bracket classes with ranges and negation,
the escape classes, the empty-width escapes A, z, b, B, the C escapes and
escaped punctuation.  It answers `NotModelled` for what it leaves out: named
groups, POSIX and Unicode classes, octal and hexadecimal escapes, quoting with
Q and E, and case folding of runes above ASCII; the limits Go puts on the
size and nesting of an expression are not checked. -/
def Compile (expr : String) : Except Error Regexp :=
  parse expr.data

end regexp

/-! ## The validator -/

/-- Go `PostCodeValidator`.  The map `CountryRegexMapping` is the list of its
entries; a Go map has one entry per key, and a lookup takes the first entry
with the key. -/
structure PostCodeValidator where
  CountryRegexMapping : List (String × String)

/-- Go `NewPostCodeValidator`: the built-in table, entry for entry as in the
source (the patterns are raw strings, as in Go). -/
def NewPostCodeValidator : PostCodeValidator where
  CountryRegexMapping := [
    ("GB", r"^(?i)([A-Z]){1}([0-9][0-9]|[0-9]|[A-Z][0-9][A-Z]|[A-Z][0-9][0-9]|[A-Z][0-9]|[0-9][A-Z]){1}([ ])?([0-9][A-z][A-z]){1}$"),
    ("JE", r"^JE\d[\dA-Z]?[ ]?\d[ABD-HJLN-UW-Z]{2}$"),
    ("GG", r"^GY\d[\dA-Z]?[ ]?\d[ABD-HJLN-UW-Z]{2}$"),
    ("IM", r"^IM\d[\dA-Z]?[ ]?\d[ABD-HJLN-UW-Z]{2}$$"),
    ("US", r"^([0-9]{5})(?:-([0-9]{4}))?$"),
    ("CA", r"^([ABCEGHJKLMNPRSTVXY][0-9][ABCEGHJKLMNPRSTVWXYZ])\s*([0-9][ABCEGHJKLMNPRSTVWXYZ][0-9])$"),
    ("IE", r"^([AC-FHKNPRTV-Y][0-9]{2}|D6W)[ -]?[0-9AC-FHKNPRTV-Y]{4}$"),
    ("DE", r"^\d{5}$"),
    ("JP", r"^\d{3}-\d{4}$"),
    ("FR", r"\d{2}[ ]?\d{3}"),
    ("AU", r"^\d{4}$"),
    ("IT", r"^\d{5}$"),
    ("CH", r"^\d{4}$"),
    ("AT", r"^(?!0)\d{4}$"),
    ("ES", r"^(?:0[1-9]|[1-4]\d|5[0-2])\d{3}$"),
    ("NL", r"^\d{4}[ ]?[A-Z]{2}$"),
    ("BE", r"^\d{4}$"),
    ("DK", r"^\d{4}$"),
    ("SE", r"^(SE-)?\d{3}[ ]?\d{2}$"),
    ("NO", r"^\d{4}$"),
    ("BR", r"^\d{5}[\-]?\d{3}$"),
    ("PT", r"^\d{4}([\-]\d{3})?$"),
    ("FI", r"^(FI-|AX-)?\d{5}$"),
    ("AX", r"^22\d{3}$"),
    ("KR", r"^\d{5}$"),
    ("CN", r"^\d{6}$"),
    ("TW", r"^\d{3}(\d{2})?$"),
    ("SG", r"^\d{6}$"),
    ("DZ", r"^\d{5}$"),
    ("AD", r"^AD\d{3}$"),
    ("AR", r"^([A-HJ-NP-Z])?\d{4}([A-Z]{3})?$"),
    ("AM", r"^(37)?\d{4}$"),
    ("AZ", r"^\d{4}$"),
    ("BH", r"^((1[0-2]|[2-9])\d{2})?$"),
    ("BD", r"^\d{4}$"),
    ("BB", r"^(BB\d{5})?$"),
    ("BY", r"^\d{6}$"),
    ("BM", r"^[A-Z]{2}[ ]?[A-Z0-9]{2}$"),
    ("BA", r"^\d{5}$"),
    ("IO", r"^BBND 1ZZ$"),
    ("BN", r"^[A-Z]{2}[ ]?\d{4}$"),
    ("BG", r"^\d{4}$"),
    ("KH", r"^\d{5}$"),
    ("CV", r"^\d{4}$"),
    ("CL", r"^\d{7}$"),
    ("CR", r"^(\d{4,5}|\d{3}-\d{4})$"),
    ("HR", r"^(HR-)?\d{5}$"),
    ("CY", r"^\d{4}$"),
    ("CZ", r"^\d{3}[ ]?\d{2}$"),
    ("DO", r"^\d{5}$"),
    ("EC", r"^([A-Z]\d{4}[A-Z]|(?:[A-Z]{2})?\d{6})?$"),
    ("EG", r"^\d{5}$"),
    ("EE", r"^\d{5}$"),
    ("FO", r"^\d{3}$"),
    ("GE", r"^\d{4}$"),
    ("GR", r"^\d{3}[ ]?\d{2}$"),
    ("GL", r"^39\d{2}$"),
    ("GT", r"^\d{5}$"),
    ("HT", r"^\d{4}$"),
    ("HN", r"^(?:\d{5})?$"),
    ("HU", r"^\d{4}$"),
    ("IS", r"^\d{3}$"),
    ("IN", r"^\d{6}$"),
    ("ID", r"^\d{5}$"),
    ("IL", r"^\d{5,7}$"),
    ("JO", r"^\d{5}$"),
    ("KZ", r"^\d{6}$"),
    ("KE", r"^\d{5}$"),
    ("KW", r"^\d{5}$"),
    ("LA", r"^\d{5}$"),
    ("LV", r"^(LV-)?\d{4}$"),
    ("LB", r"^(\d{4}([ ]?\d{4})?)?$"),
    ("LI", r"^(948[5-9])|(949[0-7])$"),
    ("LT", r"^(LT-)?\d{5}$"),
    ("LU", r"^(L-)?\d{4}$"),
    ("MK", r"^\d{4}$"),
    ("MY", r"^\d{5}$"),
    ("MV", r"^\d{5}$"),
    ("MT", r"^[A-Z]{3}[ ]?\d{2,4}$"),
    ("MU", r"^((\d|[A-Z])\d{4})?$"),
    ("MX", r"^\d{5}$"),
    ("MD", r"^\d{4}$"),
    ("MC", r"^980\d{2}$"),
    ("MA", r"^\d{5}$"),
    ("NP", r"^\d{5}$"),
    ("NZ", r"^\d{4}$"),
    ("NI", r"^((\d{4}-)?\d{3}-\d{3}(-\d{1})?)?$"),
    ("NG", r"^(\d{6})?$"),
    ("OM", r"^(PC )?\d{3}$"),
    ("PA", r"^\d{4}$"),
    ("PK", r"^\d{5}$"),
    ("PY", r"^\d{4}$"),
    ("PH", r"^\d{4}$"),
    ("PL", r"^\d{2}-\d{3}$"),
    ("PR", r"^00[679]\d{2}([ \-]\d{4})?$"),
    ("RO", r"^\d{6}$"),
    ("RU", r"^\d{6}$"),
    ("SM", r"^4789\d$"),
    ("SA", r"^\d{5}$"),
    ("SN", r"^\d{5}$"),
    ("SK", r"^\d{3}[ ]?\d{2}$"),
    ("SI", r"^(SI-)?\d{4}$"),
    ("ZA", r"^\d{4}$"),
    ("LK", r"^\d{5}$"),
    ("TJ", r"^\d{6}$"),
    ("TH", r"^\d{5}$"),
    ("TN", r"^\d{4}$"),
    ("TR", r"^\d{5}$"),
    ("TM", r"^\d{6}$"),
    ("UA", r"^\d{5}$"),
    ("UY", r"^\d{5}$"),
    ("UZ", r"^\d{6}$"),
    ("VA", r"^00120$"),
    ("VE", r"^\d{4}$"),
    ("ZM", r"^\d{5}$"),
    ("AS", r"^96799$"),
    ("CC", r"^6799$"),
    ("CK", r"^\d{4}$"),
    ("RS", r"^\d{5,6}$"),
    ("ME", r"^8\d{4}$"),
    ("CS", r"^\d{5}$"),
    ("YU", r"^\d{5}$"),
    ("CX", r"^6798$"),
    ("ET", r"^\d{4}$"),
    ("FK", r"^FIQQ 1ZZ$"),
    ("NF", r"^2899$"),
    ("FM", r"^(9694[1-4])([ \-]\d{4})?$"),
    ("GF", r"^9[78]3\d{2}$"),
    ("GN", r"^\d{3}$"),
    ("GP", r"^9[78][01]\d{2}$"),
    ("GS", r"^SIQQ 1ZZ$"),
    ("GU", r"^969[123]\d([ \-]\d{4})?$"),
    ("GW", r"^\d{4}$"),
    ("HM", r"^\d{4}$"),
    ("IQ", r"^\d{5}$"),
    ("KG", r"^\d{6}$"),
    ("LR", r"^\d{4}$"),
    ("LS", r"^\d{3}$"),
    ("MG", r"^\d{3}$"),
    ("MH", r"^969[67]\d([ \-]\d{4})?$"),
    ("MN", r"^\d{6}$"),
    ("MP", r"^9695[012]([ \-]\d{4})?$"),
    ("MQ", r"^9[78]2\d{2}$"),
    ("NC", r"^988\d{2}$"),
    ("NE", r"^\d{4}$"),
    ("VI", r"^008(([0-4]\d)|(5[01]))([ \-]\d{4})?$"),
    ("VN", r"^\d{6}$"),
    ("PF", r"^987\d{2}$"),
    ("PG", r"^\d{3}$"),
    ("PM", r"^9[78]5\d{2}$"),
    ("PN", r"^PCRN 1ZZ$"),
    ("PW", r"^96940$"),
    ("RE", r"^9[78]4\d{2}$"),
    ("SH", r"^(ASCN|STHL) 1ZZ$"),
    ("SJ", r"^\d{4}$"),
    ("SO", r"^\d{5}$"),
    ("SZ", r"^[HLMS]\d{3}$"),
    ("TC", r"^TKCA 1ZZ$"),
    ("WF", r"^986\d{2}$"),
    ("XK", r"^\d{5}$"),
    ("YT", r"^976\d{2}$"),
    ("INTL", r"^(?:[A-Z0-9]+([- ]?[A-Z0-9]+)*)?$")
  ]

/-- Go `(*PostCodeValidator).ValidatePostalCode`.  The result is Go's pair
`(bool, error)`: the error is `none` for `nil` and otherwise the message of
the error value. -/
def PostCodeValidator.ValidatePostalCode (T : CaseRanges) (v : PostCodeValidator)
    (countryCode postalCode : String) : Bool × Option String :=
  match v.CountryRegexMapping.lookup (strings.ToUpper T countryCode) with
  | none => (false, some "country code not found")
  | some regexForCountry =>
    match regexp.Compile regexForCountry with
    | .error err => (false, some ("regex does not compile " ++ err.Error))
    | .ok regex => (regex.MatchString (strings.ToUpper T postalCode), none)

/-! ## Definitions used by the statements -/

deriving instance DecidableEq for Except

/-- A case table to evaluate examples with: the two entries of the Unicode
table that lead into ASCII, U+0131 (dotless i) to `I` and U+017F (long s) to
`S`; every other rune above ASCII is left as it is. -/
def asciiCaseRanges : CaseRanges where
  upper := fun c => if c.toNat = 0x131 then 'I' else if c.toNat = 0x17F then 'S' else c
  upper_high := by
    intro c h
    by_cases h1 : c.toNat = 0x131
    · right; simp only [h1, if_true]; decide
    · by_cases h2 : c.toNat = 0x17F
      · right; simp only [h1, h2, if_true, if_false]; decide
      · left; simp only [h1, h2, if_false]; exact h
  upper_idem := by
    intro c _ h'
    by_cases h1 : c.toNat = 0x131
    · simp only [h1, if_true] at h'; exact absurd h' (by decide)
    · by_cases h2 : c.toNat = 0x17F
      · simp only [h1, h2, if_true, if_false] at h'; exact absurd h' (by decide)
      · simp only [h1, h2, if_false]

/-- The keys of a validator's table. -/
def PostCodeValidator.keys (v : PostCodeValidator) : List String :=
  v.CountryRegexMapping.map Prod.fst

/-- A string whose runes are all ASCII. -/
def IsASCII (s : String) : Prop :=
  ∀ c ∈ s.data, c.toNat ≤ 127

instance (s : String) : Decidable (IsASCII s) :=
  inferInstanceAs (Decidable (∀ c ∈ s.data, c.toNat ≤ 127))

/-- The rune before the position reached by reading `a` from a position
whose previous rune is `prev`. -/
def prevAfter (prev : Option Char) (a : List Char) : Option Char :=
  a.foldl (fun _ c => some c) prev

/-- A text of exactly `n` ASCII digits. -/
def Digits (n : Nat) (l : List Char) : Prop :=
  l.length = n ∧ ∀ c ∈ l, regexp.isDigitRune c = true

instance (n : Nat) (l : List Char) : Decidable (Digits n l) :=
  inferInstanceAs (Decidable (l.length = n ∧ ∀ c ∈ l, regexp.isDigitRune c = true))

/-- The US form: five ASCII digits, optionally followed by a hyphen and four
ASCII digits. -/
def USForm (l : List Char) : Prop :=
  ∃ a, Digits 5 a ∧ (l = a ∨ ∃ b, Digits 4 b ∧ l = a ++ '-' :: b)

/-- An ASCII rune that is not a letter: upper-casing neither changes it nor
produces it from another rune. -/
def Caseless (c : Char) : Prop :=
  c.toNat ≤ 127 ∧ ¬ (65 ≤ c.toNat ∧ c.toNat ≤ 90) ∧ ¬ (97 ≤ c.toNat ∧ c.toNat ≤ 122)

/-- ASCII whitespace: tab, line feed, form feed, carriage return and space.
These are the runes of the escape class `s` of Go's regexp; the vertical tab
U+000B is not one of them. -/
def IsASCIIWhitespace (c : Char) : Prop :=
  c.toNat = 9 ∨ c.toNat = 10 ∨ c.toNat = 12 ∨ c.toNat = 13 ∨ c.toNat = 32

instance (c : Char) : Decidable (IsASCIIWhitespace c) :=
  inferInstanceAs (Decidable (c.toNat = 9 ∨ c.toNat = 10 ∨ c.toNat = 12 ∨ c.toNat = 13 ∨
    c.toNat = 32))

/-- The class the parser builds for a bracket expression that lists single
runes, such as `[ABC]`: one range per rune. -/
def runesClass (runes : String) : regexp.Regexp :=
  .OpCharClass false (runes.data.map (fun c => (c.toNat, c.toNat)))

/-- The Canadian form: a letter of the first set, a digit, a letter of the
second set, any run of ASCII whitespace, a digit, a letter of the second set,
a digit. -/
def CAForm (l : List Char) : Prop :=
  ∃ (c1 e1 c2 : Char) (w : List Char) (e2 c3 e3 : Char),
    l = [c1, e1, c2] ++ w ++ [e2, c3, e3] ∧
    c1 ∈ "ABCEGHJKLMNPRSTVXY".data ∧ regexp.isDigitRune e1 = true ∧
    c2 ∈ "ABCEGHJKLMNPRSTVWXYZ".data ∧ (∀ x ∈ w, IsASCIIWhitespace x) ∧
    regexp.isDigitRune e2 = true ∧ c3 ∈ "ABCEGHJKLMNPRSTVWXYZ".data ∧
    regexp.isDigitRune e3 = true

/-- A pattern of the optional-whole-body form: it parses as `^`, one
optional group and `$`. -/
def hasOptionalBody (pat : String) : Bool :=
  match regexp.Compile pat with
  | .ok (.OpConcat .OpBeginText (.OpConcat (.OpQuest _) .OpEndText)) => true
  | _ => false

/-- Position `q` lies ahead of position `p` in the same text: some text `a`
was read between them. -/
def Reaches (p q : regexp.Pos) : Prop :=
  ∃ a, p.2 = a ++ q.2 ∧ q.1 = prevAfter p.1 a

/-- Exactly two ASCII capital letters. -/
def TwoUpperLetters (k : String) : Prop :=
  k.data.length = 2 ∧ ∀ c ∈ k.data, 65 ≤ c.toNat ∧ c.toNat ≤ 90

instance (k : String) : Decidable (TwoUpperLetters k) :=
  inferInstanceAs (Decidable (k.data.length = 2 ∧ ∀ c ∈ k.data, 65 ≤ c.toNat ∧ c.toNat ≤ 90))

/-- A call of `ValidatePostalCode` as a step on the validator it is called
on: the result, and the validator after the call.  Go passes the validator by
pointer; the body only reads its map, so the validator after the call is the
one before. -/
def PostCodeValidator.call (T : CaseRanges) (v : PostCodeValidator)
    (countryCode postalCode : String) : (Bool × Option String) × PostCodeValidator :=
  (v.ValidatePostalCode T countryCode postalCode, v)

/-- The French core: two ASCII digits, an optional single space, three ASCII
digits. -/
def FRCore (m : List Char) : Prop :=
  ∃ a sp b, m = a ++ sp ++ b ∧ Digits 2 a ∧ (sp = [] ∨ sp = [' ']) ∧ Digits 3 b

/-- A text that contains the French core somewhere. -/
def FRForm (l : List Char) : Prop :=
  ∃ pre m post, l = pre ++ m ++ post ∧ FRCore m

/-- A text that begins with one of the given words. -/
def BeginsWithOneOf (words : List String) (l : List Char) : Prop :=
  ∃ w ∈ words, ∃ t, l = w.data ++ t

/-- A text that ends with one of the given words. -/
def EndsWithOneOf (words : List String) (l : List Char) : Prop :=
  ∃ w ∈ words, ∃ pre, l = pre ++ w.data

/-- An ASCII capital letter or an ASCII digit. -/
def IsUpperAlnum (c : Char) : Prop :=
  (65 ≤ c.toNat ∧ c.toNat ≤ 90) ∨ (48 ≤ c.toNat ∧ c.toNat ≤ 57)

/-- A separator: a hyphen or a space. -/
def IsSeparator (c : Char) : Prop :=
  c.toNat = 45 ∨ c.toNat = 32

/-- A non-empty text over ASCII capital letters, ASCII digits, hyphen and
space that begins and ends with a letter or digit and never has two separators
in a row. -/
def INTLBody (l : List Char) : Prop :=
  (∀ c ∈ l, IsUpperAlnum c ∨ IsSeparator c) ∧
  (∃ c t, l = c :: t ∧ IsUpperAlnum c) ∧
  (∃ t c, l = t ++ [c] ∧ IsUpperAlnum c) ∧
  List.Chain' (fun a b => ¬ (IsSeparator a ∧ IsSeparator b)) l

/-- The international form: the empty text, or a text as in `INTLBody`. -/
def INTLForm (l : List Char) : Prop :=
  l = [] ∨ INTLBody l

/-! # Theorems -/

/-! ## Upper-casing -/

theorem toNat_ofNat_small (n : Nat) (h : n < 55296) : (Char.ofNat n).toNat = n := by
  have hv : n.isValidChar := Or.inl h
  simp only [Char.ofNat, hv, Char.toNat, Char.ofNatAux, dite_true]
  rfl

/-- An ASCII rune that is no small letter is its own upper case. -/
theorem ToUpper_of_not_lower (T : CaseRanges) (c : Char) (h : c.toNat ≤ 127)
    (h' : ¬ (97 ≤ c.toNat ∧ c.toNat ≤ 122)) : unicode.ToUpper T c = c := by
  simp only [unicode.ToUpper, h, h', if_true, if_false]

/-- The upper case of an ASCII small letter is the capital 32 below. -/
theorem ToUpper_toNat_lower (T : CaseRanges) (c : Char) (h : 97 ≤ c.toNat ∧ c.toNat ≤ 122) :
    (unicode.ToUpper T c).toNat = c.toNat - 32 := by
  have h1 : c.toNat ≤ 127 := by omega
  simp only [unicode.ToUpper, h1, h, if_true, and_self]
  exact toNat_ofNat_small _ (by omega)

/-- Upper-casing only ever produces an ASCII rune other than a capital letter
from that rune itself. -/
theorem ToUpper_eq_self_of_caseless (T : CaseRanges) (c : Char)
    (h : (unicode.ToUpper T c).toNat ≤ 127)
    (h' : ¬ (65 ≤ (unicode.ToUpper T c).toNat ∧ (unicode.ToUpper T c).toNat ≤ 90)) :
    unicode.ToUpper T c = c := by
  by_cases h1 : c.toNat ≤ 127
  · by_cases h2 : 97 ≤ c.toNat ∧ c.toNat ≤ 122
    · have := ToUpper_toNat_lower T c h2
      omega
    · exact ToUpper_of_not_lower T c h1 h2
  · have hu : unicode.ToUpper T c = T.upper c := by
      simp only [unicode.ToUpper, h1, if_false]
    rw [hu] at h h'
    rcases T.upper_high c (by omega) with h3 | h3
    · omega
    · exact absurd h3 h'

/-- Upper-casing a rune twice is upper-casing it once. -/
theorem unicode_ToUpper_idem (T : CaseRanges) (c : Char) :
    unicode.ToUpper T (unicode.ToUpper T c) = unicode.ToUpper T c := by
  by_cases h1 : c.toNat ≤ 127
  · by_cases h2 : 97 ≤ c.toNat ∧ c.toNat ≤ 122
    · have := ToUpper_toNat_lower T c h2
      exact ToUpper_of_not_lower T _ (by omega) (by omega)
    · rw [ToUpper_of_not_lower T c h1 h2]
      exact ToUpper_of_not_lower T c h1 h2
  · have hu : unicode.ToUpper T c = T.upper c := by
      simp only [unicode.ToUpper, h1, if_false]
    rw [hu]
    rcases T.upper_high c (by omega) with h3 | h3
    · have h4 : ¬ (T.upper c).toNat ≤ 127 := by omega
      simp only [unicode.ToUpper, h4, if_false]
      exact T.upper_idem c (by omega) h3
    · exact ToUpper_of_not_lower T _ (by omega) (by omega)

/-- Go `strings.ToUpper` is idempotent. -/
theorem strings_ToUpper_idem (T : CaseRanges) (s : String) :
    strings.ToUpper T (strings.ToUpper T s) = strings.ToUpper T s := by
  simp only [strings.ToUpper, List.map_map]
  congr 1
  apply List.map_congr_left
  intro c _
  exact unicode_ToUpper_idem T c

/-- On an ASCII rune the case table plays no part. -/
theorem unicode_ToUpper_ascii (T T' : CaseRanges) (c : Char) (h : c.toNat ≤ 127) :
    unicode.ToUpper T c = unicode.ToUpper T' c := by
  simp only [unicode.ToUpper, h, if_true]

/-- On an ASCII string the case table plays no part. -/
theorem strings_ToUpper_ascii (T T' : CaseRanges) (s : String) (h : IsASCII s) :
    strings.ToUpper T s = strings.ToUpper T' s := by
  simp only [strings.ToUpper]
  congr 1
  apply List.map_congr_left
  intro c hc
  exact unicode_ToUpper_ascii T T' c (h c hc)

/-- On ASCII arguments the validator does not depend on the case table. -/
theorem ValidatePostalCode_ascii (T T' : CaseRanges) (v : PostCodeValidator)
    (countryCode postalCode : String) (hc : IsASCII countryCode) (hp : IsASCII postalCode) :
    v.ValidatePostalCode T countryCode postalCode =
      v.ValidatePostalCode T' countryCode postalCode := by
  simp only [PostCodeValidator.ValidatePostalCode, strings_ToUpper_ascii T T' _ hc,
    strings_ToUpper_ascii T T' _ hp]

/-- A key is absent from the table exactly when its lookup finds nothing. -/
theorem lookup_eq_none_iff_not_mem_keys (v : PostCodeValidator) (k : String) :
    v.CountryRegexMapping.lookup k = none ↔ k ∉ v.keys := by
  simp only [List.lookup_eq_none_iff, PostCodeValidator.keys, List.mem_map, not_exists, not_and]
  constructor
  · intro h p hp hk
    have := h p hp
    rw [bne_iff_ne] at this
    exact this hk.symm
  · intro h p hp
    rw [bne_iff_ne]
    intro hk
    exact h p hp hk.symm

/-- The two error messages differ. -/
theorem not_found_ne_does_not_compile (msg : String) :
    "country code not found" ≠ "regex does not compile " ++ msg := by
  intro h
  have := congrArg String.data h
  simp only [String.data_append] at this
  have h2 := congrArg List.head? this
  simp at h2

/-! ## The outcomes of `ValidatePostalCode` -/

/-- The result for a country code whose upper case is not in the table. -/
theorem ValidatePostalCode_of_lookup_none (T : CaseRanges) (v : PostCodeValidator)
    (countryCode postalCode : String)
    (h : v.CountryRegexMapping.lookup (strings.ToUpper T countryCode) = none) :
    v.ValidatePostalCode T countryCode postalCode = (false, some "country code not found") := by
  simp only [PostCodeValidator.ValidatePostalCode, h]

/-- The result for a country whose pattern does not compile. -/
theorem ValidatePostalCode_of_compile_error (T : CaseRanges) (v : PostCodeValidator)
    (countryCode postalCode pat : String) (err : regexp.Error)
    (h : v.CountryRegexMapping.lookup (strings.ToUpper T countryCode) = some pat)
    (hc : regexp.Compile pat = .error err) :
    v.ValidatePostalCode T countryCode postalCode =
      (false, some ("regex does not compile " ++ err.Error)) := by
  simp only [PostCodeValidator.ValidatePostalCode, h, hc]

/-- The result for a country whose pattern compiles. -/
theorem ValidatePostalCode_of_compile_ok (T : CaseRanges) (v : PostCodeValidator)
    (countryCode postalCode pat : String) (re : regexp.Regexp)
    (h : v.CountryRegexMapping.lookup (strings.ToUpper T countryCode) = some pat)
    (hc : regexp.Compile pat = .ok re) :
    v.ValidatePostalCode T countryCode postalCode =
      (re.MatchString (strings.ToUpper T postalCode), none) := by
  simp only [PostCodeValidator.ValidatePostalCode, h, hc]

/-- C1: for every validator (any table), country code and postal code,
`ValidatePostalCode` has exactly one of three outcomes.  It returns `false`
with the error "country code not found" if and only if the upper-cased
country code is not a key of the table; it returns `false` with an error
"regex does not compile ..." if and only if the key is present and its
pattern does not compile (the message then carries the compile error);
otherwise it returns a nil error and the boolean is whether the compiled
pattern matches the upper-cased postal code. -/
theorem C1_three_outcomes (T : CaseRanges) (v : PostCodeValidator)
    (countryCode postalCode : String) :
    (v.ValidatePostalCode T countryCode postalCode = (false, some "country code not found") ↔
      strings.ToUpper T countryCode ∉ v.keys) ∧
    ((∃ msg, v.ValidatePostalCode T countryCode postalCode =
        (false, some ("regex does not compile " ++ msg))) ↔
      ∃ pat err, v.CountryRegexMapping.lookup (strings.ToUpper T countryCode) = some pat ∧
        regexp.Compile pat = .error err) ∧
    (∀ pat err, v.CountryRegexMapping.lookup (strings.ToUpper T countryCode) = some pat →
      regexp.Compile pat = .error err →
      v.ValidatePostalCode T countryCode postalCode =
        (false, some ("regex does not compile " ++ err.Error))) ∧
    (∀ pat re, v.CountryRegexMapping.lookup (strings.ToUpper T countryCode) = some pat →
      regexp.Compile pat = .ok re →
      v.ValidatePostalCode T countryCode postalCode =
        (re.MatchString (strings.ToUpper T postalCode), none)) := by
  refine ⟨?_, ?_, ?_, ?_⟩
  · rw [← lookup_eq_none_iff_not_mem_keys]
    constructor
    · intro h
      cases hl : v.CountryRegexMapping.lookup (strings.ToUpper T countryCode) with
      | none => rfl
      | some pat =>
        cases hc : regexp.Compile pat with
        | error err =>
          rw [ValidatePostalCode_of_compile_error T v _ _ pat err hl hc] at h
          have h2 := (Prod.mk.injEq _ _ _ _ ▸ h).2
          exact absurd (Option.some.inj h2).symm (not_found_ne_does_not_compile _)
        | ok re =>
          rw [ValidatePostalCode_of_compile_ok T v _ _ pat re hl hc] at h
          have h2 := (Prod.mk.injEq _ _ _ _ ▸ h).2
          exact absurd h2 (by simp)
    · exact ValidatePostalCode_of_lookup_none T v _ _
  · constructor
    · rintro ⟨msg, h⟩
      cases hl : v.CountryRegexMapping.lookup (strings.ToUpper T countryCode) with
      | none =>
        rw [ValidatePostalCode_of_lookup_none T v _ _ hl] at h
        have h2 := (Prod.mk.injEq _ _ _ _ ▸ h).2
        exact absurd (Option.some.inj h2) (not_found_ne_does_not_compile _)
      | some pat =>
        cases hc : regexp.Compile pat with
        | error err => exact ⟨pat, err, rfl, hc⟩
        | ok re =>
          rw [ValidatePostalCode_of_compile_ok T v _ _ pat re hl hc] at h
          have h2 := (Prod.mk.injEq _ _ _ _ ▸ h).2
          exact absurd h2 (by simp)
    · rintro ⟨pat, err, hl, hc⟩
      exact ⟨err.Error, ValidatePostalCode_of_compile_error T v _ _ pat err hl hc⟩
  · intro pat err hl hc
    exact ValidatePostalCode_of_compile_error T v _ _ pat err hl hc
  · intro pat re hl hc
    exact ValidatePostalCode_of_compile_ok T v _ _ pat re hl hc

/-- Witness for C1 on the built-in table: "us" resolves to the key "US",
whose pattern compiles, so the result is the match of that pattern. -/
theorem C1_three_outcomes_witness :
    NewPostCodeValidator.CountryRegexMapping.lookup (strings.ToUpper asciiCaseRanges "us") =
        some r"^([0-9]{5})(?:-([0-9]{4}))?$" ∧
      regexp.Compile r"^([0-9]{5})(?:-([0-9]{4}))?$" =
        .ok (.OpConcat .OpBeginText (.OpConcat
          (.OpCapture (.OpRepeat 5 (some 5) (.OpCharClass false [(48, 57)])))
          (.OpConcat
            (.OpQuest (.OpConcat (.OpCharClass false [(45, 45)])
              (.OpCapture (.OpRepeat 4 (some 4) (.OpCharClass false [(48, 57)])))))
            .OpEndText))) ∧
      NewPostCodeValidator.ValidatePostalCode asciiCaseRanges "us" "90210" =
        (regexp.Regexp.MatchString (.OpConcat .OpBeginText (.OpConcat
          (.OpCapture (.OpRepeat 5 (some 5) (.OpCharClass false [(48, 57)])))
          (.OpConcat
            (.OpQuest (.OpConcat (.OpCharClass false [(45, 45)])
              (.OpCapture (.OpRepeat 4 (some 4) (.OpCharClass false [(48, 57)])))))
            .OpEndText))) (strings.ToUpper asciiCaseRanges "90210"), none) :=
  ⟨by decide, by decide,
    (C1_three_outcomes asciiCaseRanges NewPostCodeValidator "us" "90210").2.2.2
      r"^([0-9]{5})(?:-([0-9]{4}))?$"
      (.OpConcat .OpBeginText (.OpConcat
          (.OpCapture (.OpRepeat 5 (some 5) (.OpCharClass false [(48, 57)])))
          (.OpConcat
            (.OpQuest (.OpConcat (.OpCharClass false [(45, 45)])
              (.OpCapture (.OpRepeat 4 (some 4) (.OpCharClass false [(48, 57)])))))
            .OpEndText)))
      (by decide) (by decide)⟩

/-- C2 at the failing input: "AT" is a key of the built-in table, yet its
pattern starts with a look-ahead group, which `regexp.Compile` rejects, so
`ValidatePostalCode("AT", "1010")` returns the compile error instead of a nil
error. -/
theorem C2_AT_pattern_does_not_compile :
    "AT" ∈ NewPostCodeValidator.keys ∧
    ∀ T : CaseRanges, NewPostCodeValidator.ValidatePostalCode T "AT" "1010" =
      (false, some ("regex does not compile error parsing regexp: " ++
        "invalid or unsupported Perl syntax: \x60(?!\x60")) :=
  ⟨by decide, fun T =>
    (ValidatePostalCode_ascii T asciiCaseRanges NewPostCodeValidator "AT" "1010"
      (by decide) (by decide)).trans (by decide)⟩

/-- C3: for the built-in validator and every postal code, a country code
whose upper case is not a key of the table gives `false` with the error
"country code not found"; so do "ZZ" (with "12345"), the empty country code,
a blank one and a space-padded one, since nothing is trimmed. -/
theorem C3_unknown_country :
    (∀ (T : CaseRanges) (countryCode postalCode : String),
      strings.ToUpper T countryCode ∉ NewPostCodeValidator.keys →
      NewPostCodeValidator.ValidatePostalCode T countryCode postalCode =
        (false, some "country code not found")) ∧
    (∀ T : CaseRanges, NewPostCodeValidator.ValidatePostalCode T "ZZ" "12345" =
        (false, some "country code not found")) ∧
    (∀ (T : CaseRanges) (postalCode : String),
      NewPostCodeValidator.ValidatePostalCode T "" postalCode =
        (false, some "country code not found") ∧
      NewPostCodeValidator.ValidatePostalCode T " " postalCode =
        (false, some "country code not found") ∧
      NewPostCodeValidator.ValidatePostalCode T " US" postalCode =
        (false, some "country code not found") ∧
      NewPostCodeValidator.ValidatePostalCode T "ZZ" postalCode =
        (false, some "country code not found")) := by
  have key : ∀ (T : CaseRanges) (c : String), IsASCII c →
      strings.ToUpper asciiCaseRanges c ∉ NewPostCodeValidator.keys →
      ∀ postalCode, NewPostCodeValidator.ValidatePostalCode T c postalCode =
        (false, some "country code not found") := by
    intro T c hc hk postalCode
    apply ValidatePostalCode_of_lookup_none
    rw [lookup_eq_none_iff_not_mem_keys, strings_ToUpper_ascii T asciiCaseRanges c hc]
    exact hk
  refine ⟨?_, ?_, ?_⟩
  · intro T countryCode postalCode h
    exact ValidatePostalCode_of_lookup_none T _ _ _
      ((lookup_eq_none_iff_not_mem_keys _ _).2 h)
  · intro T
    exact key T "ZZ" (by decide) (by decide) _
  · intro T postalCode
    exact ⟨key T "" (by decide) (by decide) _, key T " " (by decide) (by decide) _,
      key T " US" (by decide) (by decide) _, key T "ZZ" (by decide) (by decide) _⟩

/-- Witness for C3: the upper case of "zz" is not a key of the built-in
table. -/
theorem C3_unknown_country_witness :
    strings.ToUpper asciiCaseRanges "zz" ∉ NewPostCodeValidator.keys ∧
    NewPostCodeValidator.ValidatePostalCode asciiCaseRanges "zz" "12345" =
      (false, some "country code not found") :=
  ⟨by decide, C3_unknown_country.1 asciiCaseRanges "zz" "12345" (by decide)⟩

/-- A `true` result comes with a nil error. -/
theorem ValidatePostalCode_nil_of_true (T : CaseRanges) (v : PostCodeValidator)
    (countryCode postalCode : String)
    (h : (v.ValidatePostalCode T countryCode postalCode).1 = true) :
    (v.ValidatePostalCode T countryCode postalCode).2 = none := by
  cases hl : v.CountryRegexMapping.lookup (strings.ToUpper T countryCode) with
  | none =>
    rw [ValidatePostalCode_of_lookup_none T v _ _ hl] at h
    simp at h
  | some pat =>
    cases hc : regexp.Compile pat with
    | error err =>
      rw [ValidatePostalCode_of_compile_error T v _ _ pat err hl hc] at h
      simp at h
    | ok re => rw [ValidatePostalCode_of_compile_ok T v _ _ pat re hl hc]

/-- C4: for every validator, country code and postal code, a result with a
non-nil error has the boolean `false`; equivalently a `true` result comes
with a nil error. -/
theorem C4_error_implies_false (T : CaseRanges) (v : PostCodeValidator)
    (countryCode postalCode : String) :
    ((v.ValidatePostalCode T countryCode postalCode).2 ≠ none →
      (v.ValidatePostalCode T countryCode postalCode).1 = false) ∧
    ((v.ValidatePostalCode T countryCode postalCode).1 = true →
      (v.ValidatePostalCode T countryCode postalCode).2 = none) := by
  cases hl : v.CountryRegexMapping.lookup (strings.ToUpper T countryCode) with
  | none =>
    rw [ValidatePostalCode_of_lookup_none T v _ _ hl]
    simp
  | some pat =>
    cases hc : regexp.Compile pat with
    | error err =>
      rw [ValidatePostalCode_of_compile_error T v _ _ pat err hl hc]
      simp
    | ok re =>
      rw [ValidatePostalCode_of_compile_ok T v _ _ pat re hl hc]
      simp

/-- Witness for C4: the Austrian pattern does not compile, the error is not
nil and the boolean is `false`. -/
theorem C4_error_implies_false_witness :
    (NewPostCodeValidator.ValidatePostalCode asciiCaseRanges "AT" "1010").2 ≠ none ∧
    (NewPostCodeValidator.ValidatePostalCode asciiCaseRanges "AT" "1010").1 = false :=
  ⟨by decide,
    (C4_error_implies_false asciiCaseRanges NewPostCodeValidator "AT" "1010").1 (by decide)⟩

/-- C5: `ValidatePostalCode` is case-insensitive in both arguments: country
codes with the same upper case and postal codes with the same upper case give
the same result (boolean and error), and the result for a pair is the result
for the upper-cased pair. -/
theorem C5_case_insensitive (T : CaseRanges) (v : PostCodeValidator) :
    (∀ c c' p p' : String, strings.ToUpper T c = strings.ToUpper T c' →
      strings.ToUpper T p = strings.ToUpper T p' →
      v.ValidatePostalCode T c p = v.ValidatePostalCode T c' p') ∧
    (∀ c p : String, v.ValidatePostalCode T c p =
      v.ValidatePostalCode T (strings.ToUpper T c) (strings.ToUpper T p)) := by
  constructor
  · intro c c' p p' hc hp
    simp only [PostCodeValidator.ValidatePostalCode, hc, hp]
  · intro c p
    simp only [PostCodeValidator.ValidatePostalCode, strings_ToUpper_idem]

/-- Witness for C5: "ca" and "Ca" have the same upper case, and so have
"k1a 0b1" and "K1a 0B1". -/
theorem C5_case_insensitive_witness :
    strings.ToUpper asciiCaseRanges "ca" = strings.ToUpper asciiCaseRanges "Ca" ∧
    strings.ToUpper asciiCaseRanges "k1a 0b1" = strings.ToUpper asciiCaseRanges "K1a 0B1" ∧
    NewPostCodeValidator.ValidatePostalCode asciiCaseRanges "ca" "k1a 0b1" =
      NewPostCodeValidator.ValidatePostalCode asciiCaseRanges "Ca" "K1a 0B1" :=
  ⟨by decide, by decide,
    (C5_case_insensitive asciiCaseRanges NewPostCodeValidator).1 "ca" "Ca" "k1a 0b1" "K1a 0B1"
      (by decide) (by decide)⟩

/-! ## What the matcher computes -/

open regexp

theorem prevAfter_cons (pr : Option Char) (c : Char) (a : List Char) :
    prevAfter pr (c :: a) = prevAfter (some c) a := rfl

theorem prevAfter_nil (pr : Option Char) : prevAfter pr [] = pr := rfl

theorem mem_run_class_pair {neg : Bool} {rs : List (Nat × Nat)} {pr : Option Char}
    {l : List Char} {q : Pos} :
    q ∈ (Regexp.OpCharClass neg rs).run (pr, l) ↔
      ∃ c t, l = c :: t ∧ classMatches neg rs c = true ∧ q = (some c, t) := by
  cases l with
  | nil => simp [Regexp.run]
  | cons c t =>
    by_cases h : classMatches neg rs c = true
    · simp only [Regexp.run, h, if_true, List.mem_singleton]
      constructor
      · rintro rfl
        exact ⟨c, t, rfl, h, rfl⟩
      · rintro ⟨c', t', h1, -, rfl⟩
        cases h1
        rfl
    · simp only [Regexp.run, h, Bool.false_eq_true, if_false, List.not_mem_nil, false_iff]
      rintro ⟨c', t', h1, h2, -⟩
      cases h1
      exact h h2

/-- One rune of a class. -/
theorem mem_run_class {neg : Bool} {rs : List (Nat × Nat)} {p q : Pos} :
    q ∈ (Regexp.OpCharClass neg rs).run p ↔
      ∃ c t, p.2 = c :: t ∧ classMatches neg rs c = true ∧ q = (some c, t) :=
  @mem_run_class_pair neg rs p.1 p.2 q

theorem mem_timesRun_class_pair {neg : Bool} {rs : List (Nat × Nat)} (n : Nat) :
    ∀ (pr : Option Char) (l : List Char) (q : Pos),
    q ∈ timesRun (Regexp.OpCharClass neg rs).run n (pr, l) ↔
      ∃ a, a.length = n ∧ (∀ c ∈ a, classMatches neg rs c = true) ∧
        l = a ++ q.2 ∧ q.1 = prevAfter pr a := by
  induction n with
  | zero =>
    intro pr l q
    simp only [timesRun, List.mem_singleton, List.length_eq_zero]
    constructor
    · rintro rfl
      exact ⟨[], rfl, by simp, rfl, rfl⟩
    · rintro ⟨a, rfl, -, h1, h2⟩
      exact Prod.ext h2 (by simpa using h1.symm)
  | succ n ih =>
    intro pr l q
    simp only [timesRun, List.mem_flatMap, mem_run_class_pair]
    constructor
    · rintro ⟨m, ⟨c, t, rfl, hc, rfl⟩, hq⟩
      obtain ⟨a, ha, hall, hl, hp⟩ := (ih _ _ _).1 hq
      refine ⟨c :: a, by simp [ha], ?_, by simp [hl], hp⟩
      intro d hd
      rcases List.mem_cons.1 hd with rfl | hd
      · exact hc
      · exact hall d hd
    · rintro ⟨a, ha, hall, hl, hp⟩
      cases a with
      | nil => simp at ha
      | cons c a =>
        refine ⟨(some c, a ++ q.2), ⟨c, a ++ q.2, by simpa using hl, hall c (by simp), rfl⟩, ?_⟩
        exact (ih _ _ _).2 ⟨a, by simpa using ha, fun d hd => hall d (by simp [hd]), rfl, hp⟩

/-- What `n` runes of a class in a row reach. -/
theorem mem_timesRun_class {neg : Bool} {rs : List (Nat × Nat)} {n : Nat} {p q : Pos} :
    q ∈ timesRun (Regexp.OpCharClass neg rs).run n p ↔
      ∃ a, a.length = n ∧ (∀ c ∈ a, classMatches neg rs c = true) ∧
        p.2 = a ++ q.2 ∧ q.1 = prevAfter p.1 a :=
  mem_timesRun_class_pair n p.1 p.2 q

theorem mem_run_concat {a b : Regexp} {p q : Pos} :
    q ∈ (Regexp.OpConcat a b).run p ↔ ∃ m, m ∈ a.run p ∧ q ∈ b.run m := by
  simp only [Regexp.run, List.mem_flatMap]

theorem mem_run_alternate {a b : Regexp} {p q : Pos} :
    q ∈ (Regexp.OpAlternate a b).run p ↔ q ∈ a.run p ∨ q ∈ b.run p := by
  simp only [Regexp.run, List.mem_append]

theorem run_capture (a : Regexp) (p : Pos) : (Regexp.OpCapture a).run p = a.run p := by
  simp only [Regexp.run]

theorem mem_run_quest {a : Regexp} {p q : Pos} :
    q ∈ (Regexp.OpQuest a).run p ↔ q = p ∨ q ∈ a.run p := by
  simp only [Regexp.run, List.mem_cons]

theorem mem_run_endText {p q : Pos} :
    q ∈ Regexp.OpEndText.run p ↔ q = p ∧ p.2 = [] := by
  by_cases h : p.2 = []
  · simp [Regexp.run, h]
  · simp [Regexp.run, h]

theorem mem_run_beginText {p q : Pos} :
    q ∈ Regexp.OpBeginText.run p ↔ q = p ∧ p.1 = none := by
  by_cases h : p.1 = none
  · simp [Regexp.run, h]
  · simp [Regexp.run, h]

theorem mem_run_repeat_exact {n : Nat} {sub : Regexp} {p q : Pos} :
    q ∈ (Regexp.OpRepeat n (some n) sub).run p ↔ q ∈ timesRun sub.run n p := by
  simp only [Regexp.run, Nat.sub_self, List.mem_flatMap, uptoRun, List.mem_singleton]
  constructor
  · rintro ⟨m, hm, rfl⟩
    exact hm
  · intro h
    exact ⟨q, h, rfl⟩

theorem prevAfter_eq_none {pr : Option Char} {a : List Char} :
    prevAfter pr a = none ↔ pr = none ∧ a = [] := by
  induction a generalizing pr with
  | nil => simp [prevAfter]
  | cons c a ih =>
    rw [prevAfter_cons, ih]
    simp

theorem mem_positions {pr : Option Char} {l : List Char} {p : Pos} :
    p ∈ positions pr l ↔ ∃ a b, l = a ++ b ∧ p = (prevAfter pr a, b) := by
  induction l generalizing pr with
  | nil =>
    simp only [positions, List.mem_singleton]
    constructor
    · rintro rfl
      exact ⟨[], [], rfl, rfl⟩
    · rintro ⟨a, b, h, rfl⟩
      have ha : a = [] := (List.append_eq_nil.1 h.symm).1
      have hb : b = [] := (List.append_eq_nil.1 h.symm).2
      subst ha hb
      rfl
  | cons c t ih =>
    simp only [positions, List.mem_cons, ih]
    constructor
    · rintro (rfl | ⟨a, b, rfl, rfl⟩)
      · exact ⟨[], c :: t, rfl, rfl⟩
      · exact ⟨c :: a, b, rfl, rfl⟩
    · rintro ⟨a, b, h, rfl⟩
      cases a with
      | nil =>
        left
        simp only [List.nil_append] at h
        subst h
        rfl
      | cons d a =>
        right
        simp only [List.cons_append, List.cons.injEq] at h
        obtain ⟨rfl, rfl⟩ := h
        exact ⟨a, b, rfl, rfl⟩

theorem MatchString_iff (re : Regexp) (s : String) :
    re.MatchString s = true ↔ ∃ p ∈ positions none s.data, ∃ q, q ∈ re.run p := by
  simp only [Regexp.MatchString, List.any_eq_true, Bool.not_eq_true', List.isEmpty_eq_false]
  constructor
  · rintro ⟨p, hp, h⟩
    exact ⟨p, hp, List.exists_mem_of_ne_nil _ h⟩
  · rintro ⟨p, hp, q, hq⟩
    exact ⟨p, hp, List.ne_nil_of_mem hq⟩

/-- A pattern that starts with `^` can only match from the beginning of the
text. -/
theorem MatchString_beginText (X : Regexp) (s : String) :
    (Regexp.OpConcat .OpBeginText X).MatchString s = true ↔ ∃ q, q ∈ X.run (none, s.data) := by
  rw [MatchString_iff]
  constructor
  · rintro ⟨p, hp, q, hq⟩
    obtain ⟨m, hm, hq'⟩ := mem_run_concat.1 hq
    obtain ⟨rfl, hnone⟩ := mem_run_beginText.1 hm
    obtain ⟨a, b, hab, rfl⟩ := mem_positions.1 hp
    have ha : a = [] := (prevAfter_eq_none.1 hnone).2
    subst ha
    simp only [List.nil_append] at hab
    subst hab
    exact ⟨q, hq'⟩
  · rintro ⟨q, hq⟩
    exact ⟨(none, s.data), mem_positions.2 ⟨[], s.data, rfl, rfl⟩, q,
      mem_run_concat.2 ⟨(none, s.data), mem_run_beginText.2 ⟨rfl, rfl⟩, hq⟩⟩

theorem classMatches_digit (c : Char) : classMatches false [(48, 57)] c = isDigitRune c := by
  simp [classMatches, inRanges, isDigitRune]

/-- What `n` digits in a row reach. -/
theorem mem_timesRun_digit {n : Nat} {p q : Pos} :
    q ∈ timesRun (Regexp.OpCharClass false [(48, 57)]).run n p ↔
      ∃ a, Digits n a ∧ p.2 = a ++ q.2 ∧ q.1 = prevAfter p.1 a := by
  rw [mem_timesRun_class]
  simp only [classMatches_digit, Digits, and_assoc]

theorem char_eq_of_toNat_eq {a b : Char} (h : a.toNat = b.toNat) : a = b := by
  have := congrArg Char.ofNat h
  simpa using this

theorem classMatches_single (n : Nat) (c : Char) :
    classMatches false [(n, n)] c = true ↔ c.toNat = n := by
  simp only [classMatches, inRanges, List.any_cons, List.any_nil, Bool.or_false, bne_iff_ne, ne_eq,
    Bool.not_eq_false, Bool.and_eq_true, decide_eq_true_eq]
  omega

/-- The pattern of "DE" (and of the other five-digit countries) matches
exactly the texts of five digits. -/
theorem DE_matches (s : String) :
    (Regexp.OpConcat .OpBeginText (.OpConcat
      (.OpRepeat 5 (some 5) (.OpCharClass false [(48, 57)])) .OpEndText)).MatchString s = true ↔
    Digits 5 s.data := by
  rw [MatchString_beginText]
  simp only [mem_run_concat, mem_run_repeat_exact, mem_run_endText, mem_timesRun_digit]
  constructor
  · rintro ⟨q, m, ⟨a, ha, hl, -⟩, rfl, hm⟩
    rw [hm, List.append_nil] at hl
    rw [show s.data = a from hl]
    exact ha
  · intro h
    exact ⟨(prevAfter none s.data, []), (prevAfter none s.data, []),
      ⟨s.data, h, by simp, rfl⟩, rfl, rfl⟩

/-- The pattern of "US" matches exactly the texts of the US form. -/
theorem US_matches (s : String) :
    (Regexp.OpConcat .OpBeginText (.OpConcat
      (.OpCapture (.OpRepeat 5 (some 5) (.OpCharClass false [(48, 57)])))
      (.OpConcat
        (.OpQuest (.OpConcat (.OpCharClass false [(45, 45)])
          (.OpCapture (.OpRepeat 4 (some 4) (.OpCharClass false [(48, 57)])))))
        .OpEndText))).MatchString s = true ↔
    USForm s.data := by
  rw [MatchString_beginText]
  simp only [mem_run_concat, run_capture, mem_run_repeat_exact, mem_run_endText,
    mem_timesRun_digit, mem_run_quest, mem_run_class, classMatches_single]
  constructor
  · rintro ⟨q, m1, ⟨a, ha, hl, -⟩, m2, hm2, rfl, hend⟩
    refine ⟨a, ha, ?_⟩
    rcases hm2 with rfl | ⟨m3, ⟨c, t, hct, hc, rfl⟩, b, hb, ht, -⟩
    · left
      rw [hend, List.append_nil] at hl
      exact hl
    · right
      refine ⟨b, hb, ?_⟩
      have hc' : c = '-' := char_eq_of_toNat_eq hc
      simp only at ht
      rw [hend, List.append_nil] at ht
      rw [show s.data = a ++ m1.2 from hl, hct, ht, hc']
  · rintro ⟨a, ha, h | ⟨b, hb, h⟩⟩
    · exact ⟨(prevAfter none a, []), (prevAfter none a, []), ⟨a, ha, by simp [h], rfl⟩,
        (prevAfter none a, []), Or.inl rfl, rfl, rfl⟩
    · exact ⟨(prevAfter (some '-') b, []), (prevAfter none a, '-' :: b),
        ⟨a, ha, by simp [h], rfl⟩,
        (prevAfter (some '-') b, []),
        Or.inr ⟨(some '-', b), ⟨'-', b, rfl, by decide, rfl⟩, b, hb, by simp, rfl⟩, rfl, rfl⟩

/-- The pattern of "NG" matches exactly the empty text and the texts of six
digits. -/
theorem NG_matches (s : String) :
    (Regexp.OpConcat .OpBeginText (.OpConcat
      (.OpQuest (.OpCapture (.OpRepeat 6 (some 6) (.OpCharClass false [(48, 57)]))))
      .OpEndText)).MatchString s = true ↔
    (s.data = [] ∨ Digits 6 s.data) := by
  rw [MatchString_beginText]
  simp only [mem_run_concat, run_capture, mem_run_repeat_exact, mem_run_endText,
    mem_timesRun_digit, mem_run_quest]
  constructor
  · rintro ⟨q, m, hm, rfl, hend⟩
    rcases hm with rfl | ⟨a, ha, hl, -⟩
    · left
      exact hend
    · right
      rw [hend, List.append_nil] at hl
      rw [show s.data = a from hl]
      exact ha
  · rintro (h | h)
    · exact ⟨(none, s.data), (none, s.data), Or.inl rfl, rfl, h⟩
    · exact ⟨(prevAfter none s.data, []), (prevAfter none s.data, []),
        Or.inr ⟨s.data, h, by simp, rfl⟩, rfl, rfl⟩

/-! ## Upper-casing and texts without letters -/

theorem ToUpper_of_caseless (T : CaseRanges) (c : Char) (h : Caseless c) :
    unicode.ToUpper T c = c :=
  ToUpper_of_not_lower T c h.1 h.2.2

theorem ToUpper_eq_self_of_caseless_image (T : CaseRanges) (c : Char)
    (h : Caseless (unicode.ToUpper T c)) : unicode.ToUpper T c = c :=
  ToUpper_eq_self_of_caseless T c h.1 h.2.1

theorem ToUpper_data_of_caseless (T : CaseRanges) (s : String)
    (h : ∀ c ∈ s.data, Caseless c) : (strings.ToUpper T s).data = s.data := by
  simp only [strings.ToUpper]
  conv_rhs => rw [← List.map_id s.data]
  apply List.map_congr_left
  intro c hc
  exact ToUpper_of_caseless T c (h c hc)

theorem ToUpper_data_of_caseless_image (T : CaseRanges) (s : String)
    (h : ∀ c ∈ (strings.ToUpper T s).data, Caseless c) :
    (strings.ToUpper T s).data = s.data := by
  simp only [strings.ToUpper] at h ⊢
  conv_rhs => rw [← List.map_id s.data]
  apply List.map_congr_left
  intro c hc
  exact ToUpper_eq_self_of_caseless_image T c (h _ (List.mem_map_of_mem _ hc))

/-- A property that only texts without letters (and without runes above
ASCII) have holds of a text exactly when it holds of its upper case. -/
theorem ToUpper_transfer (P : List Char → Prop) (hP : ∀ l, P l → ∀ c ∈ l, Caseless c)
    (T : CaseRanges) (s : String) : P (strings.ToUpper T s).data ↔ P s.data := by
  constructor
  · intro h
    rw [← ToUpper_data_of_caseless_image T s (hP _ h)]
    exact h
  · intro h
    rw [ToUpper_data_of_caseless T s (hP _ h)]
    exact h

theorem caseless_of_isDigitRune (c : Char) (h : isDigitRune c = true) : Caseless c := by
  simp only [isDigitRune, Bool.and_eq_true, decide_eq_true_eq] at h
  unfold Caseless
  omega

theorem caseless_of_Digits {n : Nat} {l : List Char} (h : Digits n l) :
    ∀ c ∈ l, Caseless c :=
  fun c hc => caseless_of_isDigitRune c (h.2 c hc)

theorem caseless_of_USForm (l : List Char) (h : USForm l) : ∀ c ∈ l, Caseless c := by
  obtain ⟨a, ha, rfl | ⟨b, hb, rfl⟩⟩ := h
  · exact caseless_of_Digits ha
  · intro c hc
    rcases List.mem_append.1 hc with hc | hc
    · exact caseless_of_Digits ha c hc
    · rcases List.mem_cons.1 hc with rfl | hc
      · unfold Caseless; decide
      · exact caseless_of_Digits hb c hc

/-! ## The built-in table, country by country -/

/-- The result of the built-in validator for an ASCII country code whose
upper case is a key with a pattern that compiles. -/
theorem ValidatePostalCode_builtin (T : CaseRanges) (countryCode postalCode key pat : String)
    (re : Regexp) (ha : IsASCII countryCode)
    (hk : strings.ToUpper asciiCaseRanges countryCode = key)
    (hl : NewPostCodeValidator.CountryRegexMapping.lookup key = some pat)
    (hc : Compile pat = .ok re) :
    NewPostCodeValidator.ValidatePostalCode T countryCode postalCode =
      (re.MatchString (strings.ToUpper T postalCode), none) := by
  apply ValidatePostalCode_of_compile_ok T _ _ _ pat re _ hc
  rw [strings_ToUpper_ascii T asciiCaseRanges countryCode ha, hk]
  exact hl

/-- The result of the built-in validator on ASCII arguments, by evaluation
with the small case table. -/
theorem ValidatePostalCode_eval (T : CaseRanges) (countryCode postalCode : String)
    (r : Bool × Option String) (hc : IsASCII countryCode) (hp : IsASCII postalCode)
    (h : NewPostCodeValidator.ValidatePostalCode asciiCaseRanges countryCode postalCode = r) :
    NewPostCodeValidator.ValidatePostalCode T countryCode postalCode = r :=
  (ValidatePostalCode_ascii T asciiCaseRanges _ _ _ hc hp).trans h

theorem Compile_US :
    Compile r"^([0-9]{5})(?:-([0-9]{4}))?$" =
      .ok (.OpConcat .OpBeginText (.OpConcat
        (.OpCapture (.OpRepeat 5 (some 5) (.OpCharClass false [(48, 57)])))
        (.OpConcat
          (.OpQuest (.OpConcat (.OpCharClass false [(45, 45)])
            (.OpCapture (.OpRepeat 4 (some 4) (.OpCharClass false [(48, 57)])))))
          .OpEndText))) := by
  decide

theorem Compile_DE :
    Compile r"^\d{5}$" =
      .ok (.OpConcat .OpBeginText (.OpConcat
        (.OpRepeat 5 (some 5) (.OpCharClass false [(48, 57)])) .OpEndText)) := by
  decide

theorem Compile_NG :
    Compile r"^(\d{6})?$" =
      .ok (.OpConcat .OpBeginText (.OpConcat
        (.OpQuest (.OpCapture (.OpRepeat 6 (some 6) (.OpCharClass false [(48, 57)]))))
        .OpEndText)) := by
  decide

/-- C6: for the built-in validator and every postal code `p`,
`ValidatePostalCode("US", p)` returns a nil error, and returns `true` if and
only if `p` is exactly five ASCII digits, optionally followed by a hyphen and
exactly four ASCII digits.  "90210" and "90210-1234" give `(true, nil)`;
"ABCDE" and "" give `(false, nil)`. -/
theorem C6_US :
    (∀ (T : CaseRanges) (p : String),
      (NewPostCodeValidator.ValidatePostalCode T "US" p).2 = none ∧
      ((NewPostCodeValidator.ValidatePostalCode T "US" p).1 = true ↔ USForm p.data)) ∧
    (∀ T : CaseRanges,
      NewPostCodeValidator.ValidatePostalCode T "US" "90210" = (true, none) ∧
      NewPostCodeValidator.ValidatePostalCode T "US" "90210-1234" = (true, none) ∧
      NewPostCodeValidator.ValidatePostalCode T "US" "ABCDE" = (false, none) ∧
      NewPostCodeValidator.ValidatePostalCode T "US" "" = (false, none)) := by
  constructor
  · intro T p
    rw [ValidatePostalCode_builtin T "US" p "US" r"^([0-9]{5})(?:-([0-9]{4}))?$" _
      (by decide) (by decide) (by decide) Compile_US]
    exact ⟨rfl, (US_matches _).trans (ToUpper_transfer USForm caseless_of_USForm T p)⟩
  · intro T
    exact ⟨ValidatePostalCode_eval T _ _ _ (by decide) (by decide) (by decide),
      ValidatePostalCode_eval T _ _ _ (by decide) (by decide) (by decide),
      ValidatePostalCode_eval T _ _ _ (by decide) (by decide) (by decide),
      ValidatePostalCode_eval T _ _ _ (by decide) (by decide) (by decide)⟩

/-- C7: for the built-in validator and every postal code `p`,
`ValidatePostalCode("DE", p)` returns a nil error, and returns `true` if and
only if `p` consists of exactly five ASCII digits.  "10115" gives
`(true, nil)`; "1011" gives `(false, nil)`. -/
theorem C7_DE :
    (∀ (T : CaseRanges) (p : String),
      (NewPostCodeValidator.ValidatePostalCode T "DE" p).2 = none ∧
      ((NewPostCodeValidator.ValidatePostalCode T "DE" p).1 = true ↔ Digits 5 p.data)) ∧
    (∀ T : CaseRanges,
      NewPostCodeValidator.ValidatePostalCode T "DE" "10115" = (true, none) ∧
      NewPostCodeValidator.ValidatePostalCode T "DE" "1011" = (false, none)) := by
  constructor
  · intro T p
    rw [ValidatePostalCode_builtin T "DE" p "DE" r"^\d{5}$" _
      (by decide) (by decide) (by decide) Compile_DE]
    exact ⟨rfl, (DE_matches _).trans
      (ToUpper_transfer (Digits 5) (fun _ h => caseless_of_Digits h) T p)⟩
  · intro T
    exact ⟨ValidatePostalCode_eval T _ _ _ (by decide) (by decide) (by decide),
      ValidatePostalCode_eval T _ _ _ (by decide) (by decide) (by decide)⟩

/-- C9: for the built-in validator and every postal code `p`,
`ValidatePostalCode("NG", p)` returns a nil error, and returns `true` if and
only if `p` is the empty string or exactly six ASCII digits.  ("NG", "")
gives `(true, nil)`, whereas ("US", "") gives `(false, nil)`. -/
theorem C9_NG :
    (∀ (T : CaseRanges) (p : String),
      (NewPostCodeValidator.ValidatePostalCode T "NG" p).2 = none ∧
      ((NewPostCodeValidator.ValidatePostalCode T "NG" p).1 = true ↔
        (p = "" ∨ Digits 6 p.data))) ∧
    (∀ T : CaseRanges,
      NewPostCodeValidator.ValidatePostalCode T "NG" "" = (true, none) ∧
      NewPostCodeValidator.ValidatePostalCode T "US" "" = (false, none)) := by
  constructor
  · intro T p
    rw [ValidatePostalCode_builtin T "NG" p "NG" r"^(\d{6})?$" _
      (by decide) (by decide) (by decide) Compile_NG]
    refine ⟨rfl, (NG_matches _).trans ?_⟩
    have hP : ∀ l : List Char, (l = [] ∨ Digits 6 l) → ∀ c ∈ l, Caseless c := by
      rintro l (rfl | h) c hc
      · simp at hc
      · exact caseless_of_Digits h c hc
    have he : p.data = [] ↔ p = "" := String.ext_iff.symm
    exact (ToUpper_transfer (fun l => l = [] ∨ Digits 6 l) hP T p).trans (or_congr_left he)
  · intro T
    exact ⟨ValidatePostalCode_eval T _ _ _ (by decide) (by decide) (by decide),
      ValidatePostalCode_eval T _ _ _ (by decide) (by decide) (by decide)⟩

/-! ## Canada -/

theorem mem_starRun_class_pair {neg : Bool} {rs : List (Nat × Nat)} (n : Nat) :
    ∀ (pr : Option Char) (l : List Char) (q : Pos), l.length ≤ n →
    (q ∈ starRun (Regexp.OpCharClass neg rs).run n (pr, l) ↔
      ∃ a, (∀ c ∈ a, classMatches neg rs c = true) ∧ l = a ++ q.2 ∧ q.1 = prevAfter pr a) := by
  induction n with
  | zero =>
    intro pr l q hl
    have hnil : l = [] := List.length_eq_zero.1 (Nat.le_zero.1 hl)
    subst hnil
    simp only [starRun, List.mem_singleton]
    constructor
    · rintro rfl
      exact ⟨[], by simp, rfl, rfl⟩
    · rintro ⟨a, -, h1, h2⟩
      have ha : a = [] := (List.append_eq_nil.1 h1.symm).1
      subst ha
      exact Prod.ext h2 (List.append_eq_nil.1 h1.symm).2
  | succ n ih =>
    intro pr l q hl
    simp only [starRun, List.mem_cons, List.mem_flatMap, List.mem_filter, mem_run_class_pair,
      decide_eq_true_eq]
    constructor
    · rintro (rfl | ⟨m, ⟨⟨c, t, rfl, hc, rfl⟩, -⟩, hq⟩)
      · exact ⟨[], by simp, rfl, rfl⟩
      · obtain ⟨a, hall, ht, hp⟩ := (ih (some c) t q (by simpa using hl)).1 hq
        refine ⟨c :: a, ?_, by simp [ht], hp⟩
        intro d hd
        rcases List.mem_cons.1 hd with rfl | hd
        · exact hc
        · exact hall d hd
    · rintro ⟨a, hall, h1, h2⟩
      cases a with
      | nil =>
        left
        exact Prod.ext h2 (by simpa using h1.symm)
      | cons c a =>
        right
        have hl' : l = c :: (a ++ q.2) := by simpa using h1
        subst hl'
        refine ⟨(some c, a ++ q.2), ⟨⟨c, a ++ q.2, rfl, hall c (by simp), rfl⟩, by simp⟩, ?_⟩
        exact (ih (some c) (a ++ q.2) q (by simpa using hl)).2
          ⟨a, fun d hd => hall d (by simp [hd]), rfl, h2⟩

/-- What a starred class reaches: any run of runes of the class. -/
theorem mem_run_star_class {neg : Bool} {rs : List (Nat × Nat)} {p q : Pos} :
    q ∈ (Regexp.OpStar (.OpCharClass neg rs)).run p ↔
      ∃ a, (∀ c ∈ a, classMatches neg rs c = true) ∧ p.2 = a ++ q.2 ∧
        q.1 = prevAfter p.1 a := by
  simp only [Regexp.run]
  exact mem_starRun_class_pair p.2.length p.1 p.2 q (Nat.le_refl _)

theorem classMatches_runes (L : List Char) (c : Char) :
    classMatches false (L.map (fun c => (c.toNat, c.toNat))) c = true ↔ c ∈ L := by
  induction L with
  | nil => simp [classMatches, inRanges]
  | cons d L ih =>
    have hd : (decide (d.toNat ≤ c.toNat) && decide (c.toNat ≤ d.toNat)) = true ↔ c = d := by
      simp only [Bool.and_eq_true, decide_eq_true_eq]
      constructor
      · intro h
        exact char_eq_of_toNat_eq (by omega)
      · rintro rfl
        exact ⟨Nat.le_refl _, Nat.le_refl _⟩
    simp only [classMatches, inRanges, List.map_cons, List.any_cons, bne_iff_ne, ne_eq,
      Bool.not_eq_false, Bool.or_eq_true, List.mem_cons] at ih ⊢
    rw [hd, ih]

/-- One rune of a class that lists its runes. -/
theorem mem_run_runesClass {runes : String} {p q : Pos} :
    q ∈ (runesClass runes).run p ↔
      ∃ c t, p.2 = c :: t ∧ c ∈ runes.data ∧ q = (some c, t) := by
  simp only [runesClass, mem_run_class, classMatches_runes]

theorem classMatches_space (c : Char) :
    classMatches false [(9, 10), (12, 13), (32, 32)] c = true ↔ IsASCIIWhitespace c := by
  simp only [classMatches, inRanges, List.any_cons, List.any_nil, Bool.or_false, bne_iff_ne,
    ne_eq, Bool.not_eq_false, Bool.or_eq_true, Bool.and_eq_true, decide_eq_true_eq,
    IsASCIIWhitespace]
  omega

theorem mem_run_digit {p q : Pos} :
    q ∈ (Regexp.OpCharClass false [(48, 57)]).run p ↔
      ∃ c t, p.2 = c :: t ∧ isDigitRune c = true ∧ q = (some c, t) := by
  simp only [mem_run_class, classMatches_digit]

theorem Compile_CA :
    Compile (r"^([ABCEGHJKLMNPRSTVXY][0-9][ABCEGHJKLMNPRSTVWXYZ])\s*" ++
        r"([0-9][ABCEGHJKLMNPRSTVWXYZ][0-9])$") =
      .ok (.OpConcat .OpBeginText (.OpConcat
        (.OpCapture (.OpConcat (runesClass "ABCEGHJKLMNPRSTVXY")
          (.OpConcat (.OpCharClass false [(48, 57)]) (runesClass "ABCEGHJKLMNPRSTVWXYZ"))))
        (.OpConcat (.OpStar (.OpCharClass false [(9, 10), (12, 13), (32, 32)]))
          (.OpConcat
            (.OpCapture (.OpConcat (.OpCharClass false [(48, 57)])
              (.OpConcat (runesClass "ABCEGHJKLMNPRSTVWXYZ") (.OpCharClass false [(48, 57)]))))
            .OpEndText)))) := by
  decide

/-- The pattern of "CA" matches exactly the texts of the Canadian form. -/
theorem CA_matches (s : String) :
    (Regexp.OpConcat .OpBeginText (.OpConcat
        (.OpCapture (.OpConcat (runesClass "ABCEGHJKLMNPRSTVXY")
          (.OpConcat (.OpCharClass false [(48, 57)]) (runesClass "ABCEGHJKLMNPRSTVWXYZ"))))
        (.OpConcat (.OpStar (.OpCharClass false [(9, 10), (12, 13), (32, 32)]))
          (.OpConcat
            (.OpCapture (.OpConcat (.OpCharClass false [(48, 57)])
              (.OpConcat (runesClass "ABCEGHJKLMNPRSTVWXYZ") (.OpCharClass false [(48, 57)]))))
            .OpEndText)))).MatchString s = true ↔
    CAForm s.data := by
  rw [MatchString_beginText]
  simp only [mem_run_concat, run_capture, mem_run_endText, mem_run_runesClass, mem_run_digit,
    mem_run_star_class, classMatches_space]
  constructor
  · rintro ⟨q, m3, ⟨m1, ⟨c1, t1, h1, hc1, rfl⟩, m2, ⟨e1, t2, h2, he1, rfl⟩, c2, t3, h3, hc2, rfl⟩,
      m7, ⟨w, hw, h4, -⟩, m6, ⟨m4, ⟨e2, t4, h5, he2, rfl⟩, m5, ⟨c3, t5, h6, hc3, rfl⟩,
        e3, t6, h7, he3, rfl⟩, rfl, hend⟩
    simp only at h1 h2 h3 h4 h5 h6 h7 hend
    refine ⟨c1, e1, c2, w, e2, c3, e3, ?_, hc1, he1, hc2, hw, he2, hc3, he3⟩
    rw [h1, h2, h3, h4, h5, h6, h7, hend]
    simp
  · rintro ⟨c1, e1, c2, w, e2, c3, e3, hs, hc1, he1, hc2, hw, he2, hc3, he3⟩
    refine ⟨(some e3, []), (some c2, w ++ [e2, c3, e3]),
      ⟨(some c1, e1 :: c2 :: (w ++ [e2, c3, e3])), ⟨c1, _, by simp [hs], hc1, rfl⟩,
        (some e1, c2 :: (w ++ [e2, c3, e3])), ⟨e1, _, rfl, he1, rfl⟩,
        c2, _, rfl, hc2, rfl⟩,
      (prevAfter (some c2) w, [e2, c3, e3]), ⟨w, hw, rfl, rfl⟩,
      (some e3, []), ⟨(some e2, [c3, e3]), ⟨e2, _, rfl, he2, rfl⟩,
        (some c3, [e3]), ⟨c3, _, rfl, hc3, rfl⟩, e3, _, rfl, he3, rfl⟩, rfl, rfl⟩

theorem caseless_of_space (c : Char) (h : IsASCIIWhitespace c) : Caseless c := by
  unfold IsASCIIWhitespace at h
  unfold Caseless
  omega

/-- Upper-casing a text of the shape rune, digit, rune, whitespace, digit,
rune, digit only touches the three runes. -/
theorem ToUpper_CA_shape (T : CaseRanges) (l1 d1 l2 d2 l3 d3 : Char) (w : List Char)
    (h1 : isDigitRune d1 = true) (h2 : isDigitRune d2 = true) (h3 : isDigitRune d3 = true)
    (hw : ∀ x ∈ w, IsASCIIWhitespace x) :
    (strings.ToUpper T (String.mk ([l1, d1, l2] ++ w ++ [d2, l3, d3]))).data =
      [unicode.ToUpper T l1, d1, unicode.ToUpper T l2] ++ w ++
        [d2, unicode.ToUpper T l3, d3] := by
  have hwm : w.map (unicode.ToUpper T) = w := by
    conv_rhs => rw [← List.map_id w]
    apply List.map_congr_left
    intro c hc
    exact ToUpper_of_caseless T c (caseless_of_space c (hw c hc))
  simp only [strings.ToUpper, List.map_append, List.map_cons, List.map_nil, hwm,
    ToUpper_of_caseless T d1 (caseless_of_isDigitRune d1 h1),
    ToUpper_of_caseless T d2 (caseless_of_isDigitRune d2 h2),
    ToUpper_of_caseless T d3 (caseless_of_isDigitRune d3 h3)]

/-- A text of that shape has the Canadian form exactly when its three runes
are in the two letter sets. -/
theorem CAForm_shape (u1 d1 u2 d2 u3 d3 : Char) (w : List Char)
    (h1 : isDigitRune d1 = true) (h2 : isDigitRune d2 = true) (h3 : isDigitRune d3 = true)
    (hw : ∀ x ∈ w, IsASCIIWhitespace x) :
    CAForm ([u1, d1, u2] ++ w ++ [d2, u3, d3]) ↔
      (u1 ∈ "ABCEGHJKLMNPRSTVXY".data ∧ u2 ∈ "ABCEGHJKLMNPRSTVWXYZ".data ∧
        u3 ∈ "ABCEGHJKLMNPRSTVWXYZ".data) := by
  constructor
  · rintro ⟨c1, e1, c2, w', e2, c3, e3, hs, hc1, -, hc2, -, -, hc3, -⟩
    simp only [List.cons_append, List.nil_append, List.cons.injEq] at hs
    obtain ⟨rfl, -, rfl, hrest⟩ := hs
    have := (List.append_inj' hrest (by simp)).2
    simp only [List.cons.injEq] at this
    obtain ⟨-, rfl, -⟩ := this
    exact ⟨hc1, hc2, hc3⟩
  · rintro ⟨hc1, hc2, hc3⟩
    exact ⟨u1, d1, u2, w, d2, u3, d3, rfl, hc1, h1, hc2, hw, h2, hc3, h3⟩

/-- C8: Canadian validation is case- and spacing-insensitive.  For the
built-in validator, any spelling of the country code whose upper case is
"CA", and any postal code made of a rune, a digit, a rune, a run (possibly
empty) of ASCII whitespace, a digit, a rune and a digit, the result has a nil
error and its boolean only depends on the upper case of the three runes: it
is `true` exactly when the first is in ABCEGHJKLMNPRSTVXY and the other two
are in ABCEGHJKLMNPRSTVWXYZ.  ("CA", "K1A 0B1") and ("ca", "k1a0b1") both
give `(true, nil)`. -/
theorem C8_CA :
    (∀ (T : CaseRanges) (countryCode : String) (l1 d1 l2 d2 l3 d3 : Char) (w : List Char),
      strings.ToUpper T countryCode = "CA" →
      isDigitRune d1 = true → isDigitRune d2 = true → isDigitRune d3 = true →
      (∀ x ∈ w, IsASCIIWhitespace x) →
      NewPostCodeValidator.ValidatePostalCode T countryCode
          (String.mk ([l1, d1, l2] ++ w ++ [d2, l3, d3])) =
        (decide (unicode.ToUpper T l1 ∈ "ABCEGHJKLMNPRSTVXY".data ∧
          unicode.ToUpper T l2 ∈ "ABCEGHJKLMNPRSTVWXYZ".data ∧
          unicode.ToUpper T l3 ∈ "ABCEGHJKLMNPRSTVWXYZ".data), none)) ∧
    (∀ T : CaseRanges,
      NewPostCodeValidator.ValidatePostalCode T "CA" "K1A 0B1" = (true, none) ∧
      NewPostCodeValidator.ValidatePostalCode T "ca" "k1a0b1" = (true, none)) := by
  constructor
  · intro T countryCode l1 d1 l2 d2 l3 d3 w hcc h1 h2 h3 hw
    have hl : NewPostCodeValidator.CountryRegexMapping.lookup (strings.ToUpper T countryCode) =
        some (r"^([ABCEGHJKLMNPRSTVXY][0-9][ABCEGHJKLMNPRSTVWXYZ])\s*" ++
          r"([0-9][ABCEGHJKLMNPRSTVWXYZ][0-9])$") := by
      rw [hcc]
      decide
    rw [ValidatePostalCode_of_compile_ok T _ _ _ _ _ hl Compile_CA]
    congr 1
    rw [Bool.eq_iff_iff, CA_matches, ToUpper_CA_shape T l1 d1 l2 d2 l3 d3 w h1 h2 h3 hw,
      CAForm_shape _ d1 _ d2 _ d3 w h1 h2 h3 hw, decide_eq_true_iff]
  · intro T
    exact ⟨ValidatePostalCode_eval T _ _ _ (by decide) (by decide) (by decide),
      ValidatePostalCode_eval T _ _ _ (by decide) (by decide) (by decide)⟩

/-- Witness for C8: "ca" with "k1a", a space and a tab, "0b1" is accepted,
and with "d1a" in front it is not (`D` is not in the first set). -/
theorem C8_CA_witness :
    NewPostCodeValidator.ValidatePostalCode asciiCaseRanges "ca"
        (String.mk (['k', '1', 'a'] ++ [' ', '\t'] ++ ['0', 'b', '1'])) = (true, none) ∧
    NewPostCodeValidator.ValidatePostalCode asciiCaseRanges "ca"
        (String.mk (['d', '1', 'a'] ++ [' ', '\t'] ++ ['0', 'b', '1'])) = (false, none) :=
  ⟨(C8_CA.1 asciiCaseRanges "ca" 'k' '1' 'a' '0' 'b' '1' [' ', '\t']
      (by decide) (by decide) (by decide) (by decide) (by decide)).trans (by decide),
    (C8_CA.1 asciiCaseRanges "ca" 'd' '1' 'a' '0' 'b' '1' [' ', '\t']
      (by decide) (by decide) (by decide) (by decide) (by decide)).trans (by decide)⟩

/-- The vertical tab is not whitespace for the Canadian pattern: the escape
class `s` of Go's regexp does not hold it. -/
theorem CA_vertical_tab (T : CaseRanges) :
    NewPostCodeValidator.ValidatePostalCode T "CA" "K1A\x0b0B1" = (false, none) :=
  ValidatePostalCode_eval T _ _ _ (by decide) (by decide) (by decide)

/-! ## The empty postal code -/

set_option maxRecDepth 1000000 in
theorem builtin_keys_ascii : ∀ c ∈ NewPostCodeValidator.keys, IsASCII c := by
  decide

set_option maxRecDepth 1000000 in
/-- The built-in table evaluated on the empty postal code, entry by entry. -/
theorem builtin_empty_eval :
    ∀ kv ∈ NewPostCodeValidator.CountryRegexMapping,
      (NewPostCodeValidator.ValidatePostalCode asciiCaseRanges kv.1 "").1 =
        decide (kv.1 ∈ ["BH", "BB", "EC", "HN", "LB", "MU", "NI", "NG", "INTL"]) := by
  decide

set_option maxRecDepth 1000000 in
/-- The patterns of the built-in table that are `^`, one optional group,
`$`. -/
theorem builtin_optional_body :
    ∀ kv ∈ NewPostCodeValidator.CountryRegexMapping,
      hasOptionalBody kv.2 =
        decide (kv.1 ∈ ["BH", "BB", "EC", "HN", "LB", "MU", "NI", "NG", "INTL"]) := by
  decide

set_option maxRecDepth 1000000 in
/-- Every pattern of the built-in table compiles, except the one of "AT". -/
theorem builtin_patterns_compile :
    ∀ kv ∈ NewPostCodeValidator.CountryRegexMapping,
      (Compile kv.2).toBool = decide (kv.1 ≠ "AT") := by
  decide

theorem mem_of_lookup_eq_some {l : List (String × String)} {k v : String}
    (h : l.lookup k = some v) : (k, v) ∈ l := by
  induction l with
  | nil => simp at h
  | cons kv l ih =>
    obtain ⟨k', v'⟩ := kv
    rw [List.lookup_cons] at h
    split at h
    · rename_i hk
      have hk' : k = k' := by simpa using hk
      simp only [Option.some.injEq] at h
      subst hk' h
      exact List.mem_cons_self _ _
    · exact List.mem_cons_of_mem _ (ih h)

/-- Apart from "AT", every member of the built-in table, in any spelling
whose upper case is the key, gives a nil error for every postal code. -/
theorem builtin_nil_error_except_AT (T : CaseRanges) (countryCode postalCode : String)
    (hk : strings.ToUpper T countryCode ∈ NewPostCodeValidator.keys)
    (hne : strings.ToUpper T countryCode ≠ "AT") :
    (NewPostCodeValidator.ValidatePostalCode T countryCode postalCode).2 = none := by
  cases hl : NewPostCodeValidator.CountryRegexMapping.lookup (strings.ToUpper T countryCode) with
  | none => exact absurd hk ((lookup_eq_none_iff_not_mem_keys _ _).1 hl)
  | some pat =>
    have hmem := mem_of_lookup_eq_some hl
    have hc := builtin_patterns_compile _ hmem
    rw [decide_eq_true hne] at hc
    cases hcomp : Compile pat with
    | error err =>
      simp only [hcomp, Except.toBool] at hc
      exact absurd hc (by decide)
    | ok re => rw [ValidatePostalCode_of_compile_ok T _ _ _ pat re hl hcomp]

/-- C10: for the built-in validator, an empty postal code is accepted
exactly for the countries whose pattern has the optional-whole-body form:
`ValidatePostalCode(c, "")` returns `(true, nil)` for `c` in BH, BB, EC, HN,
LB, MU, NI, NG, INTL (all of them keys), it does not return `true` for any
other key, and the boolean for a key is whether its pattern is `^`, one
optional group, `$`. -/
theorem C10_empty_postal_code (T : CaseRanges) :
    (∀ c ∈ ["BH", "BB", "EC", "HN", "LB", "MU", "NI", "NG", "INTL"],
      c ∈ NewPostCodeValidator.keys ∧
      NewPostCodeValidator.ValidatePostalCode T c "" = (true, none)) ∧
    (∀ c ∈ NewPostCodeValidator.keys,
      c ∉ ["BH", "BB", "EC", "HN", "LB", "MU", "NI", "NG", "INTL"] →
      (NewPostCodeValidator.ValidatePostalCode T c "").1 = false) ∧
    (∀ kv ∈ NewPostCodeValidator.CountryRegexMapping,
      (NewPostCodeValidator.ValidatePostalCode T kv.1 "").1 = hasOptionalBody kv.2) := by
  have htr : ∀ kv ∈ NewPostCodeValidator.CountryRegexMapping,
      NewPostCodeValidator.ValidatePostalCode T kv.1 "" =
        NewPostCodeValidator.ValidatePostalCode asciiCaseRanges kv.1 "" := by
    intro kv hkv
    exact ValidatePostalCode_ascii T asciiCaseRanges _ _ _
      (builtin_keys_ascii kv.1 (List.mem_map_of_mem _ hkv)) (by decide)
  refine ⟨?_, ?_, ?_⟩
  · intro c hc
    have hk : c ∈ NewPostCodeValidator.keys := by
      revert c
      decide
    refine ⟨hk, ?_⟩
    obtain ⟨kv, hkv, rfl⟩ := List.mem_map.1 hk
    have h1 := builtin_empty_eval kv hkv
    rw [htr kv hkv]
    rw [decide_eq_true hc] at h1
    exact Prod.ext h1 (ValidatePostalCode_nil_of_true _ _ _ _ h1)
  · intro c hk hc
    obtain ⟨kv, hkv, rfl⟩ := List.mem_map.1 hk
    rw [htr kv hkv, builtin_empty_eval kv hkv]
    exact decide_eq_false hc
  · intro kv hkv
    rw [htr kv hkv, builtin_empty_eval kv hkv, builtin_optional_body kv hkv]

/-- Witness for C10: "US" is a key outside the list, and the empty postal
code is not accepted for it. -/
theorem C10_empty_postal_code_witness :
    "US" ∈ NewPostCodeValidator.keys ∧
    "US" ∉ ["BH", "BB", "EC", "HN", "LB", "MU", "NI", "NG", "INTL"] ∧
    (NewPostCodeValidator.ValidatePostalCode asciiCaseRanges "US" "").1 = false :=
  ⟨by decide, by decide,
    (C10_empty_postal_code asciiCaseRanges).2.1 "US" (by decide) (by decide)⟩

/-! ## The matcher only moves forward, and what the star computes -/

theorem prevAfter_append (pr : Option Char) (a b : List Char) :
    prevAfter pr (a ++ b) = prevAfter (prevAfter pr a) b := by
  simp only [prevAfter, List.foldl_append]

theorem Reaches.refl (p : Pos) : Reaches p p :=
  ⟨[], rfl, rfl⟩

theorem Reaches.trans {p m q : Pos} (h1 : Reaches p m) (h2 : Reaches m q) : Reaches p q := by
  obtain ⟨a, ha, hpa⟩ := h1
  obtain ⟨b, hb, hpb⟩ := h2
  exact ⟨a ++ b, by rw [ha, hb, List.append_assoc], by rw [hpb, hpa, prevAfter_append]⟩

theorem Reaches.length_le {p q : Pos} (h : Reaches p q) : q.2.length ≤ p.2.length := by
  obtain ⟨a, ha, -⟩ := h
  rw [ha, List.length_append]
  omega

/-- A step that reads nothing stays where it is. -/
theorem Reaches.eq_of_length_le {p q : Pos} (h : Reaches p q)
    (hlen : p.2.length ≤ q.2.length) : q = p := by
  obtain ⟨a, ha, hpa⟩ := h
  have hl : a.length = 0 := by
    have := congrArg List.length ha
    rw [List.length_append] at this
    omega
  have hnil : a = [] := List.length_eq_zero.1 hl
  subst hnil
  exact Prod.ext hpa (by simpa using ha.symm)

theorem starRun_reaches {f : Pos → List Pos} (hf : ∀ p q, q ∈ f p → Reaches p q) (n : Nat) :
    ∀ p q, q ∈ starRun f n p → Reaches p q := by
  induction n with
  | zero =>
    intro p q h
    simp only [starRun, List.mem_singleton] at h
    subst h
    exact Reaches.refl _
  | succ n ih =>
    intro p q h
    simp only [starRun, List.mem_cons, List.mem_flatMap, List.mem_filter] at h
    rcases h with rfl | ⟨m, ⟨hm, -⟩, hq⟩
    · exact Reaches.refl _
    · exact (hf p m hm).trans (ih m q hq)

theorem timesRun_reaches {f : Pos → List Pos} (hf : ∀ p q, q ∈ f p → Reaches p q) (n : Nat) :
    ∀ p q, q ∈ timesRun f n p → Reaches p q := by
  induction n with
  | zero =>
    intro p q h
    simp only [timesRun, List.mem_singleton] at h
    subst h
    exact Reaches.refl _
  | succ n ih =>
    intro p q h
    simp only [timesRun, List.mem_flatMap] at h
    obtain ⟨m, hm, hq⟩ := h
    exact (hf p m hm).trans (ih m q hq)

theorem uptoRun_reaches {f : Pos → List Pos} (hf : ∀ p q, q ∈ f p → Reaches p q) (n : Nat) :
    ∀ p q, q ∈ uptoRun f n p → Reaches p q := by
  induction n with
  | zero =>
    intro p q h
    simp only [uptoRun, List.mem_singleton] at h
    subst h
    exact Reaches.refl _
  | succ n ih =>
    intro p q h
    simp only [uptoRun, List.mem_cons, List.mem_flatMap] at h
    rcases h with rfl | ⟨m, hm, hq⟩
    · exact Reaches.refl _
    · exact (hf p m hm).trans (ih m q hq)

/-- Every position a match can end at lies ahead of where it started, in the
same text. -/
theorem run_reaches (re : Regexp) : ∀ p q, q ∈ re.run p → Reaches p q := by
  induction re with
  | OpNoMatch => intro p q h; simp [Regexp.run] at h
  | OpEmptyMatch =>
    intro p q h
    simp only [Regexp.run, List.mem_singleton] at h
    subst h
    exact Reaches.refl _
  | OpCharClass neg ranges =>
    intro p q h
    obtain ⟨c, t, hp, -, rfl⟩ := mem_run_class.1 h
    exact ⟨[c], by simpa using hp, rfl⟩
  | OpBeginLine =>
    intro p q h
    simp only [Regexp.run] at h
    split at h
    · rw [List.mem_singleton.1 h]; exact Reaches.refl _
    · simp at h
  | OpEndLine =>
    intro p q h
    simp only [Regexp.run] at h
    split at h
    · rw [List.mem_singleton.1 h]; exact Reaches.refl _
    · simp at h
  | OpBeginText =>
    intro p q h
    rw [(mem_run_beginText.1 h).1]
    exact Reaches.refl _
  | OpEndText =>
    intro p q h
    rw [(mem_run_endText.1 h).1]
    exact Reaches.refl _
  | OpWordBoundary =>
    intro p q h
    simp only [Regexp.run] at h
    split at h
    · rw [List.mem_singleton.1 h]; exact Reaches.refl _
    · simp at h
  | OpNoWordBoundary =>
    intro p q h
    simp only [Regexp.run] at h
    split at h
    · simp at h
    · rw [List.mem_singleton.1 h]; exact Reaches.refl _
  | OpCapture sub ih =>
    intro p q h
    exact ih p q (by simpa only [Regexp.run] using h)
  | OpStar sub ih =>
    intro p q h
    simp only [Regexp.run] at h
    exact starRun_reaches ih _ p q h
  | OpPlus sub ih =>
    intro p q h
    simp only [Regexp.run, List.mem_flatMap] at h
    obtain ⟨m, hm, hq⟩ := h
    exact (ih p m hm).trans (starRun_reaches ih _ m q hq)
  | OpQuest sub ih =>
    intro p q h
    rcases mem_run_quest.1 h with rfl | h
    · exact Reaches.refl _
    · exact ih p q h
  | OpRepeat min max sub ih =>
    intro p q h
    cases max with
    | none =>
      simp only [Regexp.run, List.mem_flatMap] at h
      obtain ⟨m, hm, hq⟩ := h
      exact (timesRun_reaches ih _ p m hm).trans (starRun_reaches ih _ m q hq)
    | some max =>
      simp only [Regexp.run, List.mem_flatMap] at h
      obtain ⟨m, hm, hq⟩ := h
      exact (timesRun_reaches ih _ p m hm).trans (uptoRun_reaches ih _ m q hq)
  | OpConcat a b iha ihb =>
    intro p q h
    obtain ⟨m, hm, hq⟩ := mem_run_concat.1 h
    exact (iha p m hm).trans (ihb m q hq)
  | OpAlternate a b iha ihb =>
    intro p q h
    rcases mem_run_alternate.1 h with h | h
    · exact iha p q h
    · exact ihb p q h

theorem mem_starRun_of_chain {f : Pos → List Pos} (hf : ∀ p q, q ∈ f p → Reaches p q)
    {p q : Pos} (h : Relation.ReflTransGen (fun a b => b ∈ f a) p q) :
    ∀ n, p.2.length ≤ n → q ∈ starRun f n p := by
  induction h using Relation.ReflTransGen.head_induction_on with
  | refl =>
    intro n _
    cases n with
    | zero => simp [starRun]
    | succ n => simp [starRun]
  | @head a m hstep _ ih =>
    intro n hn
    by_cases hlen : a.2.length ≤ m.2.length
    · have hma : m = a := (hf a m hstep).eq_of_length_le hlen
      rw [← hma]
      exact ih n (by rw [hma]; exact hn)
    · cases n with
      | zero => omega
      | succ n =>
        simp only [starRun, List.mem_cons, List.mem_flatMap, List.mem_filter, decide_eq_true_eq]
        exact Or.inr ⟨m, ⟨hstep, by omega⟩, ih n (by omega)⟩

theorem chain_of_mem_starRun {f : Pos → List Pos} (n : Nat) :
    ∀ p q, q ∈ starRun f n p → Relation.ReflTransGen (fun a b => b ∈ f a) p q := by
  induction n with
  | zero =>
    intro p q h
    simp only [starRun, List.mem_singleton] at h
    subst h
    exact Relation.ReflTransGen.refl
  | succ n ih =>
    intro p q h
    simp only [starRun, List.mem_cons, List.mem_flatMap, List.mem_filter] at h
    rcases h with rfl | ⟨m, ⟨hm, -⟩, hq⟩
    · exact Relation.ReflTransGen.refl
    · exact Relation.ReflTransGen.head hm (ih m q hq)

/-- The star is the reflexive and transitive closure of its argument: the
fuel of `starRun` is enough, and leaving out the rounds that read nothing
loses no position. -/
theorem mem_run_star {sub : Regexp} {p q : Pos} :
    q ∈ (Regexp.OpStar sub).run p ↔ Relation.ReflTransGen (fun a b => b ∈ sub.run a) p q := by
  simp only [Regexp.run]
  exact ⟨chain_of_mem_starRun _ p q,
    fun h => mem_starRun_of_chain (run_reaches sub) h _ (Nat.le_refl _)⟩

/-! ## The parser always has enough fuel -/

theorem parseEscape_ok {s : List Char} {c : Char} {t : List Char}
    (h : parseEscape s = .ok (c, t)) : t.length < s.length := by
  unfold parseEscape at h
  split at h
  · repeat' split at h
    all_goals simp only [Except.ok.injEq, Prod.mk.injEq, reduceCtorEq] at h
    all_goals obtain ⟨-, rfl⟩ := h
    all_goals (simp only [List.length_cons]; omega)
  · simp at h

theorem parseEscape_err {s : List Char} {e : Error}
    (h : parseEscape s = .error e) : e.Code ≠ .ErrInternalError := by
  unfold parseEscape at h
  split at h
  · repeat' split at h
    all_goals simp only [Except.error.injEq, reduceCtorEq] at h
    all_goals subst h
    all_goals simp
  · simp only [Except.error.injEq] at h
    subst h
    simp

theorem parseClassChar_ok {t s : List Char} {c : Char} {rest : List Char}
    (h : parseClassChar t s = .ok (c, rest)) : rest.length < t.length := by
  unfold parseClassChar at h
  split at h
  · simp at h
  · exact parseEscape_ok h
  · simp only [Except.ok.injEq, Prod.mk.injEq] at h
    obtain ⟨-, rfl⟩ := h
    simp

theorem parseClassChar_err {t s : List Char} {e : Error}
    (h : parseClassChar t s = .error e) : e.Code ≠ .ErrInternalError := by
  unfold parseClassChar at h
  split at h
  · simp only [Except.error.injEq] at h
    subst h
    simp
  · exact parseEscape_err h
  · simp at h

theorem classRange_err {fold : Bool} {whole : List Char} {lo hi : Nat} {e : Error}
    (h : classRange fold whole lo hi = .error e) : e.Code ≠ .ErrInternalError := by
  unfold classRange at h
  repeat' split at h
  all_goals simp only [Except.error.injEq, reduceCtorEq] at h
  subst h
  simp

theorem parseClassRange_ok {s : List Char} {fold : Bool} {t : List Char}
    {r : List (Nat × Nat)} {rest : List Char}
    (h : parseClassRange s fold t = .ok (r, rest)) : rest.length < t.length := by
  unfold parseClassRange at h
  split at h
  · simp at h
  · rename_i lo t1 h1
    have hlt := parseClassChar_ok h1
    split at h
    · rename_i c2 t2
      split at h
      · split at h
        · simp at h
        · simp only [Except.ok.injEq, Prod.mk.injEq] at h
          obtain ⟨-, rfl⟩ := h
          exact hlt
      · split at h
        · simp at h
        · rename_i hi t3 h3
          have hlt3 := parseClassChar_ok h3
          split at h
          · simp at h
          · split at h
            · simp at h
            · simp only [Except.ok.injEq, Prod.mk.injEq] at h
              obtain ⟨-, rfl⟩ := h
              simp only [List.length_cons] at hlt hlt3
              omega
    · split at h
      · simp at h
      · simp only [Except.ok.injEq, Prod.mk.injEq] at h
        obtain ⟨-, rfl⟩ := h
        exact hlt

theorem parseClassRange_err {s : List Char} {fold : Bool} {t : List Char} {e : Error}
    (h : parseClassRange s fold t = .error e) : e.Code ≠ .ErrInternalError := by
  unfold parseClassRange at h
  split at h
  · rename_i e' h1
    simp only [Except.error.injEq] at h
    subst h
    exact parseClassChar_err h1
  · split at h
    · split at h
      · split at h
        · rename_i e' h2
          simp only [Except.error.injEq] at h
          subst h
          exact classRange_err h2
        · simp at h
      · split at h
        · rename_i e' h3
          simp only [Except.error.injEq] at h
          subst h
          exact parseClassChar_err h3
        · split at h
          · simp only [Except.error.injEq] at h
            subst h
            simp
          · split at h
            · rename_i e' h2
              simp only [Except.error.injEq] at h
              subst h
              exact classRange_err h2
            · simp at h
    · split at h
      · rename_i e' h2
        simp only [Except.error.injEq] at h
        subst h
        exact classRange_err h2
      · simp at h

theorem parsePerlClassEscape_ok {t : List Char} {fold : Bool} {g : List (Nat × Nat)}
    {rest : List Char} (h : parsePerlClassEscape t fold = some (g, rest)) :
    rest.length < t.length := by
  unfold parsePerlClassEscape at h
  split at h
  · simp only [Option.map_eq_some', Prod.mk.injEq] at h
    obtain ⟨_, -, -, rfl⟩ := h
    simp only [List.length_cons]
    omega
  · simp at h

/-- The class loop: with more fuel than runes to read it never runs out of
fuel, and what it leaves is shorter than what it got. -/
theorem parseClassLoop_spec (s : List Char) (fold : Bool) (n : Nat) :
    ∀ (first : Bool) (t : List Char) (cls : List (Nat × Nat)), t.length < n →
      (∀ rest r, parseClassLoop s fold n first t cls = .ok (rest, r) →
        rest.length < t.length) ∧
      (∀ e, parseClassLoop s fold n first t cls = .error e → e.Code ≠ .ErrInternalError) := by
  induction n with
  | zero => intro first t cls h; omega
  | succ n ih =>
    intro first t cls hn
    unfold parseClassLoop
    split
    · rename_i hclose
      constructor
      · intro rest r h
        simp only [Except.ok.injEq, Prod.mk.injEq] at h
        obtain ⟨rfl, -⟩ := h
        cases t with
        | nil => simp at hclose
        | cons c t => simp
      · intro e h
        simp at h
    · split
      · constructor
        · intro rest r h
          simp at h
        · intro e h
          simp only [Except.error.injEq] at h
          subst h
          simp
      · split
        · rename_i g rest1 hg
          have hlt := parsePerlClassEscape_ok hg
          have := ih false rest1 (cls ++ g) (by omega)
          exact ⟨fun rest r h => Nat.lt_trans (this.1 rest r h) hlt, this.2⟩
        · split
          · rename_i e1 he1
            constructor
            · intro rest r h
              simp at h
            · intro e h
              simp only [Except.error.injEq] at h
              subst h
              exact parseClassRange_err he1
          · rename_i r1 rest1 hr
            have hlt := parseClassRange_ok hr
            have := ih false rest1 (cls ++ r1) (by omega)
            exact ⟨fun rest r h => Nat.lt_trans (this.1 rest r h) hlt, this.2⟩

theorem parseClass_ok {p p1 : ParserState} {s rest : List Char}
    (h : parseClass p s = .ok (rest, p1)) : rest.length < s.length := by
  unfold parseClass at h
  simp only at h
  split at h
  · simp at h
  · rename_i rest1 cls hloop
    simp only [Except.ok.injEq, Prod.mk.injEq] at h
    obtain ⟨rfl, -⟩ := h
    have := (parseClassLoop_spec s p.flags.FoldCase _ true _ [] (Nat.lt_succ_self _)).1 _ _ hloop
    have hle : (if decide (s.tail.head? = some '^') = true then s.tail.tail else s.tail).length ≤
        s.length := by
      split
      · simp only [List.length_tail]; omega
      · simp only [List.length_tail]; omega
    omega

theorem parseClass_err {p : ParserState} {s : List Char} {e : Error}
    (h : parseClass p s = .error e) : e.Code ≠ .ErrInternalError := by
  unfold parseClass at h
  simp only at h
  split at h
  · rename_i e1 hloop
    simp only [Except.error.injEq] at h
    subst h
    exact (parseClassLoop_spec s p.flags.FoldCase _ true _ [] (Nat.lt_succ_self _)).2 _ hloop
  · simp at h

theorem perlFlagsLoop_spec (p : ParserState) (s : List Char) :
    ∀ (t : List Char) (flags : Flags) (neg sawFlag : Bool),
      (∀ rest p1, perlFlagsLoop p s t flags neg sawFlag = .ok (rest, p1) →
        rest.length < t.length) ∧
      (∀ e, perlFlagsLoop p s t flags neg sawFlag = .error e →
        e.Code ≠ .ErrInternalError) := by
  intro t
  induction t with
  | nil =>
    intro flags neg sawFlag
    unfold perlFlagsLoop
    constructor
    · intro rest p1 h
      simp at h
    · intro e h
      simp only [Except.error.injEq] at h
      subst h
      simp
  | cons c t ih =>
    intro flags neg sawFlag
    unfold perlFlagsLoop
    split
    · have := ih (applyFlag flags c neg) neg true
      exact ⟨fun rest p1 h => Nat.lt_trans (this.1 rest p1 h) (by simp), this.2⟩
    · split
      · split
        · constructor
          · intro rest p1 h
            simp at h
          · intro e h
            simp only [Except.error.injEq] at h
            subst h
            simp
        · have := ih flags true false
          exact ⟨fun rest p1 h => Nat.lt_trans (this.1 rest p1 h) (by simp), this.2⟩
      · split
        · split
          · constructor
            · intro rest p1 h
              simp at h
            · intro e h
              simp only [Except.error.injEq] at h
              subst h
              simp
          · split
            · constructor
              · intro rest p1 h
                simp only [Except.ok.injEq, Prod.mk.injEq] at h
                obtain ⟨rfl, -⟩ := h
                simp
              · intro e h
                simp at h
            · constructor
              · intro rest p1 h
                simp only [Except.ok.injEq, Prod.mk.injEq] at h
                obtain ⟨rfl, -⟩ := h
                simp
              · intro e h
                simp at h
        · constructor
          · intro rest p1 h
            simp at h
          · intro e h
            simp only [Except.error.injEq] at h
            subst h
            simp

theorem parsePerlFlags_ok {p p1 : ParserState} {s rest : List Char}
    (h : parsePerlFlags p s = .ok (rest, p1)) : rest.length < s.length := by
  unfold parsePerlFlags at h
  split at h
  · simp at h
  · simp at h
  · have := (perlFlagsLoop_spec p _ _ _ _ _).1 _ _ h
    simp only [List.length_cons]
    omega
  · simp at h

theorem parsePerlFlags_err {p : ParserState} {c1 c2 : Char} {t : List Char} {e : Error}
    (h : parsePerlFlags p (c1 :: c2 :: t) = .error e) : e.Code ≠ .ErrInternalError := by
  unfold parsePerlFlags at h
  split at h
  · simp only [Except.error.injEq] at h
    subst h
    simp
  · simp only [Except.error.injEq] at h
    subst h
    simp
  · exact (perlFlagsLoop_spec p _ _ _ _ _).2 _ h
  · rename_i hne
    exact absurd rfl (hne c1 c2 t)

theorem parseInt_ok {s : List Char} {n : Int} {rest : List Char}
    (h : parseInt s = some (n, rest)) : rest.length ≤ s.length := by
  unfold parseInt at h
  split at h
  · simp at h
  · repeat' split at h
    all_goals simp only [Option.some.injEq, Prod.mk.injEq, reduceCtorEq] at h
    obtain ⟨-, rfl⟩ := h
    exact (List.dropWhile_sublist _).length_le

theorem parseRepeat_ok {s : List Char} {min max : Int} {rest : List Char}
    (h : parseRepeat s = some (min, max, rest)) : rest.length < s.length := by
  unfold parseRepeat at h
  split at h
  · split at h
    · simp at h
    · rename_i min1 s2 h1
      have hle := parseInt_ok h1
      split at h
      · simp only [Option.some.injEq, Prod.mk.injEq] at h
        obtain ⟨-, -, rfl⟩ := h
        simp only [List.length_cons] at hle ⊢
        omega
      · simp only [Option.some.injEq, Prod.mk.injEq] at h
        obtain ⟨-, -, rfl⟩ := h
        simp only [List.length_cons] at hle ⊢
        omega
      · split at h
        · simp at h
        · rename_i max1 s4 h2
          have hle2 := parseInt_ok h2
          split at h
          · simp only [Option.some.injEq, Prod.mk.injEq] at h
            obtain ⟨-, -, rfl⟩ := h
            simp only [List.length_cons] at hle hle2 ⊢
            omega
          · simp at h
      · simp at h
  · simp at h

theorem repeatOp_ok {p p1 : ParserState} {op : RepeatOp} {before after lastRepeat rest : List Char}
    (h : p.repeatOp op before after lastRepeat = .ok (rest, p1)) :
    rest.length ≤ after.length := by
  unfold ParserState.repeatOp at h
  simp only at h
  split at h
  · simp at h
  · split at h
    · split at h
      · simp at h
      · simp only [Except.ok.injEq, Prod.mk.injEq] at h
        obtain ⟨rfl, -⟩ := h
        split
        · simp
        · exact Nat.le_refl _
    · simp at h

theorem repeatOp_err {p : ParserState} {op : RepeatOp} {before after lastRepeat : List Char}
    {e : Error} (h : p.repeatOp op before after lastRepeat = .error e) :
    e.Code ≠ .ErrInternalError := by
  unfold ParserState.repeatOp at h
  simp only at h
  repeat' split at h
  all_goals simp only [Except.error.injEq, reduceCtorEq] at h
  all_goals subst h
  all_goals simp

theorem literal_err {p : ParserState} {c : Char} {e : Error}
    (h : p.literal c = .error e) : e.Code ≠ .ErrInternalError := by
  unfold ParserState.literal at h
  split at h
  · rename_i e1 h1
    simp only [Except.error.injEq] at h
    subst h
    exact classRange_err h1
  · simp at h

theorem parseRightParen_err {p : ParserState} {whole : List Char} {e : Error}
    (h : p.parseRightParen whole = .error e) : e.Code ≠ .ErrInternalError := by
  unfold ParserState.parseRightParen at h
  split at h
  · simp at h
  · simp only [Except.error.injEq] at h
    subst h
    simp

theorem parseStep_ok {whole t : List Char} {p p1 : ParserState} {lastRepeat rest rep : List Char}
    (h : parseStep whole t p lastRepeat = .ok (rest, p1, rep)) (ht : t ≠ []) :
    rest.length < t.length := by
  unfold parseStep at h
  split at h
  all_goals first
    | exact absurd rfl ht
    | (simp only [Except.ok.injEq, Prod.mk.injEq] at h
       obtain ⟨rfl, -, -⟩ := h
       simp only [List.length_cons]
       omega)
    | skip
  · split at h
    · simp at h
    · rename_i hh
      simp only [Except.ok.injEq, Prod.mk.injEq] at h
      obtain ⟨rfl, -, -⟩ := h
      exact parsePerlFlags_ok hh
  · split at h
    · simp at h
    · simp only [Except.ok.injEq, Prod.mk.injEq] at h
      obtain ⟨rfl, -, -⟩ := h
      simp
  · split at h
    · simp at h
    · rename_i hh
      simp only [Except.ok.injEq, Prod.mk.injEq] at h
      obtain ⟨rfl, -, -⟩ := h
      exact parseClass_ok hh
  · split at h
    · simp at h
    · rename_i hh
      simp only [Except.ok.injEq, Prod.mk.injEq] at h
      obtain ⟨rfl, -, -⟩ := h
      exact Nat.lt_of_le_of_lt (repeatOp_ok hh) (by simp)
  · split at h
    · simp at h
    · rename_i hh
      simp only [Except.ok.injEq, Prod.mk.injEq] at h
      obtain ⟨rfl, -, -⟩ := h
      exact Nat.lt_of_le_of_lt (repeatOp_ok hh) (by simp)
  · split at h
    · simp at h
    · rename_i hh
      simp only [Except.ok.injEq, Prod.mk.injEq] at h
      obtain ⟨rfl, -, -⟩ := h
      exact Nat.lt_of_le_of_lt (repeatOp_ok hh) (by simp)
  · split at h
    · split at h
      · simp at h
      · simp only [Except.ok.injEq, Prod.mk.injEq] at h
        obtain ⟨rfl, -, -⟩ := h
        simp
    · rename_i min max after hrep
      have hlt := parseRepeat_ok hrep
      split at h
      · simp at h
      · split at h
        · simp at h
        · rename_i hh
          simp only [Except.ok.injEq, Prod.mk.injEq] at h
          obtain ⟨rfl, -, -⟩ := h
          exact Nat.lt_of_le_of_lt (repeatOp_ok hh) hlt
  · simp at h
  · simp at h
  · split at h
    · simp at h
    · split at h
      · rename_i g rest1 hg
        simp only [Except.ok.injEq, Prod.mk.injEq] at h
        obtain ⟨rfl, -, -⟩ := h
        exact parsePerlClassEscape_ok hg
      · split at h
        · simp at h
        · rename_i c rest1 hesc
          split at h
          · simp at h
          · simp only [Except.ok.injEq, Prod.mk.injEq] at h
            obtain ⟨rfl, -, -⟩ := h
            exact parseEscape_ok hesc
  · split at h
    · simp at h
    · simp only [Except.ok.injEq, Prod.mk.injEq] at h
      obtain ⟨rfl, -, -⟩ := h
      simp

theorem parseStep_err {whole t : List Char} {p : ParserState} {lastRepeat : List Char}
    {e : Error} (h : parseStep whole t p lastRepeat = .error e) :
    e.Code ≠ .ErrInternalError := by
  unfold parseStep at h
  split at h
  all_goals first
    | (simp at h; done)
    | (simp only [Except.error.injEq] at h
       subst h
       simp)
    | skip
  · split at h
    · rename_i hh
      simp only [Except.error.injEq] at h
      subst h
      exact parsePerlFlags_err hh
    · simp at h
  · split at h
    · rename_i hh
      simp only [Except.error.injEq] at h
      subst h
      exact parseRightParen_err hh
    · simp at h
  · split at h
    · rename_i hh
      simp only [Except.error.injEq] at h
      subst h
      exact parseClass_err hh
    · simp at h
  · split at h
    · rename_i hh
      simp only [Except.error.injEq] at h
      subst h
      exact repeatOp_err hh
    · simp at h
  · split at h
    · rename_i hh
      simp only [Except.error.injEq] at h
      subst h
      exact repeatOp_err hh
    · simp at h
  · split at h
    · rename_i hh
      simp only [Except.error.injEq] at h
      subst h
      exact repeatOp_err hh
    · simp at h
  · split at h
    · split at h
      · rename_i hh
        simp only [Except.error.injEq] at h
        subst h
        exact literal_err hh
      · simp at h
    · split at h
      · simp only [Except.error.injEq] at h
        subst h
        simp
      · split at h
        · rename_i hh
          simp only [Except.error.injEq] at h
          subst h
          exact repeatOp_err hh
        · simp at h
  · split at h
    · simp only [Except.error.injEq] at h
      subst h
      simp
    · split at h
      · simp at h
      · split at h
        · rename_i hh
          simp only [Except.error.injEq] at h
          subst h
          exact parseEscape_err hh
        · split at h
          · rename_i hh
            simp only [Except.error.injEq] at h
            subst h
            exact literal_err hh
          · simp at h
  · split at h
    · rename_i hh
      simp only [Except.error.injEq] at h
      subst h
      exact literal_err hh
    · simp at h

/-- The main loop never runs out of fuel when it has as much fuel as runes
to read. -/
theorem parseLoop_err (whole : List Char) (n : Nat) :
    ∀ (t : List Char) (p : ParserState) (lastRepeat : List Char) (e : Error),
      t.length ≤ n → parseLoop whole n t p lastRepeat = .error e →
      e.Code ≠ .ErrInternalError := by
  induction n with
  | zero =>
    intro t p lastRepeat e hn h
    have ht : t = [] := List.length_eq_zero.1 (Nat.le_zero.1 hn)
    subst ht
    simp [parseLoop] at h
  | succ n ih =>
    intro t p lastRepeat e hn h
    cases t with
    | nil => simp [parseLoop] at h
    | cons c t =>
      simp only [parseLoop] at h
      split at h
      · rename_i hh
        simp only [Except.error.injEq] at h
        subst h
        exact parseStep_err hh
      · rename_i rest p1 rep hh
        have hlt := parseStep_ok hh (by simp)
        simp only [List.length_cons] at hlt hn
        exact ih rest p1 rep e (by omega) h

/-- `regexp.Compile` never answers with the internal error: the parser's
loops always have enough fuel. -/
theorem Compile_ne_internal (expr : String) (e : Error) (h : Compile expr = .error e) :
    e.Code ≠ .ErrInternalError := by
  unfold Compile parse at h
  split at h
  · rename_i hh
    simp only [Except.error.injEq] at h
    subst h
    exact parseLoop_err _ _ _ _ _ _ (Nat.le_refl _) hh
  · split at h
    · simp at h
    · simp only [Except.error.injEq] at h
      subst h
      simp

/-! ## Austria -/

theorem Compile_AT :
    Compile r"^(?!0)\d{4}$" = .error { Code := .ErrInvalidPerlOp, Expr := ['(', '?', '!'] } := by
  decide

/-- C14: for the built-in validator and every postal code `p`,
`ValidatePostalCode("AT", p)` returns `false` with the error "regex does not
compile ...": the Austrian pattern starts with a negative look-ahead, which
`regexp.Compile` rejects, so no Austrian postal code, "1010" included, is
reported as valid. -/
theorem C14_AT_never_valid :
    (∀ (T : CaseRanges) (p : String),
      NewPostCodeValidator.ValidatePostalCode T "AT" p =
        (false, some ("regex does not compile error parsing regexp: " ++
          "invalid or unsupported Perl syntax: \x60(?!\x60"))) ∧
    (∀ T : CaseRanges, (NewPostCodeValidator.ValidatePostalCode T "AT" "1010").1 = false ∧
      (NewPostCodeValidator.ValidatePostalCode T "AT" "1010").2 ≠ none) := by
  have main : ∀ (T : CaseRanges) (p : String),
      NewPostCodeValidator.ValidatePostalCode T "AT" p =
        (false, some ("regex does not compile error parsing regexp: " ++
          "invalid or unsupported Perl syntax: \x60(?!\x60")) := by
    intro T p
    have hl : NewPostCodeValidator.CountryRegexMapping.lookup (strings.ToUpper T "AT") =
        some r"^(?!0)\d{4}$" := by
      rw [strings_ToUpper_ascii T asciiCaseRanges "AT" (by decide)]
      decide
    rw [ValidatePostalCode_of_compile_error T _ _ _ _ _ hl Compile_AT]
    decide
  refine ⟨main, fun T => ?_⟩
  rw [main T "1010"]
  exact ⟨rfl, by simp⟩

/-! ## The keys of the built-in table -/

set_option maxRecDepth 1000000 in
/-- The built-in table, key by key. -/
theorem builtin_keys_eval :
    ∀ kv ∈ NewPostCodeValidator.CountryRegexMapping,
      kv.1 ≠ "" ∧ strings.ToUpper asciiCaseRanges kv.1 = kv.1 ∧
      (TwoUpperLetters kv.1 ∨ kv.1 = "INTL") ∧
      NewPostCodeValidator.CountryRegexMapping.lookup kv.1 = some kv.2 := by
  decide

/-- C13: every key of the built-in table is a non-empty string that
upper-casing leaves unchanged, and is either exactly two ASCII capital letters
or "INTL"; so every key is reachable: looking up the upper case of a key
finds the pattern stored with it. -/
theorem C13_keys (T : CaseRanges) :
    ∀ kv ∈ NewPostCodeValidator.CountryRegexMapping,
      kv.1 ≠ "" ∧ strings.ToUpper T kv.1 = kv.1 ∧
      (TwoUpperLetters kv.1 ∨ kv.1 = "INTL") ∧
      NewPostCodeValidator.CountryRegexMapping.lookup (strings.ToUpper T kv.1) = some kv.2 := by
  intro kv hkv
  obtain ⟨h1, h2, h3, h4⟩ := builtin_keys_eval kv hkv
  have hu : strings.ToUpper T kv.1 = kv.1 := by
    rw [strings_ToUpper_ascii T asciiCaseRanges kv.1
      (builtin_keys_ascii kv.1 (List.mem_map_of_mem _ hkv))]
    exact h2
  exact ⟨h1, hu, h3, by rw [hu]; exact h4⟩

/-- Witness for C13: the entry of "DE". -/
theorem C13_keys_witness :
    ("DE", r"^\d{5}$") ∈ NewPostCodeValidator.CountryRegexMapping ∧
    ("DE" ≠ "" ∧ strings.ToUpper asciiCaseRanges "DE" = "DE" ∧
      (TwoUpperLetters "DE" ∨ "DE" = "INTL") ∧
      NewPostCodeValidator.CountryRegexMapping.lookup (strings.ToUpper asciiCaseRanges "DE") =
        some r"^\d{5}$") :=
  ⟨by decide, C13_keys asciiCaseRanges ("DE", r"^\d{5}$") (by decide)⟩

/-! ## The result is a function of the arguments -/

/-- C12: the result is a function of the input pair only.  Validators whose
tables hold the same pattern for every key give the same result for every
pair, in particular any two validators built by `NewPostCodeValidator`; a
call leaves the validator as it was, so repeating it gives the same
result. -/
theorem C12_deterministic (T : CaseRanges) :
    (∀ v1 v2 : PostCodeValidator,
      (∀ k, v1.CountryRegexMapping.lookup k = v2.CountryRegexMapping.lookup k) →
      ∀ c p, v1.ValidatePostalCode T c p = v2.ValidatePostalCode T c p) ∧
    (∀ v1 v2 : PostCodeValidator, v1 = NewPostCodeValidator → v2 = NewPostCodeValidator →
      ∀ c p, v1.ValidatePostalCode T c p = v2.ValidatePostalCode T c p) ∧
    (∀ (v : PostCodeValidator) (c p : String),
      (v.call T c p).2 = v ∧ ((v.call T c p).2.call T c p).1 = (v.call T c p).1) := by
  refine ⟨?_, ?_, ?_⟩
  · intro v1 v2 h c p
    simp only [PostCodeValidator.ValidatePostalCode, h]
  · intro v1 v2 h1 h2 c p
    rw [h1, h2]
  · intro v c p
    exact ⟨rfl, rfl⟩

/-- Witness for C12: two tables with the same entries in a different order,
and two validators built by `NewPostCodeValidator`. -/
theorem C12_deterministic_witness :
    PostCodeValidator.ValidatePostalCode asciiCaseRanges
        { CountryRegexMapping := [("DE", r"^\d{5}$"), ("FO", r"^\d{3}$")] } "de" "10115" =
      PostCodeValidator.ValidatePostalCode asciiCaseRanges
        { CountryRegexMapping := [("FO", r"^\d{3}$"), ("DE", r"^\d{5}$")] } "de" "10115" ∧
    NewPostCodeValidator.ValidatePostalCode asciiCaseRanges "de" "10115" =
      NewPostCodeValidator.ValidatePostalCode asciiCaseRanges "de" "10115" := by
  refine ⟨(C12_deterministic asciiCaseRanges).1 _ _ ?_ "de" "10115",
    (C12_deterministic asciiCaseRanges).2.1 _ _ rfl rfl "de" "10115"⟩
  intro k
  by_cases h1 : k = "DE"
  · subst h1; decide
  · by_cases h2 : k = "FO"
    · subst h2; decide
    · have e1 : (k == "DE") = false := by simpa using h1
      have e2 : (k == "FO") = false := by simpa using h2
      simp only [List.lookup, e1, e2]

/-! ## France -/

/-- A search may start anywhere in the text. -/
theorem MatchString_unanchored (re : Regexp) (s : String) :
    re.MatchString s = true ↔
      ∃ pre rest q, s.data = pre ++ rest ∧ q ∈ re.run (prevAfter none pre, rest) := by
  rw [MatchString_iff]
  constructor
  · rintro ⟨p, hp, q, hq⟩
    obtain ⟨a, b, hab, rfl⟩ := mem_positions.1 hp
    exact ⟨a, b, q, hab, hq⟩
  · rintro ⟨pre, rest, q, hs, hq⟩
    exact ⟨_, mem_positions.2 ⟨pre, rest, hs, rfl⟩, q, hq⟩

theorem map_ToUpper_of_caseless (T : CaseRanges) (l : List Char)
    (h : ∀ c ∈ l, Caseless c) : l.map (unicode.ToUpper T) = l := by
  conv_rhs => rw [← List.map_id l]
  apply List.map_congr_left
  intro c hc
  exact ToUpper_of_caseless T c (h c hc)

theorem map_ToUpper_of_caseless_image (T : CaseRanges) (l : List Char)
    (h : ∀ c ∈ l.map (unicode.ToUpper T), Caseless c) : l.map (unicode.ToUpper T) = l := by
  conv_rhs => rw [← List.map_id l]
  apply List.map_congr_left
  intro c hc
  exact ToUpper_eq_self_of_caseless_image T c (h _ (List.mem_map_of_mem _ hc))

/-- A text contains a piece without letters exactly when its upper case
does. -/
theorem ToUpper_transfer_inside (P : List Char → Prop)
    (hP : ∀ m, P m → ∀ c ∈ m, Caseless c) (T : CaseRanges) (s : String) :
    (∃ pre m post, (strings.ToUpper T s).data = pre ++ m ++ post ∧ P m) ↔
      (∃ pre m post, s.data = pre ++ m ++ post ∧ P m) := by
  simp only [strings.ToUpper]
  constructor
  · rintro ⟨pre, m, post, h, hm⟩
    obtain ⟨l12, l3, hs, h12, -⟩ := List.map_eq_append_iff.1 h
    obtain ⟨l1, l2, hs12, -, h2⟩ := List.map_eq_append_iff.1 h12
    have hl2 : l2 = m := by
      rw [← h2]
      exact (map_ToUpper_of_caseless_image T l2 (by rw [h2]; exact hP m hm)).symm
    exact ⟨l1, m, l3, by rw [hs, hs12, hl2], hm⟩
  · rintro ⟨pre, m, post, h, hm⟩
    refine ⟨pre.map (unicode.ToUpper T), m, post.map (unicode.ToUpper T), ?_, hm⟩
    rw [h, List.map_append, List.map_append, map_ToUpper_of_caseless T m (hP m hm)]

theorem caseless_of_FRCore (m : List Char) (h : FRCore m) : ∀ c ∈ m, Caseless c := by
  obtain ⟨a, sp, b, rfl, ha, hsp, hb⟩ := h
  intro c hc
  rcases List.mem_append.1 hc with hc | hc
  · rcases List.mem_append.1 hc with hc | hc
    · exact caseless_of_Digits ha c hc
    · rcases hsp with rfl | rfl
      · simp at hc
      · rw [List.mem_singleton.1 hc]
        unfold Caseless
        decide
  · exact caseless_of_Digits hb c hc

theorem Compile_FR :
    Compile r"\d{2}[ ]?\d{3}" =
      .ok (.OpConcat (.OpRepeat 2 (some 2) (.OpCharClass false [(48, 57)]))
        (.OpConcat (.OpQuest (.OpCharClass false [(32, 32)]))
          (.OpRepeat 3 (some 3) (.OpCharClass false [(48, 57)])))) := by
  decide

/-- The pattern of "FR", which has no anchors, matches exactly the texts that
contain the French core. -/
theorem FR_matches (s : String) :
    (Regexp.OpConcat (.OpRepeat 2 (some 2) (.OpCharClass false [(48, 57)]))
        (.OpConcat (.OpQuest (.OpCharClass false [(32, 32)]))
          (.OpRepeat 3 (some 3) (.OpCharClass false [(48, 57)])))).MatchString s = true ↔
    FRForm s.data := by
  rw [MatchString_unanchored]
  simp only [mem_run_concat, mem_run_repeat_exact, mem_timesRun_digit, mem_run_quest,
    mem_run_class, classMatches_single]
  constructor
  · rintro ⟨pre, rest, q, hs, m1, ⟨a, ha, h1, -⟩, m2, hm2, b, hb, h2, -⟩
    rcases hm2 with rfl | ⟨c, t, hct, hc, rfl⟩
    · refine ⟨pre, a ++ [] ++ b, q.2, ?_, a, [], b, rfl, ha, Or.inl rfl, hb⟩
      rw [hs, h1, h2]
      simp
    · have hc' : c = ' ' := char_eq_of_toNat_eq hc
      simp only at h2
      refine ⟨pre, a ++ [' '] ++ b, q.2, ?_, a, [' '], b, rfl, ha, Or.inr rfl, hb⟩
      rw [hs, h1, hct, h2, hc']
      simp
  · rintro ⟨pre, m, post, hs, a, sp, b, rfl, ha, hsp, hb⟩
    rcases hsp with rfl | rfl
    · exact ⟨pre, a ++ b ++ post, (prevAfter (prevAfter (prevAfter none pre) a) b, post),
        by rw [hs]; simp,
        (prevAfter (prevAfter none pre) a, b ++ post), ⟨a, ha, by simp, rfl⟩,
        (prevAfter (prevAfter none pre) a, b ++ post), Or.inl rfl, b, hb, rfl, rfl⟩
    · exact ⟨pre, a ++ ' ' :: b ++ post, (prevAfter (some ' ') b, post),
        by rw [hs]; simp,
        (prevAfter (prevAfter none pre) a, ' ' :: b ++ post), ⟨a, ha, by simp, rfl⟩,
        (some ' ', b ++ post), Or.inr ⟨' ', b ++ post, by simp, by decide, rfl⟩,
        b, hb, rfl, rfl⟩

/-- C11: French validation matches as a substring.  For the built-in
validator and every postal code `p`, `ValidatePostalCode("FR", p)` returns a
nil error, and returns `true` if and only if `p` contains, anywhere, two
ASCII digits followed by an optional single space followed by three ASCII
digits.  "abc75001xyz" and "1234567" give `(true, nil)`; "7500" gives
`(false, nil)`. -/
theorem C11_FR :
    (∀ (T : CaseRanges) (p : String),
      (NewPostCodeValidator.ValidatePostalCode T "FR" p).2 = none ∧
      ((NewPostCodeValidator.ValidatePostalCode T "FR" p).1 = true ↔ FRForm p.data)) ∧
    (∀ T : CaseRanges,
      NewPostCodeValidator.ValidatePostalCode T "FR" "abc75001xyz" = (true, none) ∧
      NewPostCodeValidator.ValidatePostalCode T "FR" "1234567" = (true, none) ∧
      NewPostCodeValidator.ValidatePostalCode T "FR" "7500" = (false, none)) := by
  constructor
  · intro T p
    rw [ValidatePostalCode_builtin T "FR" p "FR" r"\d{2}[ ]?\d{3}" _
      (by decide) (by decide) (by decide) Compile_FR]
    exact ⟨rfl, (FR_matches _).trans (ToUpper_transfer_inside FRCore caseless_of_FRCore T p)⟩
  · intro T
    exact ⟨ValidatePostalCode_eval T _ _ _ (by decide) (by decide) (by decide),
      ValidatePostalCode_eval T _ _ _ (by decide) (by decide) (by decide),
      ValidatePostalCode_eval T _ _ _ (by decide) (by decide) (by decide)⟩

/-! ## Liechtenstein -/

theorem Compile_LI :
    Compile r"^(948[5-9])|(949[0-7])$" =
      .ok (.OpAlternate
        (.OpConcat .OpBeginText (.OpCapture
          (.OpConcat (.OpCharClass false [(57, 57)]) (.OpConcat (.OpCharClass false [(52, 52)])
            (.OpConcat (.OpCharClass false [(56, 56)]) (.OpCharClass false [(53, 57)]))))))
        (.OpConcat (.OpCapture
          (.OpConcat (.OpCharClass false [(57, 57)]) (.OpConcat (.OpCharClass false [(52, 52)])
            (.OpConcat (.OpCharClass false [(57, 57)]) (.OpCharClass false [(48, 55)])))))
          .OpEndText)) := by
  decide

theorem classMatches_range (lo hi : Nat) (c : Char) :
    classMatches false [(lo, hi)] c = true ↔ lo ≤ c.toNat ∧ c.toNat ≤ hi := by
  simp only [classMatches, inRanges, List.any_cons, List.any_nil, Bool.or_false, bne_iff_ne, ne_eq,
    Bool.not_eq_false, Bool.and_eq_true, decide_eq_true_eq]

/-- What three fixed runes and one rune of a range reach. -/
theorem mem_run_three_and_range (c1 c2 c3 : Char) (lo hi : Nat) (p q : Pos) :
    q ∈ (Regexp.OpConcat (.OpCharClass false [(c1.toNat, c1.toNat)])
        (.OpConcat (.OpCharClass false [(c2.toNat, c2.toNat)])
          (.OpConcat (.OpCharClass false [(c3.toNat, c3.toNat)])
            (.OpCharClass false [(lo, hi)])))).run p ↔
      ∃ d t, p.2 = c1 :: c2 :: c3 :: d :: t ∧ lo ≤ d.toNat ∧ d.toNat ≤ hi ∧ q = (some d, t) := by
  simp only [mem_run_concat, mem_run_class, classMatches_single, classMatches_range]
  constructor
  · rintro ⟨m1, ⟨a1, t1, h1, e1, rfl⟩, m2, ⟨a2, t2, h2, e2, rfl⟩, m3, ⟨a3, t3, h3, e3, rfl⟩,
      d, t, h4, hd, rfl⟩
    simp only at h2 h3 h4
    refine ⟨d, t, ?_, hd.1, hd.2, rfl⟩
    rw [h1, h2, h3, h4, char_eq_of_toNat_eq e1, char_eq_of_toNat_eq e2, char_eq_of_toNat_eq e3]
  · rintro ⟨d, t, h, hlo, hhi, rfl⟩
    exact ⟨(some c1, c2 :: c3 :: d :: t), ⟨c1, _, h, rfl, rfl⟩,
      (some c2, c3 :: d :: t), ⟨c2, _, rfl, rfl, rfl⟩,
      (some c3, d :: t), ⟨c3, _, rfl, rfl, rfl⟩, d, t, rfl, ⟨hlo, hhi⟩, rfl⟩

theorem begins_948 (l : List Char) :
    (∃ d t, l = '9' :: '4' :: '8' :: d :: t ∧ 53 ≤ d.toNat ∧ d.toNat ≤ 57) ↔
      BeginsWithOneOf ["9485", "9486", "9487", "9488", "9489"] l := by
  constructor
  · rintro ⟨d, t, rfl, h1, h2⟩
    have hd : d = '5' ∨ d = '6' ∨ d = '7' ∨ d = '8' ∨ d = '9' := by
      have : d.toNat = 53 ∨ d.toNat = 54 ∨ d.toNat = 55 ∨ d.toNat = 56 ∨ d.toNat = 57 := by
        omega
      rcases this with h | h | h | h | h
      · exact Or.inl (char_eq_of_toNat_eq h)
      · exact Or.inr (Or.inl (char_eq_of_toNat_eq h))
      · exact Or.inr (Or.inr (Or.inl (char_eq_of_toNat_eq h)))
      · exact Or.inr (Or.inr (Or.inr (Or.inl (char_eq_of_toNat_eq h))))
      · exact Or.inr (Or.inr (Or.inr (Or.inr (char_eq_of_toNat_eq h))))
    rcases hd with rfl | rfl | rfl | rfl | rfl
    · exact ⟨"9485", by simp, t, rfl⟩
    · exact ⟨"9486", by simp, t, rfl⟩
    · exact ⟨"9487", by simp, t, rfl⟩
    · exact ⟨"9488", by simp, t, rfl⟩
    · exact ⟨"9489", by simp, t, rfl⟩
  · rintro ⟨w, hw, t, rfl⟩
    simp only [List.mem_cons, List.mem_singleton, List.not_mem_nil, or_false] at hw
    rcases hw with rfl | rfl | rfl | rfl | rfl
    · exact ⟨'5', t, rfl, by decide, by decide⟩
    · exact ⟨'6', t, rfl, by decide, by decide⟩
    · exact ⟨'7', t, rfl, by decide, by decide⟩
    · exact ⟨'8', t, rfl, by decide, by decide⟩
    · exact ⟨'9', t, rfl, by decide, by decide⟩

theorem ends_949 (l : List Char) :
    (∃ pre d, l = pre ++ ['9', '4', '9', d] ∧ 48 ≤ d.toNat ∧ d.toNat ≤ 55) ↔
      EndsWithOneOf ["9490", "9491", "9492", "9493", "9494", "9495", "9496", "9497"] l := by
  constructor
  · rintro ⟨pre, d, rfl, h1, h2⟩
    have : d.toNat = 48 ∨ d.toNat = 49 ∨ d.toNat = 50 ∨ d.toNat = 51 ∨ d.toNat = 52 ∨
        d.toNat = 53 ∨ d.toNat = 54 ∨ d.toNat = 55 := by
      omega
    rcases this with h | h | h | h | h | h | h | h
    · rw [show d = '0' from char_eq_of_toNat_eq h]; exact ⟨"9490", by simp, pre, rfl⟩
    · rw [show d = '1' from char_eq_of_toNat_eq h]; exact ⟨"9491", by simp, pre, rfl⟩
    · rw [show d = '2' from char_eq_of_toNat_eq h]; exact ⟨"9492", by simp, pre, rfl⟩
    · rw [show d = '3' from char_eq_of_toNat_eq h]; exact ⟨"9493", by simp, pre, rfl⟩
    · rw [show d = '4' from char_eq_of_toNat_eq h]; exact ⟨"9494", by simp, pre, rfl⟩
    · rw [show d = '5' from char_eq_of_toNat_eq h]; exact ⟨"9495", by simp, pre, rfl⟩
    · rw [show d = '6' from char_eq_of_toNat_eq h]; exact ⟨"9496", by simp, pre, rfl⟩
    · rw [show d = '7' from char_eq_of_toNat_eq h]; exact ⟨"9497", by simp, pre, rfl⟩
  · rintro ⟨w, hw, pre, rfl⟩
    simp only [List.mem_cons, List.mem_singleton, List.not_mem_nil, or_false] at hw
    rcases hw with rfl | rfl | rfl | rfl | rfl | rfl | rfl | rfl
    · exact ⟨pre, '0', rfl, by decide, by decide⟩
    · exact ⟨pre, '1', rfl, by decide, by decide⟩
    · exact ⟨pre, '2', rfl, by decide, by decide⟩
    · exact ⟨pre, '3', rfl, by decide, by decide⟩
    · exact ⟨pre, '4', rfl, by decide, by decide⟩
    · exact ⟨pre, '5', rfl, by decide, by decide⟩
    · exact ⟨pre, '6', rfl, by decide, by decide⟩
    · exact ⟨pre, '7', rfl, by decide, by decide⟩

/-- The pattern of "LI": the start anchor belongs to the first branch only
and the end anchor to the second. -/
theorem LI_matches (s : String) :
    (Regexp.OpAlternate
        (.OpConcat .OpBeginText (.OpCapture
          (.OpConcat (.OpCharClass false [(57, 57)]) (.OpConcat (.OpCharClass false [(52, 52)])
            (.OpConcat (.OpCharClass false [(56, 56)]) (.OpCharClass false [(53, 57)]))))))
        (.OpConcat (.OpCapture
          (.OpConcat (.OpCharClass false [(57, 57)]) (.OpConcat (.OpCharClass false [(52, 52)])
            (.OpConcat (.OpCharClass false [(57, 57)]) (.OpCharClass false [(48, 55)])))))
          .OpEndText)).MatchString s = true ↔
    (BeginsWithOneOf ["9485", "9486", "9487", "9488", "9489"] s.data ∨
      EndsWithOneOf ["9490", "9491", "9492", "9493", "9494", "9495", "9496", "9497"] s.data) := by
  rw [MatchString_unanchored, ← begins_948, ← ends_949]
  have hA := mem_run_three_and_range '9' '4' '8' 53 57
  have hB := mem_run_three_and_range '9' '4' '9' 48 55
  simp only [show ('9' : Char).toNat = 57 from rfl, show ('4' : Char).toNat = 52 from rfl,
    show ('8' : Char).toNat = 56 from rfl] at hA hB
  simp only [mem_run_alternate, mem_run_concat, run_capture, mem_run_beginText, mem_run_endText,
    hA, hB]
  constructor
  · rintro ⟨pre, rest, q, hs, h | h⟩
    · obtain ⟨m, ⟨rfl, hnone⟩, d, t, ht, h1, h2, -⟩ := h
      have hpre : pre = [] := (prevAfter_eq_none.1 hnone).2
      subst hpre
      simp only at ht
      exact Or.inl ⟨d, t, by rw [hs, ht]; rfl, h1, h2⟩
    · obtain ⟨m, ⟨d, t, ht, h1, h2, rfl⟩, rfl, hend⟩ := h
      simp only at ht hend
      subst hend
      exact Or.inr ⟨pre, d, by rw [hs, ht], h1, h2⟩
  · rintro (⟨d, t, hs, h1, h2⟩ | ⟨pre, d, hs, h1, h2⟩)
    · exact ⟨[], s.data, (some d, t), rfl,
        Or.inl ⟨(none, s.data), ⟨rfl, rfl⟩, d, t, hs, h1, h2, rfl⟩⟩
    · exact ⟨pre, ['9', '4', '9', d], (some d, []), hs,
        Or.inr ⟨(some d, []), ⟨d, [], rfl, h1, h2, rfl⟩, rfl, rfl⟩⟩

/-- C15: for the built-in validator and every postal code `p`,
`ValidatePostalCode("LI", p)` returns `(true, nil)` if and only if the upper
case of `p` begins with one of 9485, ..., 9489 or ends with one of 9490, ...,
9497 (and the error is always nil): the alternation binds looser than the
anchors.  So "9485XYZ" and "XYZ9490" are accepted, although they are not
four-digit codes. -/
theorem C15_LI :
    (∀ (T : CaseRanges) (p : String),
      (NewPostCodeValidator.ValidatePostalCode T "LI" p).2 = none ∧
      (NewPostCodeValidator.ValidatePostalCode T "LI" p = (true, none) ↔
        (BeginsWithOneOf ["9485", "9486", "9487", "9488", "9489"] (strings.ToUpper T p).data ∨
          EndsWithOneOf ["9490", "9491", "9492", "9493", "9494", "9495", "9496", "9497"]
            (strings.ToUpper T p).data))) ∧
    (∀ T : CaseRanges,
      NewPostCodeValidator.ValidatePostalCode T "LI" "9485XYZ" = (true, none) ∧
      NewPostCodeValidator.ValidatePostalCode T "LI" "XYZ9490" = (true, none)) := by
  constructor
  · intro T p
    rw [ValidatePostalCode_builtin T "LI" p "LI" r"^(948[5-9])|(949[0-7])$" _
      (by decide) (by decide) (by decide) Compile_LI]
    refine ⟨rfl, ?_⟩
    rw [← LI_matches]
    constructor
    · intro h
      exact congrArg Prod.fst h
    · intro h
      exact Prod.ext h rfl
  · intro T
    exact ⟨ValidatePostalCode_eval T _ _ _ (by decide) (by decide) (by decide),
      ValidatePostalCode_eval T _ _ _ (by decide) (by decide) (by decide)⟩

/-! ## Great Britain -/

theorem Compile_GB :
    Compile (r"^(?i)([A-Z]){1}([0-9][0-9]|[0-9]|[A-Z][0-9][A-Z]|[A-Z][0-9][0-9]|[A-Z][0-9]|" ++
        r"[0-9][A-Z]){1}([ ])?([0-9][A-z][A-z]){1}$") =
      .ok (.OpConcat .OpBeginText (.OpConcat
        (.OpRepeat 1 (some 1) (.OpCapture
          (.OpCharClass false [(65, 90), (97, 122), (8490, 8490), (383, 383)])))
        (.OpConcat
          (.OpRepeat 1 (some 1) (.OpCapture
            (.OpAlternate
              (.OpConcat (.OpCharClass false [(48, 57)]) (.OpCharClass false [(48, 57)]))
              (.OpAlternate (.OpCharClass false [(48, 57)])
                (.OpAlternate
                  (.OpConcat (.OpCharClass false [(65, 90), (97, 122), (8490, 8490), (383, 383)])
                    (.OpConcat (.OpCharClass false [(48, 57)])
                      (.OpCharClass false [(65, 90), (97, 122), (8490, 8490), (383, 383)])))
                  (.OpAlternate
                    (.OpConcat
                      (.OpCharClass false [(65, 90), (97, 122), (8490, 8490), (383, 383)])
                      (.OpConcat (.OpCharClass false [(48, 57)])
                        (.OpCharClass false [(48, 57)])))
                    (.OpAlternate
                      (.OpConcat
                        (.OpCharClass false [(65, 90), (97, 122), (8490, 8490), (383, 383)])
                        (.OpCharClass false [(48, 57)]))
                      (.OpConcat (.OpCharClass false [(48, 57)])
                        (.OpCharClass false
                          [(65, 90), (97, 122), (8490, 8490), (383, 383)])))))))))
          (.OpConcat (.OpQuest (.OpCapture (.OpCharClass false [(32, 32)])))
            (.OpConcat
              (.OpRepeat 1 (some 1) (.OpCapture
                (.OpConcat (.OpCharClass false [(48, 57)])
                  (.OpConcat
                    (.OpCharClass false
                      [(65, 122), (65, 90), (97, 122), (8490, 8490), (383, 383)])
                    (.OpCharClass false
                      [(65, 122), (65, 90), (97, 122), (8490, 8490), (383, 383)])))))
              .OpEndText))))) := by
  decide

theorem mem_timesRun_one {f : Pos → List Pos} {p q : Pos} :
    q ∈ timesRun f 1 p ↔ q ∈ f p := by
  simp only [timesRun, List.mem_flatMap, List.mem_singleton]
  constructor
  · rintro ⟨m, hm, rfl⟩
    exact hm
  · intro h
    exact ⟨q, h, rfl⟩

/-- The class that `[A-z]` is under `(?i)` holds every rune from `A` to `z`,
the six punctuation runes between the capitals and the small letters
included. -/
theorem classMatches_A_to_z (c : Char) (h1 : 65 ≤ c.toNat) (h2 : c.toNat ≤ 122) :
    classMatches false [(65, 122), (65, 90), (97, 122), (8490, 8490), (383, 383)] c = true := by
  simp only [classMatches, inRanges, List.any_cons, List.any_nil, Bool.or_false, bne_iff_ne, ne_eq,
    Bool.not_eq_false, Bool.or_eq_true, Bool.and_eq_true, decide_eq_true_eq]
  exact Or.inl ⟨h1, h2⟩

/-- The upper case of a rune between `A` and `z` is between `A` and `z`. -/
theorem ToUpper_A_to_z (T : CaseRanges) (c : Char) (h1 : 65 ≤ c.toNat) (h2 : c.toNat ≤ 122) :
    65 ≤ (unicode.ToUpper T c).toNat ∧ (unicode.ToUpper T c).toNat ≤ 122 := by
  by_cases h : 97 ≤ c.toNat ∧ c.toNat ≤ 122
  · rw [ToUpper_toNat_lower T c h]
    omega
  · rw [ToUpper_of_not_lower T c (by omega) h]
    exact ⟨h1, h2⟩

/-- The GB pattern accepts "A1 1" followed by any two runes whose upper case
lies between `A` and `z`. -/
theorem GB_accepts (T : CaseRanges) (x y : Char) (hx1 : 65 ≤ x.toNat) (hx2 : x.toNat ≤ 122)
    (hy1 : 65 ≤ y.toNat) (hy2 : y.toNat ≤ 122) :
    Regexp.MatchString
      (.OpConcat .OpBeginText (.OpConcat
        (.OpRepeat 1 (some 1) (.OpCapture
          (.OpCharClass false [(65, 90), (97, 122), (8490, 8490), (383, 383)])))
        (.OpConcat
          (.OpRepeat 1 (some 1) (.OpCapture
            (.OpAlternate
              (.OpConcat (.OpCharClass false [(48, 57)]) (.OpCharClass false [(48, 57)]))
              (.OpAlternate (.OpCharClass false [(48, 57)])
                (.OpAlternate
                  (.OpConcat (.OpCharClass false [(65, 90), (97, 122), (8490, 8490), (383, 383)])
                    (.OpConcat (.OpCharClass false [(48, 57)])
                      (.OpCharClass false [(65, 90), (97, 122), (8490, 8490), (383, 383)])))
                  (.OpAlternate
                    (.OpConcat
                      (.OpCharClass false [(65, 90), (97, 122), (8490, 8490), (383, 383)])
                      (.OpConcat (.OpCharClass false [(48, 57)])
                        (.OpCharClass false [(48, 57)])))
                    (.OpAlternate
                      (.OpConcat
                        (.OpCharClass false [(65, 90), (97, 122), (8490, 8490), (383, 383)])
                        (.OpCharClass false [(48, 57)]))
                      (.OpConcat (.OpCharClass false [(48, 57)])
                        (.OpCharClass false
                          [(65, 90), (97, 122), (8490, 8490), (383, 383)])))))))))
          (.OpConcat (.OpQuest (.OpCapture (.OpCharClass false [(32, 32)])))
            (.OpConcat
              (.OpRepeat 1 (some 1) (.OpCapture
                (.OpConcat (.OpCharClass false [(48, 57)])
                  (.OpConcat
                    (.OpCharClass false
                      [(65, 122), (65, 90), (97, 122), (8490, 8490), (383, 383)])
                    (.OpCharClass false
                      [(65, 122), (65, 90), (97, 122), (8490, 8490), (383, 383)])))))
              .OpEndText)))))
      (strings.ToUpper T (String.mk ['A', '1', ' ', '1', x, y])) = true := by
  have hu : (strings.ToUpper T (String.mk ['A', '1', ' ', '1', x, y])).data =
      ['A', '1', ' ', '1', unicode.ToUpper T x, unicode.ToUpper T y] := by
    simp only [strings.ToUpper, List.map_cons, List.map_nil,
      ToUpper_of_not_lower T 'A' (by decide) (by decide),
      ToUpper_of_not_lower T '1' (by decide) (by decide),
      ToUpper_of_not_lower T ' ' (by decide) (by decide)]
  have hx := classMatches_A_to_z _ (ToUpper_A_to_z T x hx1 hx2).1 (ToUpper_A_to_z T x hx1 hx2).2
  have hy := classMatches_A_to_z _ (ToUpper_A_to_z T y hy1 hy2).1 (ToUpper_A_to_z T y hy1 hy2).2
  rw [MatchString_beginText, hu]
  simp only [mem_run_concat, mem_run_repeat_exact, mem_timesRun_one, run_capture,
    mem_run_alternate, mem_run_quest, mem_run_class, mem_run_endText]
  exact ⟨(some (unicode.ToUpper T y), []),
    (some 'A', ['1', ' ', '1', unicode.ToUpper T x, unicode.ToUpper T y]),
    ⟨'A', _, rfl, by decide, rfl⟩,
    (some '1', [' ', '1', unicode.ToUpper T x, unicode.ToUpper T y]),
    Or.inr (Or.inl ⟨'1', _, rfl, by decide, rfl⟩),
    (some ' ', ['1', unicode.ToUpper T x, unicode.ToUpper T y]),
    Or.inr ⟨' ', _, rfl, by decide, rfl⟩,
    (some (unicode.ToUpper T y), []),
    ⟨(some '1', [unicode.ToUpper T x, unicode.ToUpper T y]), ⟨'1', _, rfl, by decide, rfl⟩,
      (some (unicode.ToUpper T x), [unicode.ToUpper T y]),
      ⟨unicode.ToUpper T x, _, rfl, hx, rfl⟩,
      unicode.ToUpper T y, [], rfl, hy, rfl⟩,
    rfl, rfl⟩

/-- C16: for the built-in validator, the last two runes of a GB postal code
are accepted when they are any runes from `A` to `z`, not only letters: "A1 1"
followed by two such runes gives `(true, nil)`, and so does "A1 1[]", whose
last two runes are no letters. -/
theorem C16_GB :
    (∀ (T : CaseRanges) (x y : Char), 65 ≤ x.toNat → x.toNat ≤ 122 → 65 ≤ y.toNat →
      y.toNat ≤ 122 →
      NewPostCodeValidator.ValidatePostalCode T "GB" (String.mk ['A', '1', ' ', '1', x, y]) =
        (true, none)) ∧
    (∀ T : CaseRanges,
      NewPostCodeValidator.ValidatePostalCode T "GB" "A1 1[]" = (true, none)) := by
  have hl : NewPostCodeValidator.CountryRegexMapping.lookup "GB" =
      some (r"^(?i)([A-Z]){1}([0-9][0-9]|[0-9]|[A-Z][0-9][A-Z]|[A-Z][0-9][0-9]|[A-Z][0-9]|" ++
        r"[0-9][A-Z]){1}([ ])?([0-9][A-z][A-z]){1}$") := by
    decide
  have main : ∀ (T : CaseRanges) (x y : Char), 65 ≤ x.toNat → x.toNat ≤ 122 → 65 ≤ y.toNat →
      y.toNat ≤ 122 →
      NewPostCodeValidator.ValidatePostalCode T "GB" (String.mk ['A', '1', ' ', '1', x, y]) =
        (true, none) := by
    intro T x y hx1 hx2 hy1 hy2
    rw [ValidatePostalCode_builtin T "GB" _ "GB" _ _ (by decide) (by decide) hl Compile_GB,
      GB_accepts T x y hx1 hx2 hy1 hy2]
  refine ⟨main, fun T => ?_⟩
  have e : "A1 1[]" = String.mk ['A', '1', ' ', '1', '[', ']'] := by decide
  rw [e]
  exact main T '[' ']' (by decide) (by decide) (by decide) (by decide)

/-- Witness for C16: the two runes `[` and `]`. -/
theorem C16_GB_witness :
    NewPostCodeValidator.ValidatePostalCode asciiCaseRanges "GB"
      (String.mk ['A', '1', ' ', '1', '[', ']']) = (true, none) :=
  C16_GB.1 asciiCaseRanges '[' ']' (by decide) (by decide) (by decide) (by decide)

/-! ## The international pattern -/

theorem Compile_INTL :
    Compile r"^(?:[A-Z0-9]+([- ]?[A-Z0-9]+)*)?$" =
      .ok (.OpConcat .OpBeginText (.OpConcat
        (.OpQuest (.OpConcat (.OpPlus (.OpCharClass false [(65, 90), (48, 57)]))
          (.OpStar (.OpCapture
            (.OpConcat (.OpQuest (.OpCharClass false [(45, 45), (32, 32)]))
              (.OpPlus (.OpCharClass false [(65, 90), (48, 57)])))))))
        .OpEndText)) := by
  decide

theorem classMatches_upperAlnum (c : Char) :
    classMatches false [(65, 90), (48, 57)] c = true ↔ IsUpperAlnum c := by
  simp only [classMatches, inRanges, List.any_cons, List.any_nil, Bool.or_false, bne_iff_ne, ne_eq,
    Bool.not_eq_false, Bool.or_eq_true, Bool.and_eq_true, decide_eq_true_eq, IsUpperAlnum]

theorem classMatches_separator (c : Char) :
    classMatches false [(45, 45), (32, 32)] c = true ↔ IsSeparator c := by
  simp only [classMatches, inRanges, List.any_cons, List.any_nil, Bool.or_false, bne_iff_ne, ne_eq,
    Bool.not_eq_false, Bool.or_eq_true, Bool.and_eq_true, decide_eq_true_eq, IsSeparator]
  omega

/-- What a class with `+` reaches: a non-empty run of runes of the class. -/
theorem mem_run_plus_class {neg : Bool} {rs : List (Nat × Nat)} {p q : Pos} :
    q ∈ (Regexp.OpPlus (.OpCharClass neg rs)).run p ↔
      ∃ a, a ≠ [] ∧ (∀ c ∈ a, classMatches neg rs c = true) ∧ p.2 = a ++ q.2 ∧
        q.1 = prevAfter p.1 a := by
  simp only [Regexp.run, List.mem_flatMap]
  constructor
  · rintro ⟨m, hm, hq⟩
    obtain ⟨c, t, hp, hc, rfl⟩ := mem_run_class.1 hm
    obtain ⟨a, hall, ht, hpa⟩ := (mem_starRun_class_pair t.length (some c) t q (Nat.le_refl _)).1 hq
    refine ⟨c :: a, by simp, ?_, by rw [hp, ht]; rfl, hpa⟩
    intro d hd
    rcases List.mem_cons.1 hd with rfl | hd
    · exact hc
    · exact hall d hd
  · rintro ⟨a, hne, hall, hp, hpa⟩
    cases a with
    | nil => exact absurd rfl hne
    | cons c a =>
      refine ⟨(some c, a ++ q.2), mem_run_class.2 ⟨c, _, hp, hall c (by simp), rfl⟩, ?_⟩
      exact (mem_starRun_class_pair _ (some c) (a ++ q.2) q (Nat.le_refl _)).2
        ⟨a, fun d hd => hall d (by simp [hd]), rfl, hpa⟩

/-- One round of the starred group of the international pattern: an optional
separator and a non-empty run of letters and digits. -/
theorem mem_run_INTL_group {p q : Pos} :
    q ∈ (Regexp.OpCapture (.OpConcat (.OpQuest (.OpCharClass false [(45, 45), (32, 32)]))
        (.OpPlus (.OpCharClass false [(65, 90), (48, 57)])))).run p ↔
      ∃ s a, (s = [] ∨ ∃ d, s = [d] ∧ IsSeparator d) ∧ a ≠ [] ∧ (∀ c ∈ a, IsUpperAlnum c) ∧
        p.2 = s ++ a ++ q.2 ∧ q.1 = prevAfter p.1 (s ++ a) := by
  simp only [run_capture, mem_run_concat, mem_run_quest, mem_run_class, mem_run_plus_class,
    classMatches_upperAlnum, classMatches_separator]
  constructor
  · rintro ⟨m, hm, a, hne, hall, hp, hpa⟩
    rcases hm with rfl | ⟨d, t, hd, hsep, rfl⟩
    · exact ⟨[], a, Or.inl rfl, hne, hall, by simpa using hp, by simpa using hpa⟩
    · refine ⟨[d], a, Or.inr ⟨d, rfl, hsep⟩, hne, hall, ?_, ?_⟩
      · simp only at hp
        rw [hd, hp]
        rfl
      · rw [hpa]
        rfl
  · rintro ⟨s, a, hs, hne, hall, hp, hpa⟩
    rcases hs with rfl | ⟨d, rfl, hsep⟩
    · exact ⟨p, Or.inl rfl, a, hne, hall, by simpa using hp, by simpa using hpa⟩
    · exact ⟨(some d, a ++ q.2), Or.inr ⟨d, a ++ q.2, by simpa using hp, hsep, rfl⟩,
        a, hne, hall, rfl, by rw [hpa]; rfl⟩

theorem not_separator_of_upperAlnum {c : Char} (h : IsUpperAlnum c) : ¬ IsSeparator c := by
  unfold IsUpperAlnum at h
  unfold IsSeparator
  omega

theorem chain_of_upperAlnum (a : List Char) (h : ∀ c ∈ a, IsUpperAlnum c) :
    List.Chain' (fun a b => ¬ (IsSeparator a ∧ IsSeparator b)) a := by
  induction a with
  | nil => exact List.chain'_nil
  | cons c a ih =>
    rw [List.chain'_cons']
    refine ⟨?_, ih (fun d hd => h d (List.mem_cons_of_mem _ hd))⟩
    intro y _ hy
    exact not_separator_of_upperAlnum (h c (List.mem_cons_self _ _)) hy.1

/-- A non-empty run of letters and digits has the form. -/
theorem INTLBody_of_upperAlnum (a : List Char) (hne : a ≠ []) (h : ∀ c ∈ a, IsUpperAlnum c) :
    INTLBody a := by
  refine ⟨fun c hc => Or.inl (h c hc), ?_, ?_, chain_of_upperAlnum a h⟩
  · cases a with
    | nil => exact absurd rfl hne
    | cons c t => exact ⟨c, t, rfl, h c (List.mem_cons_self _ _)⟩
  · rcases List.eq_nil_or_concat a with h0 | ⟨t, c, h0⟩
    · exact absurd h0 hne
    · rw [List.concat_eq_append] at h0
      exact ⟨t, c, h0, h c (by rw [h0]; simp)⟩

/-- The form is kept when an optional separator and a non-empty run of
letters and digits are added at the end. -/
theorem INTLBody_append (w s a : List Char) (hw : INTLBody w)
    (hs : s = [] ∨ ∃ d, s = [d] ∧ IsSeparator d) (hne : a ≠ [])
    (ha : ∀ c ∈ a, IsUpperAlnum c) : INTLBody (w ++ s ++ a) := by
  obtain ⟨hall, ⟨c0, t0, hw0, hc0⟩, ⟨t1, c1, hw1, hc1⟩, hch⟩ := hw
  have hsall : ∀ c ∈ s, IsUpperAlnum c ∨ IsSeparator c := by
    rcases hs with rfl | ⟨d, rfl, hd⟩
    · intro c hc
      simp at hc
    · intro c hc
      rw [List.mem_singleton.1 hc]
      exact Or.inr hd
  refine ⟨?_, ?_, ?_, ?_⟩
  · intro c hc
    rcases List.mem_append.1 hc with hc | hc
    · rcases List.mem_append.1 hc with hc | hc
      · exact hall c hc
      · exact hsall c hc
    · exact Or.inl (ha c hc)
  · exact ⟨c0, t0 ++ s ++ a, by rw [hw0]; simp, hc0⟩
  · rcases List.eq_nil_or_concat a with h0 | ⟨t, c, h0⟩
    · exact absurd h0 hne
    · rw [List.concat_eq_append] at h0
      exact ⟨w ++ s ++ t, c, by rw [h0]; simp, ha c (by rw [h0]; simp)⟩
  · rw [List.append_assoc]
    apply List.Chain'.append hch
    · rcases hs with rfl | ⟨d, rfl, hd⟩
      · exact chain_of_upperAlnum a ha
      · rw [List.singleton_append, List.chain'_cons']
        refine ⟨?_, chain_of_upperAlnum a ha⟩
        intro y hy hsep
        have hya : y ∈ a := List.mem_of_mem_head? hy
        exact not_separator_of_upperAlnum (ha y hya) hsep.2
    · intro x hx y _ hsep
      rw [hw1, List.getLast?_concat] at hx
      have hx' : c1 = x := by simpa using hx
      rw [← hx'] at hsep
      exact not_separator_of_upperAlnum hc1 hsep.1

/-- A beginning of a text of the form that ends with a letter or digit has
the form. -/
theorem INTLBody_init (w0 v : List Char) (t : List Char) (e : Char) (hw0 : w0 = t ++ [e])
    (he : IsUpperAlnum e) (h : INTLBody (w0 ++ v)) : INTLBody w0 := by
  obtain ⟨hall, ⟨c0, t0, hc, hc0⟩, -, hch⟩ := h
  refine ⟨fun c hc' => hall c (List.mem_append_left _ hc'), ?_, ⟨t, e, hw0, he⟩,
    List.Chain'.left_of_append hch⟩
  cases w0 with
  | nil => simp at hw0
  | cons x w0' =>
    simp only [List.cons_append, List.cons.injEq] at hc
    exact ⟨x, w0', rfl, hc.1 ▸ hc0⟩

/-- A text of the form is one letter or digit, or a shorter text of the form
followed by a letter or digit, or by a separator and a letter or digit. -/
theorem INTLBody_peel (w : List Char) (h : INTLBody w) :
    (∃ c, w = [c] ∧ IsUpperAlnum c) ∨
    (∃ w0 c, INTLBody w0 ∧ IsUpperAlnum c ∧ w = w0 ++ [c]) ∨
    (∃ w1 d c, INTLBody w1 ∧ IsSeparator d ∧ IsUpperAlnum c ∧ w = w1 ++ [d, c]) := by
  obtain ⟨hall, ⟨c0, t0, hc, hc0⟩, ⟨t1, c1, hw1, hc1⟩, hch⟩ := id h
  rcases List.eq_nil_or_concat t1 with h1 | ⟨t2, d, h1⟩
  · left
    exact ⟨c1, by rw [hw1, h1]; rfl, hc1⟩
  · rw [List.concat_eq_append] at h1
    right
    have hd : IsUpperAlnum d ∨ IsSeparator d := hall d (by rw [hw1, h1]; simp)
    rcases hd with hd | hd
    · left
      exact ⟨t1, c1, INTLBody_init t1 [c1] t2 d h1 hd (hw1 ▸ h), hc1, hw1⟩
    · right
      have hw2 : w = t2 ++ [d, c1] := by rw [hw1, h1]; simp
      rcases List.eq_nil_or_concat t2 with h2 | ⟨t3, e, h2⟩
      · exfalso
        rw [hw2, h2] at hc
        simp only [List.nil_append, List.cons.injEq] at hc
        exact not_separator_of_upperAlnum (hc.1 ▸ hc0) hd
      · rw [List.concat_eq_append] at h2
        have he : IsUpperAlnum e ∨ IsSeparator e := hall e (by rw [hw2, h2]; simp)
        have hed : ¬ (IsSeparator e ∧ IsSeparator d) := by
          have hch' := hch
          rw [hw2, h2, List.append_assoc] at hch'
          have := (List.chain'_append.1 hch').2.1
          simp only [List.singleton_append] at this
          exact (List.chain'_cons.1 this).1
        rcases he with he | he
        · exact ⟨t2, d, c1, INTLBody_init t2 [d, c1] t3 e h2 he (hw2 ▸ h), hd, hc1, hw2⟩
        · exact absurd ⟨he, hd⟩ hed

theorem mem_run_concat_star_base {X G : Regexp} {p q : Pos} (h : q ∈ X.run p) :
    q ∈ (Regexp.OpConcat X (.OpStar G)).run p :=
  mem_run_concat.2 ⟨q, h, mem_run_star.2 Relation.ReflTransGen.refl⟩

theorem mem_run_concat_star_tail {X G : Regexp} {p q q' : Pos}
    (h : q ∈ (Regexp.OpConcat X (.OpStar G)).run p) (hq : q' ∈ G.run q) :
    q' ∈ (Regexp.OpConcat X (.OpStar G)).run p := by
  obtain ⟨m, hm, hs⟩ := mem_run_concat.1 h
  exact mem_run_concat.2 ⟨m, hm, mem_run_star.2 ((mem_run_star.1 hs).tail hq)⟩

/-- The body of the international pattern reads every text of the form. -/
theorem INTL_body_reads (n : Nat) :
    ∀ w : List Char, w.length = n → INTLBody w → ∀ (pr : Option Char) (rest : List Char),
      (prevAfter pr w, rest) ∈
        (Regexp.OpConcat (.OpPlus (.OpCharClass false [(65, 90), (48, 57)]))
          (.OpStar (.OpCapture
            (.OpConcat (.OpQuest (.OpCharClass false [(45, 45), (32, 32)]))
              (.OpPlus (.OpCharClass false [(65, 90), (48, 57)])))))).run (pr, w ++ rest) := by
  induction n using Nat.strong_induction_on with
  | _ n ih =>
    intro w hn hw pr rest
    rcases INTLBody_peel w hw with ⟨c, rfl, hc⟩ | ⟨w0, c, hw0, hc, rfl⟩ | ⟨w1, d, c, hw1, hd, hc, rfl⟩
    · apply mem_run_concat_star_base
      rw [mem_run_plus_class]
      refine ⟨[c], by simp, ?_, rfl, rfl⟩
      intro x hx
      rw [List.mem_singleton.1 hx]
      exact (classMatches_upperAlnum c).2 hc
    · have h0 := ih w0.length (by rw [← hn]; simp) w0 rfl hw0 pr ([c] ++ rest)
      rw [List.append_assoc]
      refine mem_run_concat_star_tail h0 ?_
      rw [mem_run_INTL_group]
      refine ⟨[], [c], Or.inl rfl, by simp, ?_, rfl, ?_⟩
      · intro x hx
        rw [List.mem_singleton.1 hx]
        exact hc
      · simp only [List.nil_append, prevAfter_append]
    · have h1 := ih w1.length (by rw [← hn]; simp) w1 rfl hw1 pr ([d, c] ++ rest)
      rw [List.append_assoc]
      refine mem_run_concat_star_tail h1 ?_
      rw [mem_run_INTL_group]
      refine ⟨[d], [c], Or.inr ⟨d, rfl, hd⟩, by simp, ?_, rfl, ?_⟩
      · intro x hx
        rw [List.mem_singleton.1 hx]
        exact hc
      · simp only [prevAfter_append]
        rfl

/-- What the body of the international pattern has read has the form. -/
theorem INTL_body_form {p q : Pos}
    (h : q ∈ (Regexp.OpConcat (.OpPlus (.OpCharClass false [(65, 90), (48, 57)]))
          (.OpStar (.OpCapture
            (.OpConcat (.OpQuest (.OpCharClass false [(45, 45), (32, 32)]))
              (.OpPlus (.OpCharClass false [(65, 90), (48, 57)])))))).run p) :
    ∃ w, INTLBody w ∧ p.2 = w ++ q.2 := by
  obtain ⟨m, hm, hs⟩ := mem_run_concat.1 h
  obtain ⟨a, hne, hall, hp, -⟩ := mem_run_plus_class.1 hm
  have hall' : ∀ c ∈ a, IsUpperAlnum c := fun c hc => (classMatches_upperAlnum c).1 (hall c hc)
  have hchain := mem_run_star.1 hs
  induction hchain with
  | refl => exact ⟨a, INTLBody_of_upperAlnum a hne hall', hp⟩
  | tail _ hstep ih =>
    rename_i x y hxy
    obtain ⟨w, hw, hpw⟩ := ih (mem_run_concat.2 ⟨m, hm, mem_run_star.2 hxy⟩) (mem_run_star.2 hxy)
    obtain ⟨s, b, hs', hbne, hb, hx, -⟩ := mem_run_INTL_group.1 hstep
    exact ⟨w ++ s ++ b, INTLBody_append w s b hw hs' hbne hb, by
      rw [hpw, hx]; simp⟩

/-- The international pattern matches exactly the texts of the international
form. -/
theorem INTL_matches (s : String) :
    (Regexp.OpConcat .OpBeginText (.OpConcat
        (.OpQuest (.OpConcat (.OpPlus (.OpCharClass false [(65, 90), (48, 57)]))
          (.OpStar (.OpCapture
            (.OpConcat (.OpQuest (.OpCharClass false [(45, 45), (32, 32)]))
              (.OpPlus (.OpCharClass false [(65, 90), (48, 57)])))))))
        .OpEndText)).MatchString s = true ↔
    INTLForm s.data := by
  rw [MatchString_beginText]
  constructor
  · rintro ⟨q, hq⟩
    obtain ⟨m, hm, hq'⟩ := mem_run_concat.1 hq
    obtain ⟨rfl, hend⟩ := mem_run_endText.1 hq'
    rcases mem_run_quest.1 hm with rfl | hm
    · exact Or.inl hend
    · obtain ⟨w, hw, hl⟩ := INTL_body_form hm
      rw [hend, List.append_nil] at hl
      exact Or.inr (by rw [show s.data = w from hl]; exact hw)
  · rintro (h | h)
    · exact ⟨(none, s.data), mem_run_concat.2 ⟨(none, s.data), mem_run_quest.2 (Or.inl rfl),
        mem_run_endText.2 ⟨rfl, h⟩⟩⟩
    · have := INTL_body_reads _ s.data rfl h none []
      rw [List.append_nil] at this
      exact ⟨_, mem_run_concat.2 ⟨_, mem_run_quest.2 (Or.inr this), mem_run_endText.2 ⟨rfl, rfl⟩⟩⟩

/-- C17: for the built-in validator and every postal code `p`,
`ValidatePostalCode("INTL", p)` returns a nil error, and returns `true` if and
only if the upper case of `p` is empty, or is a non-empty text over ASCII
capital letters, ASCII digits, hyphen and space that begins and ends with a
letter or digit and never has two separators in a row.  "" and "ab-12 cd"
give `(true, nil)`; "AB--12", "-AB" and "AB " give `(false, nil)`. -/
theorem C17_INTL :
    (∀ (T : CaseRanges) (p : String),
      (NewPostCodeValidator.ValidatePostalCode T "INTL" p).2 = none ∧
      ((NewPostCodeValidator.ValidatePostalCode T "INTL" p).1 = true ↔
        INTLForm (strings.ToUpper T p).data)) ∧
    (∀ T : CaseRanges,
      NewPostCodeValidator.ValidatePostalCode T "INTL" "" = (true, none) ∧
      NewPostCodeValidator.ValidatePostalCode T "INTL" "ab-12 cd" = (true, none) ∧
      NewPostCodeValidator.ValidatePostalCode T "INTL" "AB--12" = (false, none) ∧
      NewPostCodeValidator.ValidatePostalCode T "INTL" "-AB" = (false, none) ∧
      NewPostCodeValidator.ValidatePostalCode T "INTL" "AB " = (false, none)) := by
  constructor
  · intro T p
    rw [ValidatePostalCode_builtin T "INTL" p "INTL" r"^(?:[A-Z0-9]+([- ]?[A-Z0-9]+)*)?$" _
      (by decide) (by decide) (by decide) Compile_INTL]
    exact ⟨rfl, INTL_matches _⟩
  · intro T
    exact ⟨ValidatePostalCode_eval T _ _ _ (by decide) (by decide) (by decide),
      ValidatePostalCode_eval T _ _ _ (by decide) (by decide) (by decide),
      ValidatePostalCode_eval T _ _ _ (by decide) (by decide) (by decide),
      ValidatePostalCode_eval T _ _ _ (by decide) (by decide) (by decide),
      ValidatePostalCode_eval T _ _ _ (by decide) (by decide) (by decide)⟩

end Postcode
